import Mathlib

/-! Smilei: patch geometry metadata, the scalar diagnostic and the laser envelope.

A shallow embedding of

* `src/Patch/Patch.h`: the neighbour table test `locateOnBorders` with its named
  wrappers, the moving-window metadata update `updateMvWinLimits` and the
  communication tag `buildtag`;
* `src/Diagnostic/DiagnosticScalar.cpp`: the column list (`prepend`, `append`,
  `getScalar`), the allow-list test `allowedKey`, the report writer `write`, the
  reduction `compute`, `openFile` and the driver `run`;
* `src/ElectroMagn/LaserEnvelope3D.cpp`: the shape computed by the constructor, the
  explicit envelope solver `compute`, and the ponderomotive potential with
  `compute_Phi`, `compute_gradient_Phi` and `savePhi_and_GradPhi`.

The decomposition into patches, whose code is not among these sources, is modelled
from the specification.

Conventions of the embedding.

* A C++ `double` is a rational number: every statement about values is a statement
  over exact arithmetic. The one product of `double` values on which a branch of the
  code depends, the time `(double)timestep * dt` of `run`, is formed by a
  multiplication that is a parameter, so that `run` is followed with the rounding of
  the machine.
* A C++ `int` is an integer; signed overflow is undefined behaviour in C++, so the
  defined executions are the ones of integer arithmetic. An `unsigned int` is a
  natural number, reduced modulo `2 ^ 32` where the source can wrap.
* A `std::vector` is a list; an access outside the vector has no defined result in
  C++. It is `none` in the embedding of the patch geometry; the reads `isDual_[i]`,
  `dims_[i]`, `poynting[j][i]` and `poynting_inst[j][i]` of `compute` are within the
  vectors in every run of the code, and read 0 outside them in the embedding.
-/

namespace Smilei

/-! ## Patch geometry (`src/Patch/Patch.h`) -/

/-- Read `v[i]` for a signed C++ index `i`: `none` outside the vector. -/
def vecAt {α : Type} (v : List α) (i : Int) : Option α :=
  if 0 ≤ i then v[i.toNat]? else none

/-- The geometry members of `class Patch` (`Patch.h`, lines 72-76, 199 and 205-229). -/
structure Patch where
  hindex : Nat
  Pcoordinates : List Nat
  MPI_me_ : Int
  nDim_fields_ : Int
  nbNeighbors_ : Int
  neighbor_ : List (List Int)
  corner_neighbor_ : List (List Int)
  MPI_neighbor_ : List (List Int)
  min_local : List ℚ
  max_local : List ℚ
  cell_starting_global_index : List Int
  oversize : List Nat
deriving DecidableEq

/-- The entry `neighbor_[dir][way]` of the neighbour table, when it exists. -/
def Patch.neighborAt (p : Patch) (dir way : Int) : Option Int :=
  (vecAt p.neighbor_ dir).bind (fun row => vecAt row way)

/-- The method `Patch::locateOnBorders(dir, way)`; `MPI_PROC_NULL` is the constant of the MPI
library, a parameter here. -/
def Patch.locateOnBorders (MPI_PROC_NULL : Int) (p : Patch) (dir way : Int) :
    Option Bool :=
  match p.neighborAt dir way with
  | none => none
  | some n => if n = MPI_PROC_NULL then some true else some false

/-- The method `Patch::isWestern()`. -/
def Patch.isWestern (MPI_PROC_NULL : Int) (p : Patch) : Option Bool :=
  p.locateOnBorders MPI_PROC_NULL 0 0

/-- The method `Patch::isEastern()`. -/
def Patch.isEastern (MPI_PROC_NULL : Int) (p : Patch) : Option Bool :=
  p.locateOnBorders MPI_PROC_NULL 0 1

/-- The method `Patch::isSouthern()`. -/
def Patch.isSouthern (MPI_PROC_NULL : Int) (p : Patch) : Option Bool :=
  p.locateOnBorders MPI_PROC_NULL 1 0

/-- The method `Patch::isNorthern()`. -/
def Patch.isNorthern (MPI_PROC_NULL : Int) (p : Patch) : Option Bool :=
  p.locateOnBorders MPI_PROC_NULL 1 1

/-- The method `Patch::updateMvWinLimits(x_moved, idx_moved)`: the three statements
`min_local[0] += x_moved; max_local[0] += x_moved;
cell_starting_global_index[0] += idx_moved;`. Each of them reads entry 0 of a vector,
so the call has a result only when the three vectors have an entry 0. -/
def Patch.updateMvWinLimits (p : Patch) (x_moved : ℚ) (idx_moved : Int) : Option Patch :=
  match p.min_local, p.max_local, p.cell_starting_global_index with
  | mn :: mns, mx :: mxs, c :: cs =>
      some { p with
        min_local := (mn + x_moved) :: mns
        max_local := (mx + x_moved) :: mxs
        cell_starting_global_index := (c + idx_moved) :: cs }
  | _, _, _ => none

/-! ## The scalar diagnostic (`src/Diagnostic/DiagnosticScalar.cpp`) -/

/-- The members of `class DiagnosticScalar` used by the functions of
`DiagnosticScalar.cpp`. `out_list` is the column list, `vars` the allow-list, `fout` the
text written so far to the report `scalars.txt` (so the stream position is its length),
and `notes` collects the messages handed to `DEBUG`. -/
structure DiagnosticScalar where
  out_list : List (String × ℚ)
  vars : List String
  precision : Nat
  res_time : ℚ
  dt : ℚ
  every : Nat
  tmin : ℚ
  tmax : ℚ
  cell_volume : ℚ
  Energy_time_zero : ℚ
  EnergyUsedForNorm : ℚ
  fout : String
  notes : List String
deriving DecidableEq

namespace DiagnosticScalar

/-- Modelled from the spec: the `DEBUG` output of the code base (its definition is not
among the given sources) emits a low-severity note and lets the caller continue. -/
def DEBUG (d : DiagnosticScalar) (msg : String) : DiagnosticScalar :=
  { d with notes := d.notes ++ [msg] }

/-- The loop of `allowedKey`: `for (i = 0; i < s; i++) if (my_var == vars[i]) return true;`
followed by `return false`. -/
def allowedKeyLoop (my_var : String) : List String → Bool
  | [] => false
  | v :: vs => if my_var = v then true else allowedKeyLoop my_var vs

/-- The method `DiagnosticScalar::allowedKey(my_var)`. -/
def allowedKey (d : DiagnosticScalar) (my_var : String) : Bool :=
  let s := d.vars.length
  if s = 0 then true else allowedKeyLoop my_var d.vars

/-- The method `DiagnosticScalar::prepend(my_var, val)`: `out_list.insert(out_list.begin(), ...)`. -/
def prepend (d : DiagnosticScalar) (my_var : String) (val : ℚ) : DiagnosticScalar :=
  { d with out_list := (my_var, val) :: d.out_list }

/-- The method `DiagnosticScalar::append(my_var, val)`: `out_list.push_back(...)`. -/
def append (d : DiagnosticScalar) (my_var : String) (val : ℚ) : DiagnosticScalar :=
  { d with out_list := d.out_list ++ [(my_var, val)] }

/-- The loop of `getScalar`: the value of the first entry whose name is `my_var`. -/
def getScalarLoop (my_var : String) : List (String × ℚ) → Option ℚ
  | [] => none
  | e :: es => if e.1 = my_var then some e.2 else getScalarLoop my_var es

/-- The method `DiagnosticScalar::getScalar(my_var)`: the returned value and the diagnostic after
the call. -/
def getScalar (d : DiagnosticScalar) (my_var : String) : ℚ × DiagnosticScalar :=
  match getScalarLoop my_var d.out_list with
  | some v => (v, d)
  | none => (0, d.DEBUG ("key not found " ++ my_var))

/-- The stream manipulator `setw(w)` applied to the text `s`: the text is padded on the
left with blanks up to the width `w`. -/
def setw (w : Nat) (s : String) : String :=
  String.mk (List.replicate (w - s.length) ' ') ++ s

/-- First loop of `write`: one line `# <i> <name>` for each allowed entry. The counter
`i` counts the columns, far fewer than `2 ^ 32`, and is not reduced. -/
def writeIndexLoop (d : DiagnosticScalar) : List (String × ℚ) → Nat → String → String
  | [], _, out => out
  | e :: es, i, out =>
      if d.allowedKey e.1 = true then
        writeIndexLoop d es (i + 1) (out ++ "# " ++ toString i ++ " " ++ e.1 ++ "\n")
      else writeIndexLoop d es i out

/-- Second loop of `write`: the name of each allowed entry, at width `w`. -/
def writeNameLoop (d : DiagnosticScalar) (w : Nat) : List (String × ℚ) → String → String
  | [], out => out
  | e :: es, out =>
      if d.allowedKey e.1 = true then writeNameLoop d w es (out ++ setw w e.1)
      else writeNameLoop d w es out

/-- Third and fourth loop of `write`: the value of each allowed entry, at width `w`.
`sci` renders a `double` in scientific notation at the given precision. -/
def writeValueLoop (sci : Nat → ℚ → String) (d : DiagnosticScalar) (w : Nat) :
    List (String × ℚ) → String → String
  | [], out => out
  | e :: es, out =>
      if d.allowedKey e.1 = true then
        writeValueLoop sci d w es (out ++ setw w (sci d.precision e.2))
      else writeValueLoop sci d w es out

/-- The method `DiagnosticScalar::write(itime)`. The rendering `sci` of a `double` by the stream
(`std::scientific` at the precision set by `fout.precision`) is a parameter. -/
def write (sci : Nat → ℚ → String) (d : DiagnosticScalar) (itime : Int) :
    DiagnosticScalar :=
  let added_length := 15
  let time : ℚ := (itime : ℚ) / d.res_time
  let f0 := d.fout
  let f1 :=
    if f0.length = 0 then
      let h1 := f0 ++ "# " ++ toString 1 ++ " time" ++ "\n"
      let h2 := writeIndexLoop d d.out_list 2 h1
      let h3 := h2 ++ "#\n#" ++ setw (d.precision + added_length) "time"
      let h4 := writeNameLoop d (d.precision + added_length) d.out_list h3
      let h5 := h4 ++ setw (d.precision + added_length) (sci d.precision time)
      let h6 := writeValueLoop sci d (d.precision + added_length) d.out_list h5
      h6 ++ "\n"
    else f0
  let f2 := f1 ++ setw (d.precision + 9) (sci d.precision time)
  let f3 := writeValueLoop sci d (d.precision + 9) d.out_list f2
  { d with fout := f3 ++ "\n" }

end DiagnosticScalar

/-! ### The collaborators of `compute`

The classes `Species`, `Particles`, `Field`, `ElectroMagn` and `SmileiMPI` are declared
outside the given sources; the structures below hold what `compute` reads from them. -/

/-- One particle, as `compute` reads it: `particles.charge(iPart)`,
`particles.weight(iPart)` and `particles.lor_fac(iPart)`. -/
structure Particle where
  charge : Int
  weight : ℚ
  lor_fac : ℚ

/-- What `compute` reads of a `Species`: the flag `particles.isTestParticles`, the
particles, `species_param.mass`, `species_param.species_type` and the values returned
by `getLostNrjBC()`, `getLostNrjMW()` and `getNewParticlesNRJ()`. -/
structure Species where
  isTestParticles : Bool
  particles : List Particle
  mass : ℚ
  species_type : String
  LostNrjBC : ℚ
  LostNrjMW : ℚ
  NewParticlesNRJ : ℚ

/-- The method `Species::getNbrOfParticles()`, an `unsigned int`. -/
def Species.getNbrOfParticles (sp : Species) : Nat :=
  sp.particles.length % 2 ^ 32

/-- What `compute` reads of a `Field`: its name, `isDual_`, `dims_` and the value
`(*field)(ii)` at a linear index. -/
structure Field where
  name : String
  isDual_ : List Nat
  dims_ : List Nat
  data : Nat → ℚ

/-- The method `Field::isDual(i)`. -/
def Field.isDual (f : Field) (i : Nat) : Nat := f.isDual_.getD i 0

/-- What `compute` reads of `ElectroMagn`: the ten fields, the tables `istart[i][dual]`
and `bufsize[i][dual]` of the cells that are not ghost cells, the two Poynting vectors
`poynting[j]` and `poynting_inst[j]`, and the values returned by `getLostNrjMW()` and
`getNewFieldsNRJ()`. -/
structure ElectroMagn where
  Ex_ : Field
  Ey_ : Field
  Ez_ : Field
  Bx_m : Field
  By_m : Field
  Bz_m : Field
  Jx_ : Field
  Jy_ : Field
  Jz_ : Field
  rho_ : Field
  istart : Nat → Nat → Nat
  bufsize : Nat → Nat → Nat
  poynting : Nat → List ℚ
  poynting_inst : Nat → List ℚ
  LostNrjMW : ℚ
  NewFieldsNRJ : ℚ

/-- The arguments with which another process of `MPI_COMM_WORLD` runs the same call of
`compute`. -/
structure Rank where
  vecSpecies : List Species
  EMfields : ElectroMagn
  cell_volume : ℚ

/-- What `compute` uses of `SmileiMPI`: `isMaster()` for the calling process, and the
other processes that take part in the reductions. -/
structure SmileiMPI where
  isMaster : Bool
  others : List Rank

/-- The call `MPI_Reduce(isMaster ? MPI_IN_PLACE : &x, &x, 1, MPI_DOUBLE, MPI_SUM, 0, ...)` as seen
by the calling process: the master receives the sum of its own value and the values
`remote` of the other processes, any other process keeps its value. -/
def SmileiMPI.reduceSum (smpi : SmileiMPI) (x : ℚ) (remote : List ℚ) : ℚ :=
  if smpi.isMaster then x + remote.sum else x

/-- The same reduction with `MPI_UNSIGNED`. -/
def SmileiMPI.reduceSumUnsigned (smpi : SmileiMPI) (x : Nat) (remote : List Nat) : Nat :=
  if smpi.isMaster then (x + remote.sum) % 2 ^ 32 else x

/-- The pair `val_index` of a value and the cell index where it was found. -/
structure val_index where
  val : ℚ
  index : Int
deriving DecidableEq

/-- The operation `MPI_MINLOC`: the smaller value, and for equal values the smaller
index. -/
def MPI_MINLOC (a b : val_index) : val_index :=
  if a.val < b.val then a
  else if b.val < a.val then b
  else { val := a.val, index := min a.index b.index }

/-- The operation `MPI_MAXLOC`: the larger value, and for equal values the smaller
index. -/
def MPI_MAXLOC (a b : val_index) : val_index :=
  if b.val < a.val then a
  else if a.val < b.val then b
  else { val := a.val, index := min a.index b.index }

/-- The call of `MPI_Reduce` with `MPI_DOUBLE_INT` and the operation `op`, for one entry of the
reduced array. -/
def SmileiMPI.reduceLoc (smpi : SmileiMPI) (op : val_index → val_index → val_index)
    (x : val_index) (remote : List val_index) : val_index :=
  if smpi.isMaster then remote.foldl op x else x

/-- Conversion of an `unsigned int` to `int`. -/
def toInt32 (n : Nat) : Int :=
  if n % 2 ^ 32 < 2 ^ 31 then ((n % 2 ^ 32 : Nat) : Int)
  else ((n % 2 ^ 32 : Nat) : Int) - 2 ^ 32

/-- The particle loop of `compute` on one process: the local `charge_avg` and
`ener_tot` of a species before the reductions. -/
def Species.localSums (cell_volume : ℚ) (sp : Species) : ℚ × ℚ :=
  let nPart := sp.getNbrOfParticles
  if nPart > 0 then
    let acc := (sp.particles.take nPart).foldl
      (fun (acc : ℚ × ℚ) (p : Particle) =>
        (acc.1 + (p.charge : ℚ), acc.2 + cell_volume * p.weight * (p.lor_fac - 1)))
      (0, 0)
    (acc.1, acc.2 * sp.mass)
  else (0, 0)

/-- The entry `iFieldStart[i]` as set up by `compute` for a field. -/
def ElectroMagn.iFieldStart (EM : ElectroMagn) (f : Field) (i : Nat) : Nat :=
  if i < f.isDual_.length then EM.istart i (f.isDual i) else 0

/-- The entry `iFieldEnd[i]` as set up by `compute` for a field. -/
def ElectroMagn.iFieldEnd (EM : ElectroMagn) (f : Field) (i : Nat) : Nat :=
  if i < f.isDual_.length then (EM.istart i (f.isDual i) + EM.bufsize i (f.isDual i)) % 2 ^ 32
  else 1

/-- The entry `iFieldGlobalSize[i]` as set up by `compute` for a field. -/
def ElectroMagn.iFieldGlobalSize (_EM : ElectroMagn) (f : Field) (i : Nat) : Nat :=
  if i < f.isDual_.length then f.dims_.getD i 0 else 1

/-- The linear indices `ii` visited by the triple loop of `compute` over the cells of a
field that are not ghost cells, in the order of the visit (`k` outermost, `i`
innermost). -/
def ElectroMagn.cells (EM : ElectroMagn) (f : Field) : List Nat :=
  (List.range' (EM.iFieldStart f 2) (EM.iFieldEnd f 2 - EM.iFieldStart f 2)).flatMap fun k =>
    (List.range' (EM.iFieldStart f 1) (EM.iFieldEnd f 1 - EM.iFieldStart f 1)).flatMap fun j =>
      (List.range' (EM.iFieldStart f 0) (EM.iFieldEnd f 0 - EM.iFieldStart f 0)).map fun i =>
        (k + j * EM.iFieldGlobalSize f 2
          + i * EM.iFieldGlobalSize f 1 * EM.iFieldGlobalSize f 2) % 2 ^ 32

/-- The local `Utot_crtField` of a field before the reduction. -/
def ElectroMagn.localFieldEnergy (EM : ElectroMagn) (cell_volume : ℚ) (f : Field) : ℚ :=
  ((EM.cells f).foldl (fun (U : ℚ) (ii : Nat) => U + (f.data ii) ^ 2) 0)
    * (1 / 2 * cell_volume)

/-- One pass of the body of the min/max scan at the linear index `ii`. -/
def scanStep (f : Field) (st : val_index × val_index) (ii : Nat) : val_index × val_index :=
  let minVal := if st.1.val > f.data ii then { val := f.data ii, index := toInt32 ii } else st.1
  let maxVal := if st.2.val < f.data ii then { val := f.data ii, index := toInt32 ii } else st.2
  (minVal, maxVal)

/-- The local `minVal` and `maxVal` of a field before the reduction. -/
def ElectroMagn.localMinMax (EM : ElectroMagn) (f : Field) : val_index × val_index :=
  (EM.cells f).foldl (scanStep f)
    ({ val := f.data 0, index := 0 }, { val := f.data 0, index := 0 })

/-- The six fields whose energy is reported, in the order of `compute`. -/
def energyFields : List (ElectroMagn → Field) :=
  [ElectroMagn.Ex_, ElectroMagn.Ey_, ElectroMagn.Ez_,
   ElectroMagn.Bx_m, ElectroMagn.By_m, ElectroMagn.Bz_m]

/-- The ten fields of the min/max scan, in the order of `compute`. -/
def scannedFields : List (ElectroMagn → Field) :=
  energyFields ++ [ElectroMagn.Jx_, ElectroMagn.Jy_, ElectroMagn.Jz_, ElectroMagn.rho_]

/-- The name built in the Poynting loop for side `j` and dimension `i`. -/
def poyntingName (j i : Nat) : String :=
  "Poy" ++
    (match i with
     | 0 => if j = 0 then "East" else "West"
     | 1 => if j = 0 then "South" else "North"
     | 2 => if j = 0 then "Bottom" else "Top"
     | _ => "")

/-- The four running totals of the species loop of `compute`. -/
structure SpeciesTotals where
  Ukin : ℚ
  Ukin_bnd : ℚ
  Ukin_out_mvw : ℚ
  Ukin_inj_mvw : ℚ

namespace DiagnosticScalar

/-- The body of the species loop of `compute` for the species `sp` at position `ispec`.
The other processes contribute the local values of their own species at the same
position. -/
def computeSpecies (smpi : SmileiMPI) (ispec : Nat) (sp : Species)
    (st : DiagnosticScalar × SpeciesTotals) : DiagnosticScalar × SpeciesTotals :=
  if sp.isTestParticles then st
  else
    let d := st.1
    let remote : List (ℚ × Species) :=
      smpi.others.filterMap fun r => (r.vecSpecies[ispec]?).map fun s => (r.cell_volume, s)
    let charge_avg := smpi.reduceSum (sp.localSums d.cell_volume).1
      (remote.map fun r => (r.2.localSums r.1).1)
    let ener_tot := smpi.reduceSum (sp.localSums d.cell_volume).2
      (remote.map fun r => (r.2.localSums r.1).2)
    let nPart := smpi.reduceSumUnsigned sp.getNbrOfParticles
      (remote.map fun r => r.2.getNbrOfParticles)
    let ener_lost_bcs := smpi.reduceSum sp.LostNrjBC (remote.map fun r => r.2.LostNrjBC)
    let ener_lost_mvw := smpi.reduceSum sp.LostNrjMW (remote.map fun r => r.2.LostNrjMW)
    let ener_added_mvw :=
      smpi.reduceSum sp.NewParticlesNRJ (remote.map fun r => r.2.NewParticlesNRJ)
    if smpi.isMaster then
      let charge_avg := if nPart ≠ 0 then charge_avg / (nPart : ℚ) else charge_avg
      let nameSpec := sp.species_type
      let d := d.append ("Ntot_" ++ nameSpec) (nPart : ℚ)
      let d := d.append ("Zavg_" ++ nameSpec) charge_avg
      let d := d.append ("Ukin_" ++ nameSpec) ener_tot
      (d, { Ukin := st.2.Ukin + ener_tot
            Ukin_bnd := st.2.Ukin_bnd + d.cell_volume * ener_lost_bcs
            Ukin_out_mvw := st.2.Ukin_out_mvw + d.cell_volume * ener_lost_mvw
            Ukin_inj_mvw := st.2.Ukin_inj_mvw + d.cell_volume * ener_added_mvw })
    else st

/-- The species loop of `compute`, from position `ispec` on. -/
def computeSpeciesLoop (smpi : SmileiMPI) :
    Nat → List Species → DiagnosticScalar × SpeciesTotals → DiagnosticScalar × SpeciesTotals
  | _, [], st => st
  | ispec, sp :: rest, st =>
      computeSpeciesLoop smpi (ispec + 1) rest (computeSpecies smpi ispec sp st)

/-- The body of the field-energy loop of `compute` for the field selected by `sel`;
the state is the diagnostic and the running total `Uelm`. -/
def computeFieldEnergy (EMfields : ElectroMagn) (smpi : SmileiMPI)
    (st : DiagnosticScalar × ℚ) (sel : ElectroMagn → Field) : DiagnosticScalar × ℚ :=
  let d := st.1
  let Utot_crtField := smpi.reduceSum (EMfields.localFieldEnergy d.cell_volume (sel EMfields))
    (smpi.others.map fun r => r.EMfields.localFieldEnergy r.cell_volume (sel r.EMfields))
  if smpi.isMaster then
    (d.append ("Uelm_" ++ (sel EMfields).name) Utot_crtField, st.2 + Utot_crtField)
  else st

/-- The reduced `minis[i]` and `maxis[i]` of the field selected by `sel`. -/
def reducedMinMax (EMfields : ElectroMagn) (smpi : SmileiMPI) (sel : ElectroMagn → Field) :
    val_index × val_index :=
  (smpi.reduceLoc MPI_MINLOC (EMfields.localMinMax (sel EMfields)).1
      (smpi.others.map fun r => (r.EMfields.localMinMax (sel r.EMfields)).1),
   smpi.reduceLoc MPI_MAXLOC (EMfields.localMinMax (sel EMfields)).2
      (smpi.others.map fun r => (r.EMfields.localMinMax (sel r.EMfields)).2))

/-- The body of the loop of `compute` that appends the four min/max scalars of the field
selected by `sel` (run on the master only). -/
def appendMinMax (EMfields : ElectroMagn) (smpi : SmileiMPI)
    (d : DiagnosticScalar) (sel : ElectroMagn → Field) : DiagnosticScalar :=
  let mm := reducedMinMax EMfields smpi sel
  let d := d.append ((sel EMfields).name ++ "Min") mm.1.val
  let d := d.append ((sel EMfields).name ++ "MinCell") (mm.1.index : ℚ)
  let d := d.append ((sel EMfields).name ++ "Max") mm.2.val
  d.append ((sel EMfields).name ++ "MaxCell") (mm.2.index : ℚ)

/-- The body of the Poynting loop of `compute` for side `j` and dimension `i`; the state
is the diagnostic and the running total `Uelm_bnd`. -/
def computePoynting (EMfields : ElectroMagn) (smpi : SmileiMPI) (j : Nat)
    (st : DiagnosticScalar × ℚ) (i : Nat) : DiagnosticScalar × ℚ :=
  let poy0 := smpi.reduceSum ((EMfields.poynting j).getD i 0)
    (smpi.others.map fun r => (r.EMfields.poynting j).getD i 0)
  let poy1 := smpi.reduceSum ((EMfields.poynting_inst j).getD i 0)
    (smpi.others.map fun r => (r.EMfields.poynting_inst j).getD i 0)
  if smpi.isMaster then
    let name := poyntingName j i
    let d := st.1.append name poy0
    let d := d.append (name ++ "Inst") poy1
    (d, st.2 + poy0)
  else st

/-- The Poynting loops of `compute`: `j` over the two sides, `i` over the entries of
`poynting[j]`. -/
def computePoyntingLoop (EMfields : ElectroMagn) (smpi : SmileiMPI)
    (st : DiagnosticScalar × ℚ) : DiagnosticScalar × ℚ :=
  (List.range 2).foldl
    (fun st j => (List.range (EMfields.poynting j).length).foldl
      (computePoynting EMfields smpi j) st)
    st

/-- The final steps of `compute` on the master: the energy balance from the totals of
the loops, and the twelve calls of `prepend`. -/
def computeFinal (d : DiagnosticScalar) (Ukin Ukin_bnd Ukin_out_mvw Ukin_inj_mvw : ℚ)
    (Uelm Uelm_out_mvw Uelm_inj_mvw Uelm_bnd : ℚ) : DiagnosticScalar :=
  let Utot : ℚ := Ukin + Uelm
  let Uexp : ℚ := d.Energy_time_zero + Uelm_bnd + Ukin_inj_mvw + Uelm_inj_mvw
      - (Ukin_bnd + Ukin_out_mvw + Uelm_out_mvw)
  let Ubal : ℚ := Utot - Uexp
  let d1 : DiagnosticScalar := { d with EnergyUsedForNorm := Utot }
  let Ubal_norm : ℚ := if d1.EnergyUsedForNorm > 0 then Ubal / d1.EnergyUsedForNorm else 0
  let d1 := d1.prepend "Ukin_out_mvw" Ukin_out_mvw
  let d1 := d1.prepend "Ukin_inj_mvw" Ukin_inj_mvw
  let d1 := d1.prepend "Uelm_out_mvw" Uelm_out_mvw
  let d1 := d1.prepend "Uelm_inj_mvw" Uelm_inj_mvw
  let d1 := d1.prepend "Ukin_bnd" Ukin_bnd
  let d1 := d1.prepend "Uelm_bnd" Uelm_bnd
  let d1 := d1.prepend "Ukin" Ukin
  let d1 := d1.prepend "Uelm" Uelm
  let d1 := d1.prepend "Ubal_norm" Ubal_norm
  let d1 := d1.prepend "Ubal" Ubal
  let d1 := d1.prepend "Uexp" Uexp
  d1.prepend "Utot" Utot

/-- The method `DiagnosticScalar::compute(EMfields, vecSpecies, smpi)`: the diagnostic of the
calling process after the call. The calls `reinitDiags()` act on the species and on the
fields only and are not part of the result. -/
def compute (d : DiagnosticScalar) (EMfields : ElectroMagn) (vecSpecies : List Species)
    (smpi : SmileiMPI) : DiagnosticScalar :=
  let d0 : DiagnosticScalar := { d with out_list := [] }
  -- species-related energies
  let sp := computeSpeciesLoop smpi 0 vecSpecies
    (d0, { Ukin := 0, Ukin_bnd := 0, Ukin_out_mvw := 0, Ukin_inj_mvw := 0 })
  -- electromagnetic energies
  let en := energyFields.foldl (computeFieldEnergy EMfields smpi) (sp.1, (0 : ℚ))
  let Uelm_out_mvw0 : ℚ := smpi.reduceSum EMfields.LostNrjMW
    (smpi.others.map fun r => r.EMfields.LostNrjMW)
  let Uelm_out_mvw : ℚ :=
    if smpi.isMaster then Uelm_out_mvw0 * (1 / 2 * d.cell_volume) else Uelm_out_mvw0
  let Uelm_inj_mvw0 : ℚ := smpi.reduceSum EMfields.NewFieldsNRJ
    (smpi.others.map fun r => r.EMfields.NewFieldsNRJ)
  let Uelm_inj_mvw : ℚ :=
    if smpi.isMaster then Uelm_inj_mvw0 * (1 / 2 * d.cell_volume) else Uelm_inj_mvw0
  -- min/max scalars
  let mm : DiagnosticScalar :=
    if smpi.isMaster then scannedFields.foldl (appendMinMax EMfields smpi) en.1 else en.1
  -- Poynting scalars
  let poy := computePoyntingLoop EMfields smpi (mm, (0 : ℚ))
  -- final steps
  if smpi.isMaster then
    computeFinal poy.1 sp.2.Ukin sp.2.Ukin_bnd sp.2.Ukin_out_mvw sp.2.Ukin_inj_mvw
      en.2 Uelm_out_mvw Uelm_inj_mvw poy.2
  else poy.1

end DiagnosticScalar

/-! ## Vocabulary of the statements -/

/-- A call of one of the two operations that extend the column list. -/
inductive ColumnCall where
  | prepend (my_var : String) (val : ℚ)
  | append (my_var : String) (val : ℚ)

/-- Perform one call on the diagnostic. -/
def ColumnCall.run (d : DiagnosticScalar) : ColumnCall → DiagnosticScalar
  | .prepend my_var val => d.prepend my_var val
  | .append my_var val => d.append my_var val

/-- Perform a sequence of calls, first call first. -/
def runCalls (d : DiagnosticScalar) (calls : List ColumnCall) : DiagnosticScalar :=
  calls.foldl ColumnCall.run d

/-- The entries handed to `prepend` by a sequence of calls, in call order. -/
def prependedEntries : List ColumnCall → List (String × ℚ)
  | [] => []
  | .prepend my_var val :: cs => (my_var, val) :: prependedEntries cs
  | .append _ _ :: cs => prependedEntries cs

/-- The entries handed to `append` by a sequence of calls, in call order. -/
def appendedEntries : List ColumnCall → List (String × ℚ)
  | [] => []
  | .prepend _ _ :: cs => appendedEntries cs
  | .append my_var val :: cs => (my_var, val) :: appendedEntries cs

/-- A patch of a one-dimensional decomposition, used to instantiate the statements. -/
def samplePatch : Patch :=
  { hindex := 1, Pcoordinates := [1], MPI_me_ := 0, nDim_fields_ := 1, nbNeighbors_ := 2
    neighbor_ := [[0, 2]], corner_neighbor_ := [], MPI_neighbor_ := [[0, 0]]
    min_local := [4], max_local := [8], cell_starting_global_index := [30]
    oversize := [2] }

/-- A diagnostic with an empty column list and an empty report, used to instantiate the
statements. -/
def sampleDiag : DiagnosticScalar :=
  { out_list := [], vars := [], precision := 3, res_time := 1, dt := 1, every := 1
    tmin := 0, tmax := 10, cell_volume := 1, Energy_time_zero := 0
    EnergyUsedForNorm := 0, fout := "", notes := [] }

/-- A field of a one-dimensional grid of four cells, used to instantiate the
statements. -/
def sampleField (name : String) : Field :=
  { name := name, isDual_ := [0], dims_ := [4], data := fun i => (i : ℚ) }

/-- The fields of a one-dimensional patch whose cells 1 and 2 are not ghost cells, used
to instantiate the statements. -/
def sampleFields : ElectroMagn :=
  { Ex_ := sampleField "Ex", Ey_ := sampleField "Ey", Ez_ := sampleField "Ez"
    Bx_m := sampleField "Bx_m", By_m := sampleField "By_m", Bz_m := sampleField "Bz_m"
    Jx_ := sampleField "Jx", Jy_ := sampleField "Jy", Jz_ := sampleField "Jz"
    rho_ := sampleField "rho"
    istart := fun _ _ => 1, bufsize := fun _ _ => 2
    poynting := fun _ => [1], poynting_inst := fun _ => [2]
    LostNrjMW := 0, NewFieldsNRJ := 0 }

/-- The texts of a list, one after the other. -/
def concatText : List String → String
  | [] => ""
  | s :: ss => s ++ concatText ss

/-- The entries of the column list whose name passes `allowedKey`, in column order. -/
def DiagnosticScalar.retained (d : DiagnosticScalar) : List (String × ℚ) :=
  d.out_list.filter fun e => d.allowedKey e.1

/-- The header lines `# <i> <name>` for the given names, numbered consecutively
from `i`. -/
def indexLines (i : Nat) (names : List String) : List String :=
  (List.enumFrom i names).map fun p => "# " ++ toString p.1 ++ " " ++ p.2 ++ "\n"

/-- The row of values of one call of `write`: the time, then the value of each retained
column, each at width `precision + 9`, then the end of the line. -/
def DiagnosticScalar.valueRow (sci : Nat → ℚ → String) (d : DiagnosticScalar)
    (itime : Int) : String :=
  DiagnosticScalar.setw (d.precision + 9) (sci d.precision ((itime : ℚ) / d.res_time))
    ++ concatText (d.retained.map fun e =>
        DiagnosticScalar.setw (d.precision + 9) (sci d.precision e.2))
    ++ "\n"

/-- The text that the first call of `write` puts between the numbered header lines and
the row of values: the line `#`, then a line that starts with `#` and carries the word
`time`, the retained names, the time and the retained values, each at width
`precision + 15`. -/
def DiagnosticScalar.columnHeader (sci : Nat → ℚ → String) (d : DiagnosticScalar)
    (itime : Int) : String :=
  "#\n#" ++ DiagnosticScalar.setw (d.precision + 15) "time"
    ++ concatText (d.retained.map fun e => DiagnosticScalar.setw (d.precision + 15) e.1)
    ++ DiagnosticScalar.setw (d.precision + 15) (sci d.precision ((itime : ℚ) / d.res_time))
    ++ concatText (d.retained.map fun e =>
        DiagnosticScalar.setw (d.precision + 15) (sci d.precision e.2))
    ++ "\n"

/-- A diagnostic on the master before its first `write`: one column, nothing written
yet. -/
def firstWriteDiag : DiagnosticScalar :=
  { sampleDiag with out_list := [("Utot", 1)] }

/-! ### The columns of `compute` on the master -/

/-- The species at position `ispec` of the other processes, each with the `cell_volume`
of its process. -/
def remoteSpecies (others : List Rank) (ispec : Nat) : List (ℚ × Species) :=
  others.filterMap fun r => (r.vecSpecies[ispec]?).map fun s => (r.cell_volume, s)

/-- The charge sum of a species over all processes: the local sum of the master plus
the local sums of the other processes. -/
def globalCharge (others : List Rank) (cell_volume : ℚ) (ispec : Nat) (sp : Species) : ℚ :=
  (sp.localSums cell_volume).1
    + ((remoteSpecies others ispec).map fun r => (r.2.localSums r.1).1).sum

/-- The kinetic energy of a species over all processes. -/
def globalEnergy (others : List Rank) (cell_volume : ℚ) (ispec : Nat) (sp : Species) : ℚ :=
  (sp.localSums cell_volume).2
    + ((remoteSpecies others ispec).map fun r => (r.2.localSums r.1).2).sum

/-- The particle count of a species over all processes, as the `unsigned int` that the
reduction with `MPI_UNSIGNED` delivers. -/
def globalCount (others : List Rank) (ispec : Nat) (sp : Species) : Nat :=
  (sp.getNbrOfParticles
    + ((remoteSpecies others ispec).map fun r => r.2.getNbrOfParticles).sum) % 2 ^ 32

/-- The species that are not test particles, each with its position in the list. -/
def scalarSpecies (ispec : Nat) (vecSpecies : List Species) : List (Nat × Species) :=
  (List.enumFrom ispec vecSpecies).filter fun p => !p.2.isTestParticles

/-- The three columns of one species on the master. -/
def speciesTriple (others : List Rank) (cell_volume : ℚ) (p : Nat × Species) :
    List (String × ℚ) :=
  [("Ntot_" ++ p.2.species_type, (globalCount others p.1 p.2 : ℚ)),
   ("Zavg_" ++ p.2.species_type,
      if globalCount others p.1 p.2 ≠ 0
      then globalCharge others cell_volume p.1 p.2 / (globalCount others p.1 p.2 : ℚ)
      else globalCharge others cell_volume p.1 p.2),
   ("Ukin_" ++ p.2.species_type, globalEnergy others cell_volume p.1 p.2)]

/-- The columns of the species loop on the master. -/
def speciesColumns (others : List Rank) (cell_volume : ℚ) (ispec : Nat)
    (vecSpecies : List Species) : List (String × ℚ) :=
  (scalarSpecies ispec vecSpecies).flatMap (speciesTriple others cell_volume)

/-- The columns `Ukin_<species>` of the species loop on the master. -/
def ukinColumns (others : List Rank) (cell_volume : ℚ) (ispec : Nat)
    (vecSpecies : List Species) : List (String × ℚ) :=
  (scalarSpecies ispec vecSpecies).map fun p =>
    ("Ukin_" ++ p.2.species_type, globalEnergy others cell_volume p.1 p.2)

/-- The totals of the species loop on the master, added to the totals `t`. -/
def speciesTotals (others : List Rank) (cell_volume : ℚ) (ispec : Nat)
    (vecSpecies : List Species) (t : SpeciesTotals) : SpeciesTotals :=
  (scalarSpecies ispec vecSpecies).foldl
    (fun t p =>
      { Ukin := t.Ukin + globalEnergy others cell_volume p.1 p.2
        Ukin_bnd := t.Ukin_bnd + cell_volume *
          (p.2.LostNrjBC + ((remoteSpecies others p.1).map fun r => r.2.LostNrjBC).sum)
        Ukin_out_mvw := t.Ukin_out_mvw + cell_volume *
          (p.2.LostNrjMW + ((remoteSpecies others p.1).map fun r => r.2.LostNrjMW).sum)
        Ukin_inj_mvw := t.Ukin_inj_mvw + cell_volume *
          (p.2.NewParticlesNRJ
            + ((remoteSpecies others p.1).map fun r => r.2.NewParticlesNRJ).sum) })
    t

/-- The energy of a field over all processes. -/
def globalFieldEnergy (EMfields : ElectroMagn) (others : List Rank) (cell_volume : ℚ)
    (sel : ElectroMagn → Field) : ℚ :=
  EMfields.localFieldEnergy cell_volume (sel EMfields)
    + (others.map fun r => r.EMfields.localFieldEnergy r.cell_volume (sel r.EMfields)).sum

/-- The columns `Uelm_<field>` of the field-energy loop on the master. -/
def energyColumns (EMfields : ElectroMagn) (others : List Rank) (cell_volume : ℚ) :
    List (String × ℚ) :=
  energyFields.map fun sel =>
    ("Uelm_" ++ (sel EMfields).name, globalFieldEnergy EMfields others cell_volume sel)

/-- The four min/max columns of one field on the master. -/
def minMaxQuad (EMfields : ElectroMagn) (smpi : SmileiMPI) (sel : ElectroMagn → Field) :
    List (String × ℚ) :=
  [((sel EMfields).name ++ "Min", (DiagnosticScalar.reducedMinMax EMfields smpi sel).1.val),
   ((sel EMfields).name ++ "MinCell",
      ((DiagnosticScalar.reducedMinMax EMfields smpi sel).1.index : ℚ)),
   ((sel EMfields).name ++ "Max", (DiagnosticScalar.reducedMinMax EMfields smpi sel).2.val),
   ((sel EMfields).name ++ "MaxCell",
      ((DiagnosticScalar.reducedMinMax EMfields smpi sel).2.index : ℚ))]

/-- The min/max columns on the master. -/
def minMaxColumns (EMfields : ElectroMagn) (smpi : SmileiMPI) : List (String × ℚ) :=
  scannedFields.flatMap (minMaxQuad EMfields smpi)

/-- The Poynting flux through side `j` in dimension `i` over all processes. -/
def globalPoynting (EMfields : ElectroMagn) (others : List Rank) (j i : Nat) : ℚ :=
  (EMfields.poynting j).getD i 0
    + (others.map fun r => (r.EMfields.poynting j).getD i 0).sum

/-- The instantaneous Poynting flux through side `j` in dimension `i` over all
processes. -/
def globalPoyntingInst (EMfields : ElectroMagn) (others : List Rank) (j i : Nat) : ℚ :=
  (EMfields.poynting_inst j).getD i 0
    + (others.map fun r => (r.EMfields.poynting_inst j).getD i 0).sum

/-- The pairs (side, dimension) visited by the Poynting loops, in the order of the
visit. -/
def poyntingSides (EMfields : ElectroMagn) : List (Nat × Nat) :=
  (List.range 2).flatMap fun j => (List.range (EMfields.poynting j).length).map fun i => (j, i)

/-- The Poynting columns on the master. -/
def poyntingColumns (EMfields : ElectroMagn) (others : List Rank) : List (String × ℚ) :=
  (poyntingSides EMfields).flatMap fun p =>
    [(poyntingName p.1 p.2, globalPoynting EMfields others p.1 p.2),
     (poyntingName p.1 p.2 ++ "Inst", globalPoyntingInst EMfields others p.1 p.2)]

/-- The columns appended by `compute` on the master, before the twelve totals are
prepended. -/
def appendedColumns (d : DiagnosticScalar) (EMfields : ElectroMagn)
    (vecSpecies : List Species) (others : List Rank) : List (String × ℚ) :=
  speciesColumns others d.cell_volume 0 vecSpecies
    ++ energyColumns EMfields others d.cell_volume
    ++ minMaxColumns EMfields { isMaster := true, others := others }
    ++ poyntingColumns EMfields others

/-- A species of one electron of weight 1 and Lorentz factor `lor_fac`, used to
instantiate the statements: on a process of cell volume 1 it contributes the kinetic
energy `lor_fac - 1`. -/
def sampleSpecies (lor_fac : ℚ) : Species :=
  { isTestParticles := false
    particles := [{ charge := -1, weight := 1, lor_fac := lor_fac }]
    mass := 1, species_type := "eon"
    LostNrjBC := 0, LostNrjMW := 0, NewParticlesNRJ := 0 }

/-- Two further processes, whose electrons contribute the kinetic energies 3.5 and
0.5. -/
def sampleOthers : List Rank :=
  [{ vecSpecies := [sampleSpecies (9 / 2)], EMfields := sampleFields, cell_volume := 1 },
   { vecSpecies := [sampleSpecies (3 / 2)], EMfields := sampleFields, cell_volume := 1 }]

/-- A list of species without its test species. -/
def withoutTestParticles (vecSpecies : List Species) : List Species :=
  vecSpecies.filter fun s => !s.isTestParticles

/-- A process whose list of species has lost its test species. -/
def Rank.withoutTestParticles (r : Rank) : Rank :=
  { r with vecSpecies := Smilei.withoutTestParticles r.vecSpecies }

/-- A species of test particles, used to instantiate the statements. -/
def sampleTestSpecies : Species :=
  { isTestParticles := true
    particles := [{ charge := 1, weight := 1, lor_fac := 2 }]
    mass := 1, species_type := "probe"
    LostNrjBC := 1, LostNrjMW := 1, NewParticlesNRJ := 1 }

/-- Two further processes with a test species followed by electrons. -/
def sampleOthersWithTest : List Rank :=
  [{ vecSpecies := [sampleTestSpecies, sampleSpecies (9 / 2)], EMfields := sampleFields
     cell_volume := 1 },
   { vecSpecies := [sampleTestSpecies, sampleSpecies (3 / 2)], EMfields := sampleFields
     cell_volume := 1 }]

/-- The linear index `ii` that `compute` forms for the cell `(i, j, k)` of a field. -/
def ElectroMagn.linearIndex (EM : ElectroMagn) (f : Field) (i j k : Nat) : Nat :=
  (k + j * EM.iFieldGlobalSize f 2
    + i * EM.iFieldGlobalSize f 1 * EM.iFieldGlobalSize f 2) % 2 ^ 32

/-- The cell `(i, j, k)` lies in the index box `[iFieldStart, iFieldEnd)` of the cells
of a field that are not ghost cells. -/
def ElectroMagn.inBox (EM : ElectroMagn) (f : Field) (i j k : Nat) : Prop :=
  (EM.iFieldStart f 0 ≤ i ∧ i < EM.iFieldEnd f 0)
    ∧ (EM.iFieldStart f 1 ≤ j ∧ j < EM.iFieldEnd f 1)
    ∧ (EM.iFieldStart f 2 ≤ k ∧ k < EM.iFieldEnd f 2)

/-- The sum of the squared values of a field over its index box, one term for each
cell `(i, j, k)` of the box. -/
def ElectroMagn.boxSquareSum (EM : ElectroMagn) (f : Field) : ℚ :=
  ((List.range' (EM.iFieldStart f 2) (EM.iFieldEnd f 2 - EM.iFieldStart f 2)).map fun k =>
    ((List.range' (EM.iFieldStart f 1) (EM.iFieldEnd f 1 - EM.iFieldStart f 1)).map fun j =>
      ((List.range' (EM.iFieldStart f 0) (EM.iFieldEnd f 0 - EM.iFieldStart f 0)).map fun i =>
        (f.data (EM.linearIndex f i j k)) ^ 2).sum).sum).sum

/-- A field with the value `v` written at the linear index `g`. -/
def Field.setData (f : Field) (g : Nat) (v : ℚ) : Field :=
  { f with data := fun ii => if ii = g then v else f.data ii }

/-- A field of a two-dimensional grid of 2 x 2 cells whose value is 5 at the linear
indices 1 and 2 and 0 elsewhere, used to instantiate the statements. -/
def tieField (name : String) : Field :=
  { name := name, isDual_ := [0, 0], dims_ := [2, 2]
    data := fun ii => if ii = 1 ∨ ii = 2 then 5 else 0 }

/-- The fields of a two-dimensional patch of 2 x 2 cells without ghost cells, each with
the values of `tieField`. -/
def tieFields : ElectroMagn :=
  { Ex_ := tieField "Ex", Ey_ := tieField "Ey", Ez_ := tieField "Ez"
    Bx_m := tieField "Bx_m", By_m := tieField "By_m", Bz_m := tieField "Bz_m"
    Jx_ := tieField "Jx", Jy_ := tieField "Jy", Jz_ := tieField "Jz"
    rho_ := tieField "rho"
    istart := fun _ _ => 0, bufsize := fun _ _ => 2
    poynting := fun _ => [], poynting_inst := fun _ => []
    LostNrjMW := 0, NewFieldsNRJ := 0 }

/-- The body of the scan for the maximum alone. -/
def maxStep (f : Field) (m : val_index) (ii : Nat) : val_index :=
  if m.val < f.data ii then { val := f.data ii, index := toInt32 ii } else m

/-- The body of the scan for the minimum alone. -/
def minStep (f : Field) (m : val_index) (ii : Nat) : val_index :=
  if m.val > f.data ii then { val := f.data ii, index := toInt32 ii } else m

/-! ### The sums over the particles of a species, stated on the particles -/

/-- The sum of the charges of the particles of a species on one process. -/
def Species.chargeSum (sp : Species) : ℚ :=
  (sp.particles.map fun p => (p.charge : ℚ)).sum

/-- The kinetic energy of the particles of a species on one process of cell volume
`cell_volume`: the mass times the sum of `cell_volume * weight * (lor_fac - 1)`. -/
def Species.kineticSum (cell_volume : ℚ) (sp : Species) : ℚ :=
  (sp.particles.map fun p => cell_volume * p.weight * (p.lor_fac - 1)).sum * sp.mass

/-- The charge sum of a species over all processes: the charges of its particles on
the master and on the other processes. -/
def totalCharge (others : List Rank) (ispec : Nat) (sp : Species) : ℚ :=
  sp.chargeSum + ((remoteSpecies others ispec).map fun r => r.2.chargeSum).sum

/-- The particle count of a species over all processes. -/
def totalCount (others : List Rank) (ispec : Nat) (sp : Species) : Nat :=
  sp.particles.length + ((remoteSpecies others ispec).map fun r => r.2.particles.length).sum

/-- The kinetic energy of a species over all processes. -/
def totalKinetic (others : List Rank) (cell_volume : ℚ) (ispec : Nat) (sp : Species) : ℚ :=
  sp.kineticSum cell_volume
    + ((remoteSpecies others ispec).map fun r => r.2.kineticSum r.1).sum

/-- A species of `n` ions of charge 1, weight 1 and Lorentz factor 1, used to
instantiate the statements. -/
def crowdSpecies (n : Nat) : Species :=
  { isTestParticles := false
    particles := List.replicate n { charge := 1, weight := 1, lor_fac := 1 }
    mass := 1, species_type := "ion"
    LostNrjBC := 0, LostNrjMW := 0, NewParticlesNRJ := 0 }

/-- One further process that holds `n` ions. -/
def crowdOthers (n : Nat) : List Rank :=
  [{ vecSpecies := [crowdSpecies n], EMfields := sampleFields, cell_volume := 1 }]

/-- The totals of the species loop before the first species. -/
def zeroTotals : SpeciesTotals :=
  { Ukin := 0, Ukin_bnd := 0, Ukin_out_mvw := 0, Ukin_inj_mvw := 0 }

/-! ### The box of the cells that are not ghost cells, stated on `istart` and `bufsize` -/

/-- The indices of the non-ghost box of a field along axis `a`: the `bufsize[a][dual]`
indices from `istart[a][dual]` on, that is `istart <= x < istart + bufsize`, where
`dual` is the entry `isDual_[a]` of the field; along an axis that the field does not
have, the single index 0. -/
def nonGhostIndices (EM : ElectroMagn) (f : Field) (a : Nat) : List Nat :=
  if a < f.isDual_.length then
    List.range' (EM.istart a (f.isDual_.getD a 0)) (EM.bufsize a (f.isDual_.getD a 0))
  else [0]

/-- The number of cells of the grid of a field along axis `a`: `dims_[a]`, and 1 along
an axis that the field does not have. -/
def Field.extent (f : Field) (a : Nat) : Nat :=
  if a < f.isDual_.length then f.dims_.getD a 0 else 1

/-- The place of the cell `(i, j, k)` in the values of a field: the last axis runs
fastest. -/
def Field.cellIndex (f : Field) (i j k : Nat) : Nat :=
  k + j * f.extent 2 + i * f.extent 1 * f.extent 2

/-- The sum of the squared values of a field over its non-ghost box, one term for each
cell `(i, j, k)` of the box. -/
def nonGhostSquareSum (EM : ElectroMagn) (f : Field) : ℚ :=
  ((nonGhostIndices EM f 2).map fun k =>
    ((nonGhostIndices EM f 1).map fun j =>
      ((nonGhostIndices EM f 0).map fun i => (f.data (f.cellIndex i j k)) ^ 2).sum).sum).sum

/-- A field of a grid of 2 x 3 x 4 cells that is dual along its second axis and whose
value at each cell is the place of the cell, used to instantiate the statements. -/
def boxField (name : String) : Field :=
  { name := name, isDual_ := [0, 1, 0], dims_ := [2, 3, 4], data := fun ii => (ii : ℚ) }

/-- The fields of a patch of 2 x 3 x 4 cells, with `istart[a][dual] = dual` and
`bufsize[a][dual] = a + 1`: the non-ghost box of `boxField` is `i = 0`, `1 <= j < 3`,
`0 <= k < 3`, and the cells with `i = 1`, `j = 0` or `k = 3` are ghost cells. -/
def boxFields : ElectroMagn :=
  { Ex_ := boxField "Ex", Ey_ := boxField "Ey", Ez_ := boxField "Ez"
    Bx_m := boxField "Bx_m", By_m := boxField "By_m", Bz_m := boxField "Bz_m"
    Jx_ := boxField "Jx", Jy_ := boxField "Jy", Jz_ := boxField "Jz"
    rho_ := boxField "rho"
    istart := fun _ dual => dual, bufsize := fun a _ => a + 1
    poynting := fun _ => [], poynting_inst := fun _ => []
    LostNrjMW := 0, NewFieldsNRJ := 0 }

/-! ### The communication tag (`src/Patch/Patch.h`) -/

/-- The digits read by `stag >> tag`: the value of the longest run of decimal digits at
the head of the text, continuing the value `acc` read so far. -/
def readDigits : List Char → Nat → Nat
  | [], acc => acc
  | c :: cs, acc =>
      if c.isDigit then readDigits cs (acc * 10 + (c.toNat - '0'.toNat)) else acc

/-- The extraction `stag >> tag` into a `long long`: an optional sign, then decimal
digits up to the first character that is not a digit; a value outside the range of
`long long` is replaced by the nearest bound. -/
def extractLongLong (s : String) : Int :=
  let v : Int :=
    match s.data with
    | '-' :: cs => -((readDigits cs 0 : Nat) : Int)
    | '+' :: cs => ((readDigits cs 0 : Nat) : Int)
    | cs => ((readDigits cs 0 : Nat) : Int)
  if v > 2 ^ 63 - 1 then 2 ^ 63 - 1 else if v < -(2 ^ 63) then -(2 ^ 63) else v

/-- The conversion `(int)(tag)` of a `long long`: the value modulo `2 ^ 32`, as a signed
32-bit integer. -/
def castToInt (z : Int) : Int :=
  toInt32 (z % 2 ^ 32).toNat

/-- The function `buildtag(hindex, send, recv)`: the three numbers are written one after
the other into a string stream, the text is read back as a `long long`, and the result
is converted to `int`. -/
def buildtag (hindex send recv : Int) : Int :=
  let stag : String := "" ++ toString hindex ++ toString send ++ toString recv
  let tag : Int := extractLongLong stag
  castToInt tag

/-! ### Opening the report (`DiagnosticScalar::openFile`) -/

/-- What a call of `openFile` did: the names handed to `fout.open`, in order, and either
the diagnostic after the call or the message of the fatal error. -/
structure OpenResult where
  opened : List String
  result : Except String DiagnosticScalar

/-- The method `DiagnosticScalar::openFile(smpi)`. `canOpen name` tells whether the file
system lets `fout.open(name)` succeed; a file opened for writing starts empty.
Modelled from the spec: the `ERROR` output of the code base (its definition is not
among the given sources) aborts the run at once, without retry. -/
def DiagnosticScalar.openFile (canOpen : String → Bool) (d : DiagnosticScalar)
    (smpi : SmileiMPI) : OpenResult :=
  if smpi.isMaster then
    let is_open := canOpen "scalars.txt"
    if !is_open then
      { opened := ["scalars.txt"], result := Except.error "Can't open scalar file" }
    else { opened := ["scalars.txt"], result := Except.ok { d with fout := "" } }
  else { opened := [], result := Except.ok d }

/-! ### The decomposition into patches (modelled from the spec)

The code that fills the neighbour table of a patch is not among the given sources. -/

/-- The Cartesian coordinate of a patch in a three-dimensional decomposition. -/
abbrev Coord := Nat × Nat × Nat

/-- The component of a coordinate along an axis. -/
def Coord.get (c : Coord) (axis : Nat) : Nat :=
  match axis with
  | 0 => c.1
  | 1 => c.2.1
  | _ => c.2.2

/-- The coordinate with the component along an axis replaced. -/
def Coord.set (c : Coord) (axis v : Nat) : Coord :=
  match axis with
  | 0 => (v, c.2.1, c.2.2)
  | 1 => (c.1, v, c.2.2)
  | _ => (c.1, c.2.1, v)

/-- The coordinate lies in the global extent of a decomposition of the given shape. -/
def Coord.inGrid (shape c : Coord) : Prop :=
  c.1 < shape.1 ∧ c.2.1 < shape.2.1 ∧ c.2.2 < shape.2.2

/-- Modelled from the spec: the operation `neighbor-at(coordinate, axis, side)` of the
Topology Indexer, which the sources do not contain; it returns the coordinate one step
away along the axis (side 0 towards lower, side 1 towards higher coordinates), or no
coordinate (the boundary sentinel) when that step leaves the global extent. -/
def neighborCoordinate (shape c : Coord) (axis side : Nat) : Option Coord :=
  if 3 ≤ axis then none
  else if side = 0 then
    if 0 < c.get axis then some (c.set axis (c.get axis - 1)) else none
  else if side = 1 then
    if c.get axis + 1 < shape.get axis then some (c.set axis (c.get axis + 1)) else none
  else none

/-- Modelled from the spec: the neighbour table of the patch at coordinate `c`, which
the sources only declare (`neighbor_`); exactly one entry per (axis, side), holding
either the topology index `toIndex` of the neighbour or the domain-boundary sentinel
`MPI_PROC_NULL`. -/
def neighborTable (MPI_PROC_NULL : Int) (toIndex : Coord → Nat) (shape c : Coord) :
    List (List Int) :=
  (List.range 3).map fun axis =>
    (List.range 2).map fun side =>
      match neighborCoordinate shape c axis side with
      | some n => (toIndex n : Int)
      | none => MPI_PROC_NULL

/-- Modelled from the spec: the patch at coordinate `c` of a decomposition, whose
construction is not among the sources; its identity is the topology index of its
coordinate, and its neighbour table is `neighborTable`. -/
def patchAt (MPI_PROC_NULL : Int) (toIndex : Coord → Nat) (shape c : Coord) : Patch :=
  { hindex := toIndex c, Pcoordinates := [c.1, c.2.1, c.2.2], MPI_me_ := 0
    nDim_fields_ := 3, nbNeighbors_ := 2
    neighbor_ := neighborTable MPI_PROC_NULL toIndex shape c
    corner_neighbor_ := [], MPI_neighbor_ := []
    min_local := [], max_local := [], cell_starting_global_index := []
    oversize := [] }

/-- A bijective indexer of the 2 x 2 x 2 decomposition, used to instantiate the
statements. -/
def sampleIndex (c : Coord) : Nat := 4 * c.1 + 2 * c.2.1 + c.2.2

/-! ### The driver `DiagnosticScalar::run` -/

/-- What `run` hands to `compute`: the fields and the species of the calling process,
and the other processes of the run. -/
structure World where
  EMfields : ElectroMagn
  vecSpecies : List Species
  others : List Rank

/-- The effect on the fields and species (of all processes) of the two methods that
`run` reaches and whose code is not among the given sources: the calls `reinitDiags()`
made by `compute`, and `EMfields->computePoynting()`. Both are parameters. -/
structure Collaborators where
  reinitDiags : World → World
  computePoynting : World → World

namespace DiagnosticScalar

/-- A call `compute(EMfields, vecSpecies, smpi)` made by `run`: the diagnostic after the
call, and the world after the calls `reinitDiags()`. -/
def computeIn (env : Collaborators) (isMaster : Bool) (st : DiagnosticScalar × World) :
    DiagnosticScalar × World :=
  (st.1.compute st.2.EMfields st.2.vecSpecies { isMaster := isMaster, others := st.2.others },
   env.reinitDiags st.2)

/-- The first statement of `run`: at `timestep == 0` the scalars are computed and the two
reference energies are set from `getScalar("Utot")`. -/
def runInit (env : Collaborators) (isMaster : Bool) (st : DiagnosticScalar × World)
    (timestep : Int) : DiagnosticScalar × World :=
  if timestep = 0 then
    let c := computeIn env isMaster st
    let g := c.1.getScalar "Utot"
    let d1 : DiagnosticScalar := { g.2 with Energy_time_zero := g.1 }
    let d2 : DiagnosticScalar := { d1 with EnergyUsedForNorm := d1.Energy_time_zero }
    (d2, c.2)
  else st

/-- The method `DiagnosticScalar::run(timestep, EMfields, vecSpecies, smpi)`; `isMaster`
is `smpi->isMaster()`. The test `timestep % every == 0` is the remainder of the C++
integer division. The time `(double)timestep * dt` is a product of two `double`
values, which the machine rounds: `mulDouble` is that multiplication, a parameter (the
conversion of an `int` to `double` is exact); the comparisons of the time with `tmin`
and `tmax` are exact. -/
def run (sci : Nat → ℚ → String) (mulDouble : ℚ → ℚ → ℚ) (env : Collaborators)
    (isMaster : Bool) (d : DiagnosticScalar) (w : World) (timestep : Int) :
    DiagnosticScalar × World :=
  let s1 := runInit env isMaster (d, w) timestep
  let time : ℚ := mulDouble (timestep : ℚ) s1.1.dt
  if s1.1.every ≠ 0 ∧ time ≥ s1.1.tmin ∧ time ≤ s1.1.tmax then
    let s2 : DiagnosticScalar × World := (s1.1, env.computePoynting s1.2)
    if timestep.tmod (s1.1.every : Int) = 0 then
      let c := computeIn env isMaster s2
      if isMaster then (write sci c.1 timestep, c.2) else c
    else s2
  else s1

end DiagnosticScalar

/-- Collaborators without effect, and the world of a single process, used to
instantiate the statements. -/
def sampleCollaborators : Collaborators :=
  { reinitDiags := fun w => w, computePoynting := fun w => w }

/-- The world of a single process with the fields `sampleFields` and one species. -/
def sampleWorld : World :=
  { EMfields := sampleFields, vecSpecies := [sampleSpecies 3], others := [] }

/-- The test of `run` on the time of a timestep: `every` is not zero and
`tmin <= timestep * dt <= tmax`, where `timestep * dt` is the product that the machine
forms in `double`. -/
def DiagnosticScalar.inWindow (d : DiagnosticScalar) (mulDouble : ℚ → ℚ → ℚ)
    (timestep : Int) : Prop :=
  d.every ≠ 0 ∧ d.tmin ≤ mulDouble (timestep : ℚ) d.dt
    ∧ mulDouble (timestep : ℚ) d.dt ≤ d.tmax

instance DiagnosticScalar.decidableInWindow (d : DiagnosticScalar)
    (mulDouble : ℚ → ℚ → ℚ) (timestep : Int) : Decidable (d.inWindow mulDouble timestep) := by
  unfold DiagnosticScalar.inWindow
  infer_instance

/-- The `double` nearest to 0.1, which is `3602879701896397 / 2^55`. -/
def tenthDouble : ℚ := 3602879701896397 / 36028797018963968

/-- A multiplication of `double` values for the samples. The product of 10 and
`tenthDouble` is `1 + 2^-54` over the rationals; it lies between the neighbouring
`double` values `1` and `1 + 2^-52` and the machine rounds it to the nearest of them,
1. Every other product is left as it is. -/
def tenthMul (a b : ℚ) : ℚ :=
  if a * b = 1 + 1 / 18014398509481984 then 1 else a * b

/-- The diagnostic `sampleDiag` with the time step `tenthDouble` and `tmax = 1`. -/
def tenthDiag : DiagnosticScalar := { sampleDiag with dt := tenthDouble, tmax := 1 }

/-- Collaborators whose `computePoynting()` leaves a mark in the world: it empties the
list of species. -/
def markCollaborators : Collaborators :=
  { reinitDiags := fun w => w, computePoynting := fun w => { w with vecSpecies := [] } }

/-- The world after the first statement of `run`: at timestep 0 the calls
`reinitDiags()` of `compute` have been made. -/
def worldAfterInit (env : Collaborators) (w : World) (timestep : Int) : World :=
  if timestep = 0 then env.reinitDiags w else w

/-! ## The laser envelope (`src/ElectroMagn/LaserEnvelope3D.cpp`) -/

/-- A `std::complex<double>`, over exact arithmetic. -/
structure Cplx where
  re : ℚ
  im : ℚ
deriving DecidableEq

namespace Cplx

/-- Sum of two complex numbers. -/
def add (a b : Cplx) : Cplx := { re := a.re + b.re, im := a.im + b.im }

/-- Difference of two complex numbers. -/
def sub (a b : Cplx) : Cplx := { re := a.re - b.re, im := a.im - b.im }

/-- Product of two complex numbers. -/
def mul (a b : Cplx) : Cplx :=
  { re := a.re * b.re - a.im * b.im, im := a.re * b.im + a.im * b.re }

/-- Product of a `double` and a complex number (in either order). -/
def scale (x : ℚ) (a : Cplx) : Cplx := { re := x * a.re, im := x * a.im }

/-- Quotient of a complex number by a `double`. -/
def divReal (a : Cplx) (x : ℚ) : Cplx := { re := a.re / x, im := a.im / x }

/-- Sum of a `double` and a complex number. -/
def addReal (x : ℚ) (a : Cplx) : Cplx := { re := x + a.re, im := a.im }

instance : Zero Cplx := ⟨{ re := 0, im := 0 }⟩

instance : Add Cplx := ⟨Cplx.add⟩

instance : Sub Cplx := ⟨Cplx.sub⟩

instance : Mul Cplx := ⟨Cplx.mul⟩

end Cplx

/-- A three-dimensional grid of complex values, read as `(*field)(i, j, k)`. -/
abbrev CGrid := Nat → Nat → Nat → Cplx

/-- A three-dimensional grid of real values, read as `(*field)(i, j, k)`. -/
abbrev RGrid := Nat → Nat → Nat → ℚ

/-- The grid `g` after the assignment `g(i, j, k) = v`. -/
def setAt {α : Type} (g : Nat → Nat → Nat → α) (i j k : Nat) (v : α) : Nat → Nat → Nat → α :=
  fun a b c => if a = i ∧ b = j ∧ c = k then v else g a b c

/-- The members of `LaserEnvelope3D` used by its methods: the shape `A_->dims_` of the
grids, `cell_length`, `timestep`, the envelope `A_`, the envelope `A0_` of the previous
step, and the ponderomotive potential with its gradient, current and saved. -/
structure LaserEnvelope3D where
  dims_ : List Nat
  cell_length : List ℚ
  timestep : ℚ
  A_ : CGrid
  A0_ : CGrid
  Phi_ : RGrid
  Phi_m : RGrid
  GradPhix_ : RGrid
  GradPhix_m : RGrid
  GradPhiy_ : RGrid
  GradPhiy_m : RGrid
  GradPhiz_ : RGrid
  GradPhiz_m : RGrid

/-- The fields of `ElectroMagn` that the envelope reads and writes: the susceptibility
`Env_Chi_` and the two diagnostic fields `Env_A_abs_` and `Env_E_abs_`. -/
structure EnvelopeFields where
  Env_Chi_ : RGrid
  Env_A_abs_ : RGrid
  Env_E_abs_ : RGrid

/-- The bound `dims_[a] - 1` of the loops, in `unsigned int` arithmetic. -/
def loopEnd (n : Nat) : Nat := (n + 2 ^ 32 - 1) % 2 ^ 32

namespace LaserEnvelope3D

/-- The cells visited by the triple loop
`for (i = first; i < dims_[0]-1; i++) for (j = first; j < dims_[1]-1; j++)
for (k = first; k < dims_[2]-1; k++)`, in the order of the visit. -/
def loopCells (env : LaserEnvelope3D) (first : Nat) : List (Nat × Nat × Nat) :=
  (List.range' first (loopEnd (env.dims_.getD 0 0) - first)).flatMap fun i =>
    (List.range' first (loopEnd (env.dims_.getD 1 0) - first)).flatMap fun j =>
      (List.range' first (loopEnd (env.dims_.getD 2 0) - first)).map fun k => (i, j, k)

/-- The value that the body of the first loop of `compute` (the explicit solver) leaves
in `A3Dnew(i, j, k)` when it finds the value `v0` there. -/
def solverValue (env : LaserEnvelope3D) (em : EnvelopeFields) (i j k : Nat) (v0 : Cplx) :
    Cplx :=
  let k0 : ℚ := 1
  let k0_dt : ℚ := 1 * env.timestep
  let dt_sq : ℚ := env.timestep * env.timestep
  let i1 : Cplx := { re := 0, im := 1 }
  let one_ov_dx_sq : ℚ := 1 / env.cell_length.getD 0 0 / env.cell_length.getD 0 0
  let one_ov_dy_sq : ℚ := 1 / env.cell_length.getD 1 0 / env.cell_length.getD 1 0
  let one_ov_dz_sq : ℚ := 1 / env.cell_length.getD 2 0 / env.cell_length.getD 2 0
  let one_ov_2dx : ℚ := 1 / 2 / env.cell_length.getD 0 0
  let A3D := env.A_
  let v1 := v0 - Cplx.scale (em.Env_Chi_ i j k) (A3D i j k)
  let v2 := v1 + Cplx.scale one_ov_dx_sq
    (A3D (i - 1) j k - Cplx.scale 2 (A3D i j k) + A3D (i + 1) j k)
  let v3 := v2 + Cplx.scale one_ov_dy_sq
    (A3D i (j - 1) k - Cplx.scale 2 (A3D i j k) + A3D i (j + 1) k)
  let v4 := v3 + Cplx.scale one_ov_dz_sq
    (A3D i j (k - 1) - Cplx.scale 2 (A3D i j k) + A3D i j (k + 1))
  let v5 := v4 + Cplx.scale one_ov_2dx
    (Cplx.scale k0 (Cplx.scale 2 i1) * (A3D (i + 1) j k - A3D (i - 1) j k))
  let v6 := Cplx.scale dt_sq v5
  let v7 := v6 + (Cplx.scale 2 (A3D i j k)
    - Cplx.addReal 1 (Cplx.scale k0_dt i1) * env.A0_ i j k)
  Cplx.divReal (v7 * Cplx.addReal 1 (Cplx.scale k0_dt i1)) (1 + k0_dt * k0_dt)

/-- The body of the first loop of `compute` at the cell `c`. -/
def solverBody (env : LaserEnvelope3D) (em : EnvelopeFields) (A3Dnew : CGrid)
    (c : Nat × Nat × Nat) : CGrid :=
  setAt A3Dnew c.1 c.2.1 c.2.2 (solverValue env em c.1 c.2.1 c.2.2 (A3Dnew c.1 c.2.1 c.2.2))

/-- The body of the second loop of `compute` (the back-substitution) at the cell `c`.
`cabs` is `std::abs` on complex numbers. -/
def updateBody (cabs : Cplx → ℚ) (A3Dnew : CGrid) (st : LaserEnvelope3D × EnvelopeFields)
    (c : Nat × Nat × Nat) : LaserEnvelope3D × EnvelopeFields :=
  let i := c.1
  let j := c.2.1
  let k := c.2.2
  let i1 : Cplx := { re := 0, im := 1 }
  let one_ov_2dt : ℚ := 1 / 2 / st.1.timestep
  let Eabs := setAt st.2.Env_E_abs_ i j k
    (cabs (Cplx.scale one_ov_2dt (A3Dnew i j k - st.1.A0_ i j k) - i1 * st.1.A_ i j k))
  let A03D := setAt st.1.A0_ i j k (st.1.A_ i j k)
  let A3D := setAt st.1.A_ i j k (A3Dnew i j k)
  let Aabs := setAt st.2.Env_A_abs_ i j k (cabs (A3D i j k))
  ({ st.1 with A_ := A3D, A0_ := A03D }, { st.2 with Env_A_abs_ := Aabs, Env_E_abs_ := Eabs })

/-- The method `LaserEnvelope3D::compute(EMfields)`. The temporary `A3Dnew` is a new
field, all of whose values are zero. -/
def compute (cabs : Cplx → ℚ) (env : LaserEnvelope3D) (em : EnvelopeFields) :
    LaserEnvelope3D × EnvelopeFields :=
  let A3Dnew : CGrid := (env.loopCells 1).foldl (solverBody env em) (fun _ _ _ => 0)
  (env.loopCells 1).foldl (updateBody cabs A3Dnew) (env, em)

end LaserEnvelope3D

/-- The discrete Laplacian of the envelope `A_` at the cell `(i, j, k)`: the centred
second differences along the three axes. -/
def LaserEnvelope3D.laplacian (env : LaserEnvelope3D) (i j k : Nat) : Cplx :=
  Cplx.divReal (env.A_ (i - 1) j k - Cplx.scale 2 (env.A_ i j k) + env.A_ (i + 1) j k)
      (env.cell_length.getD 0 0 * env.cell_length.getD 0 0)
    + Cplx.divReal (env.A_ i (j - 1) k - Cplx.scale 2 (env.A_ i j k) + env.A_ i (j + 1) k)
      (env.cell_length.getD 1 0 * env.cell_length.getD 1 0)
    + Cplx.divReal (env.A_ i j (k - 1) - Cplx.scale 2 (env.A_ i j k) + env.A_ i j (k + 1))
      (env.cell_length.getD 2 0 * env.cell_length.getD 2 0)

/-- The right-hand side of the discrete envelope equation at the cell `(i, j, k)`, with
`k0 = 1`: `Laplacian(A) + 2 i k0 (A(i+1,j,k) - A(i-1,j,k)) / (2 dx) - Chi A`. -/
def LaserEnvelope3D.envelopeSource (env : LaserEnvelope3D) (em : EnvelopeFields)
    (i j k : Nat) : Cplx :=
  env.laplacian i j k
    + Cplx.divReal
        (Cplx.scale (2 * 1) ({ re := 0, im := 1 } * (env.A_ (i + 1) j k - env.A_ (i - 1) j k)))
        (2 * env.cell_length.getD 0 0)
    - Cplx.scale (em.Env_Chi_ i j k) (env.A_ i j k)

/-- The left-hand side of the discrete envelope equation, with `k0 = 1`, for the new
value `Anew`, the current value `A` and the previous value `Aold` of the envelope at a
cell: `(Anew - 2 A + Aold) / dt^2 - i k0 (Anew - Aold) / dt`. -/
def envelopeTimePart (dt : ℚ) (Anew A Aold : Cplx) : Cplx :=
  Cplx.divReal (Anew - Cplx.scale 2 A + Aold) (dt * dt)
    - Cplx.divReal (Cplx.scale 1 ({ re := 0, im := 1 } * (Anew - Aold))) dt

/-- An envelope on a grid of 3 x 3 x 3 cells with unit steps, used to instantiate the
statements; its only interior cell is `(1, 1, 1)`. -/
def sampleEnvelope : LaserEnvelope3D :=
  { dims_ := [3, 3, 3], cell_length := [1, 1, 1], timestep := 1 / 2
    A_ := fun i j k => { re := (i : ℚ) + j, im := (k : ℚ) }
    A0_ := fun i _ _ => { re := (i : ℚ), im := 1 }
    Phi_ := fun _ _ _ => 0, Phi_m := fun _ _ _ => 0
    GradPhix_ := fun _ _ _ => 0, GradPhix_m := fun _ _ _ => 0
    GradPhiy_ := fun _ _ _ => 0, GradPhiy_m := fun _ _ _ => 0
    GradPhiz_ := fun _ _ _ => 0, GradPhiz_m := fun _ _ _ => 0 }

/-- The fields of `ElectroMagn` for `sampleEnvelope`, with susceptibility 1. -/
def sampleEnvelopeFields : EnvelopeFields :=
  { Env_Chi_ := fun _ _ _ => 1, Env_A_abs_ := fun _ _ _ => 0, Env_E_abs_ := fun _ _ _ => 0 }

/-! ## The ponderomotive potential and its gradient -/

namespace LaserEnvelope3D

/-- The body of the loop of `savePhi_and_GradPhi` at the cell `c`: four assignments to
the saved fields. -/
def saveBody (env : LaserEnvelope3D) (c : Nat × Nat × Nat) : LaserEnvelope3D :=
  let i := c.1
  let j := c.2.1
  let k := c.2.2
  { env with
    Phi_m := setAt env.Phi_m i j k (env.Phi_ i j k)
    GradPhix_m := setAt env.GradPhix_m i j k (env.GradPhix_ i j k)
    GradPhiy_m := setAt env.GradPhiy_m i j k (env.GradPhiy_ i j k)
    GradPhiz_m := setAt env.GradPhiz_m i j k (env.GradPhiy_ i j k) }

/-- The method `LaserEnvelope3D::savePhi_and_GradPhi()`: its loops start at 0 and end
before `dims_[a] - 1`. -/
def savePhi_and_GradPhi (env : LaserEnvelope3D) : LaserEnvelope3D :=
  (env.loopCells 0).foldl saveBody env

/-- The body of the loop of `compute_Phi` at the cell `c`. `cabs` is `std::abs` on
complex numbers. -/
def phiBody (cabs : Cplx → ℚ) (env : LaserEnvelope3D) (c : Nat × Nat × Nat) :
    LaserEnvelope3D :=
  let i := c.1
  let j := c.2.1
  let k := c.2.2
  { env with
    Phi_ := setAt env.Phi_ i j k (cabs (env.A_ i j k) * cabs (env.A_ i j k) * (1 / 2)) }

/-- The method `LaserEnvelope3D::compute_Phi(EMfields)`, which does not use its
argument: its loops start at 1 and end before `dims_[a] - 1`. -/
def compute_Phi (cabs : Cplx → ℚ) (env : LaserEnvelope3D) : LaserEnvelope3D :=
  (env.loopCells 1).foldl (phiBody cabs) env

/-- The body of the loop of `compute_gradient_Phi` at the cell `c`: the centred
differences of `Phi_` along the three axes. -/
def gradBody (env : LaserEnvelope3D) (c : Nat × Nat × Nat) : LaserEnvelope3D :=
  let i := c.1
  let j := c.2.1
  let k := c.2.2
  let one_ov_2dx : ℚ := 1 / 2 / env.cell_length.getD 0 0
  let one_ov_2dy : ℚ := 1 / 2 / env.cell_length.getD 1 0
  let one_ov_2dz : ℚ := 1 / 2 / env.cell_length.getD 2 0
  { env with
    GradPhix_ := setAt env.GradPhix_ i j k
      ((env.Phi_ (i + 1) j k - env.Phi_ (i - 1) j k) * one_ov_2dx)
    GradPhiy_ := setAt env.GradPhiy_ i j k
      ((env.Phi_ i (j + 1) k - env.Phi_ i (j - 1) k) * one_ov_2dy)
    GradPhiz_ := setAt env.GradPhiz_ i j k
      ((env.Phi_ i j (k + 1) - env.Phi_ i j (k - 1)) * one_ov_2dz) }

/-- The method `LaserEnvelope3D::compute_gradient_Phi(EMfields)`, which does not use
its argument. -/
def compute_gradient_Phi (env : LaserEnvelope3D) : LaserEnvelope3D :=
  (env.loopCells 1).foldl gradBody env

/-- The cell `c` lies inside the grid of shape `dims_`. -/
def inGrid (env : LaserEnvelope3D) (c : Nat × Nat × Nat) : Prop :=
  c.1 < env.dims_.getD 0 0 ∧ c.2.1 < env.dims_.getD 1 0 ∧ c.2.2 < env.dims_.getD 2 0

instance decidableInGrid (env : LaserEnvelope3D) (c : Nat × Nat × Nat) :
    Decidable (env.inGrid c) := by
  unfold inGrid
  infer_instance

end LaserEnvelope3D

/-- The index `i - 1` in `unsigned int` arithmetic. -/
def indexBefore (i : Nat) : Nat := (i + 2 ^ 32 - 1) % 2 ^ 32

/-- The index `i + 1` in `unsigned int` arithmetic. -/
def indexAfter (i : Nat) : Nat := (i + 1) % 2 ^ 32

/-- The six neighbour cells `(i-1, j, k)`, `(i+1, j, k)`, `(i, j-1, k)`, `(i, j+1, k)`,
`(i, j, k-1)` and `(i, j, k+1)` that the bodies of the loops of `compute` (reading
`A_`) and of `compute_gradient_Phi` (reading `Phi_`) access at the cell `c`, with the
indices computed in `unsigned int` arithmetic. -/
def neighbourCells (c : Nat × Nat × Nat) : List (Nat × Nat × Nat) :=
  [(indexBefore c.1, c.2.1, c.2.2), (indexAfter c.1, c.2.1, c.2.2),
   (c.1, indexBefore c.2.1, c.2.2), (c.1, indexAfter c.2.1, c.2.2),
   (c.1, c.2.1, indexBefore c.2.2), (c.1, c.2.1, indexAfter c.2.2)]

/-- The members of `Params` that the constructor of `LaserEnvelope3D` reads: the
number `nDim_field` of axes and, per axis, the number `n_space` of cells of the patch
and the width `oversize` of the ghost margin, all of them `unsigned int` values. -/
structure Params where
  nDim_field : Nat
  n_space : List Nat
  oversize : List Nat

/-- The shape `dimPrim` that the constructor of `LaserEnvelope3D` computes for all its
grids: `dimPrim[i] = n_space[i] + 1` and then `dimPrim[i] += 2 * oversize[i]`, in
`unsigned int` arithmetic. -/
def dimPrim (params : Params) : List Nat :=
  (List.range params.nDim_field).map fun i =>
    ((params.n_space.getD i 0 + 1) % 2 ^ 32 + 2 * params.oversize.getD i 0 % 2 ^ 32) % 2 ^ 32

/-- The envelope `sampleEnvelope` with a potential and gradients that differ from one
another: `Phi_ = 1`, `GradPhix_ = 2`, `GradPhiy_ = 3` and `GradPhiz_ = 4` at every
cell, the saved fields being zero. -/
def sampleGradients : LaserEnvelope3D :=
  { sampleEnvelope with
    Phi_ := fun _ _ _ => 1
    GradPhix_ := fun _ _ _ => 2
    GradPhiy_ := fun _ _ _ => 3
    GradPhiz_ := fun _ _ _ => 4 }

/-- The envelope `sampleEnvelope` after the envelope at the corner cell `(0, 0, 0)`
has taken the value `3 + 4 i`, the potential `Phi_` being still zero everywhere. -/
def sampleCorner : LaserEnvelope3D :=
  { sampleEnvelope with
    A_ := fun i j k =>
      if i = 0 ∧ j = 0 ∧ k = 0 then { re := 3, im := 4 } else sampleEnvelope.A_ i j k }

/-- The squared modulus `re^2 + im^2` of a complex number. -/
def Cplx.normSq (a : Cplx) : ℚ := a.re * a.re + a.im * a.im

/-- A function `std::abs` for the samples: the modulus of a complex number, exact
whenever the squared modulus is the square of a rational number (the square roots of
its numerator and denominator are rounded down otherwise). -/
def sampleAbs (a : Cplx) : ℚ :=
  (Nat.sqrt (Cplx.normSq a).num.natAbs : ℚ) / (Nat.sqrt (Cplx.normSq a).den : ℚ)

/-- Parameters of a patch of 2 x 2 x 2 cells with a ghost margin of one cell. -/
def sampleParams : Params := { nDim_field := 3, n_space := [2, 2, 2], oversize := [1, 1, 1] }

/-- An envelope on the grid that the constructor builds from `sampleParams`. -/
def sampleBuilt : LaserEnvelope3D := { sampleEnvelope with dims_ := dimPrim sampleParams }

/-- Parameters whose number of cells per axis is the largest `unsigned int`. -/
def wrapParams : Params :=
  { nDim_field := 3, n_space := [4294967295, 4294967295, 4294967295], oversize := [0, 0, 0] }

/-- An envelope on the grid that the constructor builds from `wrapParams`. -/
def wrapBuilt : LaserEnvelope3D := { sampleEnvelope with dims_ := dimPrim wrapParams }

/-! ## Patch geometry: theorems -/

/-- C1: `locateOnBorders(dir, way)` returns true exactly when the entry
`neighbor_[dir][way]` is the sentinel `MPI_PROC_NULL`, it returns false exactly when the
entry is some other value, and `isWestern`, `isEastern`, `isSouthern`, `isNorthern` are
`locateOnBorders(0,0)`, `(0,1)`, `(1,0)`, `(1,1)`. -/
theorem locateOnBorders_iff_sentinel (MPI_PROC_NULL : Int) (p : Patch) (dir way : Int) :
    (p.locateOnBorders MPI_PROC_NULL dir way = some true
        ↔ p.neighborAt dir way = some MPI_PROC_NULL)
    ∧ (p.locateOnBorders MPI_PROC_NULL dir way = some false
        ↔ ∃ n, p.neighborAt dir way = some n ∧ n ≠ MPI_PROC_NULL)
    ∧ (p.locateOnBorders MPI_PROC_NULL dir way = none ↔ p.neighborAt dir way = none)
    ∧ p.isWestern MPI_PROC_NULL = p.locateOnBorders MPI_PROC_NULL 0 0
    ∧ p.isEastern MPI_PROC_NULL = p.locateOnBorders MPI_PROC_NULL 0 1
    ∧ p.isSouthern MPI_PROC_NULL = p.locateOnBorders MPI_PROC_NULL 1 0
    ∧ p.isNorthern MPI_PROC_NULL = p.locateOnBorders MPI_PROC_NULL 1 1 := by
  refine ⟨?_, ?_, ?_, rfl, rfl, rfl, rfl⟩
  · unfold Patch.locateOnBorders
    cases h : p.neighborAt dir way with
    | none => simp
    | some n => by_cases hn : n = MPI_PROC_NULL <;> simp [hn]
  · unfold Patch.locateOnBorders
    cases h : p.neighborAt dir way with
    | none => simp
    | some n => by_cases hn : n = MPI_PROC_NULL <;> simp [hn]
  · unfold Patch.locateOnBorders
    cases h : p.neighborAt dir way with
    | none => simp
    | some n => by_cases hn : n = MPI_PROC_NULL <;> simp [hn]

/-- C2: on a patch whose three geometry vectors have an entry for axis 0,
`updateMvWinLimits(x_moved, idx_moved)` returns, adds `x_moved` to `min_local[0]` and to
`max_local[0]`, adds `idx_moved` to `cell_starting_global_index[0]`, and the extent
`max_local[0] - min_local[0]` after the call is the one before it. -/
theorem updateMvWinLimits_shifts_axis0 (p : Patch) (x_moved : ℚ) (idx_moved : Int)
    (mn mx : ℚ) (c : Int)
    (hmin : p.min_local[0]? = some mn) (hmax : p.max_local[0]? = some mx)
    (hcell : p.cell_starting_global_index[0]? = some c) :
    ∃ q, p.updateMvWinLimits x_moved idx_moved = some q
      ∧ q.min_local[0]? = some (mn + x_moved)
      ∧ q.max_local[0]? = some (mx + x_moved)
      ∧ q.cell_starting_global_index[0]? = some (c + idx_moved)
      ∧ ∀ mn1 mx1, q.min_local[0]? = some mn1 → q.max_local[0]? = some mx1 →
          mx1 - mn1 = mx - mn := by
  unfold Patch.updateMvWinLimits
  cases h1 : p.min_local with
  | nil => simp [h1] at hmin
  | cons a as =>
    cases h2 : p.max_local with
    | nil => simp [h2] at hmax
    | cons b bs =>
      cases h3 : p.cell_starting_global_index with
      | nil => simp [h3] at hcell
      | cons e es =>
        simp only [h1, List.getElem?_cons_zero, Option.some.injEq] at hmin
        simp only [h2, List.getElem?_cons_zero, Option.some.injEq] at hmax
        simp only [h3, List.getElem?_cons_zero, Option.some.injEq] at hcell
        subst hmin hmax hcell
        refine ⟨_, rfl, by simp, by simp, by simp, ?_⟩
        intro mn1 mx1 e1 e2
        simp only [List.getElem?_cons_zero, Option.some.injEq] at e1 e2
        subst e1 e2
        ring

/-- Witness of C2 on `samplePatch`, shifted by `3/2` and by 6 cells. -/
theorem updateMvWinLimits_shifts_axis0_witness :
    samplePatch.min_local[0]? = some 4 ∧ samplePatch.max_local[0]? = some 8
      ∧ samplePatch.cell_starting_global_index[0]? = some 30
      ∧ ∃ q, samplePatch.updateMvWinLimits (3 / 2) 6 = some q
        ∧ q.min_local[0]? = some (4 + 3 / 2)
        ∧ q.max_local[0]? = some (8 + 3 / 2)
        ∧ q.cell_starting_global_index[0]? = some (30 + 6)
        ∧ ∀ mn1 mx1, q.min_local[0]? = some mn1 → q.max_local[0]? = some mx1 →
            mx1 - mn1 = 8 - 4 :=
  ⟨rfl, rfl, rfl, updateMvWinLimits_shifts_axis0 samplePatch (3 / 2) 6 4 8 30 rfl rfl rfl⟩

/-- C3: on a patch whose three geometry vectors have an entry for axis 0,
`updateMvWinLimits` returns and leaves unchanged the local bounds and the global cell
offsets of every axis other than axis 0, the number of axes of these vectors, the
neighbour tables `neighbor_`, `corner_neighbor_` and `MPI_neighbor_`, the Hilbert
index, the Cartesian coordinates, the ghost-margin widths `oversize`, and the remaining
geometry members. -/
theorem updateMvWinLimits_frame (p : Patch) (x_moved : ℚ) (idx_moved : Int)
    (hmin : p.min_local ≠ []) (hmax : p.max_local ≠ [])
    (hcell : p.cell_starting_global_index ≠ []) :
    ∃ q, p.updateMvWinLimits x_moved idx_moved = some q
      ∧ (∀ i, q.min_local[i + 1]? = p.min_local[i + 1]?)
      ∧ (∀ i, q.max_local[i + 1]? = p.max_local[i + 1]?)
      ∧ (∀ i, q.cell_starting_global_index[i + 1]? = p.cell_starting_global_index[i + 1]?)
      ∧ q.min_local.length = p.min_local.length
      ∧ q.max_local.length = p.max_local.length
      ∧ q.cell_starting_global_index.length = p.cell_starting_global_index.length
      ∧ q.neighbor_ = p.neighbor_
      ∧ q.MPI_neighbor_ = p.MPI_neighbor_
      ∧ q.corner_neighbor_ = p.corner_neighbor_
      ∧ q.hindex = p.hindex
      ∧ q.Pcoordinates = p.Pcoordinates
      ∧ q.oversize = p.oversize
      ∧ q.MPI_me_ = p.MPI_me_
      ∧ q.nDim_fields_ = p.nDim_fields_
      ∧ q.nbNeighbors_ = p.nbNeighbors_ := by
  unfold Patch.updateMvWinLimits
  cases h1 : p.min_local with
  | nil => exact absurd h1 hmin
  | cons a as =>
    cases h2 : p.max_local with
    | nil => exact absurd h2 hmax
    | cons b bs =>
      cases h3 : p.cell_starting_global_index with
      | nil => exact absurd h3 hcell
      | cons e es =>
        exact ⟨_, rfl, by simp, by simp, by simp, by simp, by simp, by simp,
          rfl, rfl, rfl, rfl, rfl, rfl, rfl, rfl, rfl⟩

/-- Witness of C3 on `samplePatch`. -/
theorem updateMvWinLimits_frame_witness :
    ∃ q, samplePatch.updateMvWinLimits (3 / 2) 6 = some q
      ∧ (∀ i, q.min_local[i + 1]? = samplePatch.min_local[i + 1]?)
      ∧ (∀ i, q.max_local[i + 1]? = samplePatch.max_local[i + 1]?)
      ∧ (∀ i, q.cell_starting_global_index[i + 1]?
            = samplePatch.cell_starting_global_index[i + 1]?)
      ∧ q.min_local.length = samplePatch.min_local.length
      ∧ q.max_local.length = samplePatch.max_local.length
      ∧ q.cell_starting_global_index.length = samplePatch.cell_starting_global_index.length
      ∧ q.neighbor_ = samplePatch.neighbor_
      ∧ q.MPI_neighbor_ = samplePatch.MPI_neighbor_
      ∧ q.corner_neighbor_ = samplePatch.corner_neighbor_
      ∧ q.hindex = samplePatch.hindex
      ∧ q.Pcoordinates = samplePatch.Pcoordinates
      ∧ q.oversize = samplePatch.oversize
      ∧ q.MPI_me_ = samplePatch.MPI_me_
      ∧ q.nDim_fields_ = samplePatch.nDim_fields_
      ∧ q.nbNeighbors_ = samplePatch.nbNeighbors_ :=
  updateMvWinLimits_frame samplePatch (3 / 2) 6 (by decide) (by decide) (by decide)

/-! ## The column list: theorems -/

namespace DiagnosticScalar

theorem runCalls_out_list (calls : List ColumnCall) (d : DiagnosticScalar) :
    (runCalls d calls).out_list
      = (prependedEntries calls).reverse ++ d.out_list ++ appendedEntries calls := by
  induction calls generalizing d with
  | nil => simp [runCalls, prependedEntries, appendedEntries]
  | cons c cs ih =>
    have step : runCalls d (c :: cs) = runCalls (c.run d) cs := rfl
    rw [step, ih]
    cases c with
    | prepend n v => simp [ColumnCall.run, prepend, prependedEntries, appendedEntries]
    | append n v => simp [ColumnCall.run, append, prependedEntries, appendedEntries]

/-- C4: after any sequence of `prepend` and `append` calls on an empty column list, the
list is the prepended entries in the reverse of their call order, followed by the
appended entries in their call order; so every prepended entry precedes every appended
one. -/
theorem prepend_append_order (calls : List ColumnCall) (d : DiagnosticScalar) :
    (runCalls { d with out_list := [] } calls).out_list
      = (prependedEntries calls).reverse ++ appendedEntries calls := by
  rw [runCalls_out_list]
  simp

theorem computeFinal_out_list (d : DiagnosticScalar)
    (Ukin Ukin_bnd Ukin_out_mvw Ukin_inj_mvw Uelm Uelm_out_mvw Uelm_inj_mvw Uelm_bnd : ℚ) :
    ((computeFinal d Ukin Ukin_bnd Ukin_out_mvw Ukin_inj_mvw
        Uelm Uelm_out_mvw Uelm_inj_mvw Uelm_bnd).out_list.map Prod.fst)
      = ["Utot", "Uexp", "Ubal", "Ubal_norm", "Uelm", "Ukin", "Uelm_bnd", "Ukin_bnd",
         "Uelm_inj_mvw", "Uelm_out_mvw", "Ukin_inj_mvw", "Ukin_out_mvw"]
        ++ d.out_list.map Prod.fst := by
  simp [computeFinal, prepend]

theorem compute_master_names (d : DiagnosticScalar) (EMfields : ElectroMagn)
    (vecSpecies : List Species) (others : List Rank) :
    ((compute d EMfields vecSpecies { isMaster := true, others := others }).out_list.map
        Prod.fst).take 12
      = ["Utot", "Uexp", "Ubal", "Ubal_norm", "Uelm", "Ukin", "Uelm_bnd", "Ukin_bnd",
         "Uelm_inj_mvw", "Uelm_out_mvw", "Ukin_inj_mvw", "Ukin_out_mvw"] := by
  unfold compute
  simp only [if_true]
  rw [computeFinal_out_list]
  simp

/-- C5 (as stated) fails: after `compute` on the master for `sampleFields` and no
species, the five columns that directly follow time are `Utot`, `Uexp`, `Ubal`,
`Ubal_norm`, `Uelm`, not `Ukin`, `Uelm`, `Ubal_norm`, `Ubal`, `Uexp`. -/
theorem compute_columns_not_Ukin_first :
    ((compute sampleDiag sampleFields [] { isMaster := true, others := [] }).out_list.map
        Prod.fst).take 5 = ["Utot", "Uexp", "Ubal", "Ubal_norm", "Uelm"]
    ∧ ((compute sampleDiag sampleFields [] { isMaster := true, others := [] }).out_list.map
        Prod.fst).take 5 ≠ ["Ukin", "Uelm", "Ubal_norm", "Ubal", "Uexp"] := by
  have h := compute_master_names sampleDiag sampleFields [] []
  have h5 := congrArg (List.take 5) h
  rw [List.take_take] at h5
  have h5' : ((compute sampleDiag sampleFields [] { isMaster := true, others := [] }).out_list.map
        Prod.fst).take 5 = ["Utot", "Uexp", "Ubal", "Ubal_norm", "Uelm"] := by
    simpa using h5
  refine ⟨h5', ?_⟩
  rw [h5']
  decide

/-- C5 (amended): after `compute` on the master, whatever the fields, the species and
the other processes, the twelve columns that directly follow time are `Utot`, `Uexp`,
`Ubal`, `Ubal_norm`, `Uelm`, `Ukin`, `Uelm_bnd`, `Ukin_bnd`, `Uelm_inj_mvw`,
`Uelm_out_mvw`, `Ukin_inj_mvw`, `Ukin_out_mvw`, in this order (the reverse of the order
of the `prepend` calls). -/
theorem compute_priority_columns (d : DiagnosticScalar) (EMfields : ElectroMagn)
    (vecSpecies : List Species) (others : List Rank) :
    ((compute d EMfields vecSpecies { isMaster := true, others := others }).out_list.map
        Prod.fst).take 12
      = ["Utot", "Uexp", "Ubal", "Ubal_norm", "Uelm", "Ukin", "Uelm_bnd", "Ukin_bnd",
         "Uelm_inj_mvw", "Uelm_out_mvw", "Ukin_inj_mvw", "Ukin_out_mvw"] :=
  compute_master_names d EMfields vecSpecies others

/-! ## The allow-list and the report: theorems -/

theorem writeIndexLoop_eq (d : DiagnosticScalar) (l : List (String × ℚ)) (i : Nat)
    (out : String) :
    writeIndexLoop d l i out
      = out ++ concatText
          (indexLines i ((l.filter fun e => d.allowedKey e.1).map Prod.fst)) := by
  induction l generalizing i out with
  | nil => simp [writeIndexLoop, indexLines, concatText]
  | cons e es ih =>
    unfold writeIndexLoop
    by_cases h : d.allowedKey e.1 = true
    · simp only [h, if_true, ih]
      simp [List.filter, h, indexLines, List.enumFrom, concatText, String.append_assoc]
    · simp only [h, if_false, ih]
      simp [List.filter, h]

theorem writeNameLoop_eq (d : DiagnosticScalar) (w : Nat) (l : List (String × ℚ))
    (out : String) :
    writeNameLoop d w l out
      = out ++ concatText ((l.filter fun e => d.allowedKey e.1).map fun e => setw w e.1) := by
  induction l generalizing out with
  | nil => simp [writeNameLoop, concatText]
  | cons e es ih =>
    unfold writeNameLoop
    by_cases h : d.allowedKey e.1 = true
    · simp only [h, if_true, ih]
      simp [List.filter, h, concatText, String.append_assoc]
    · simp only [h, if_false, ih]
      simp [List.filter, h]

theorem writeValueLoop_eq (sci : Nat → ℚ → String) (d : DiagnosticScalar) (w : Nat)
    (l : List (String × ℚ)) (out : String) :
    writeValueLoop sci d w l out
      = out ++ concatText
          ((l.filter fun e => d.allowedKey e.1).map fun e => setw w (sci d.precision e.2)) := by
  induction l generalizing out with
  | nil => simp [writeValueLoop, concatText]
  | cons e es ih =>
    unfold writeValueLoop
    by_cases h : d.allowedKey e.1 = true
    · simp only [h, if_true, ih]
      simp [List.filter, h, concatText, String.append_assoc]
    · simp only [h, if_false, ih]
      simp [List.filter, h]

theorem length_eq_zero_iff (s : String) : s.length = 0 ↔ s = "" := by
  constructor
  · intro h
    apply String.ext
    exact List.eq_nil_of_length_eq_zero h
  · intro h
    subst h
    rfl

theorem write_fout_first (sci : Nat → ℚ → String) (d : DiagnosticScalar) (itime : Int)
    (h : d.fout = "") :
    (write sci d itime).fout
      = "# 1 time\n" ++ concatText (indexLines 2 (d.retained.map Prod.fst))
          ++ d.columnHeader sci itime ++ d.valueRow sci itime := by
  have h0 : ("" : String).length = 0 := rfl
  have h1 : ∀ t : String,
      "# " ++ (toString 1 ++ (" time" ++ ("\n" ++ t))) = "# 1 time\n" ++ t := by
    intro t
    simp only [← String.append_assoc]
    rw [show "# " ++ toString 1 ++ " time" ++ "\n" = "# 1 time\n" from by decide]
  simp only [write, h, h0, if_true, writeIndexLoop_eq, writeNameLoop_eq, writeValueLoop_eq,
    columnHeader, valueRow, retained, String.empty_append, String.append_assoc, h1]

theorem write_fout_later (sci : Nat → ℚ → String) (d : DiagnosticScalar) (itime : Int)
    (h : d.fout ≠ "") :
    (write sci d itime).fout = d.fout ++ d.valueRow sci itime := by
  have h0 : ¬ d.fout.length = 0 := fun e => h ((length_eq_zero_iff _).1 e)
  simp only [write, h0, if_false, writeValueLoop_eq, valueRow, retained,
    String.append_assoc]

theorem append_newline_ne_empty (s : String) : s ++ "\n" ≠ "" := by
  intro h
  have := congrArg String.length h
  simp only [String.length_append] at this
  have h2 : "\n".length = 1 := by decide
  have h3 : ("" : String).length = 0 := rfl
  omega

theorem indexLines_getElem? (i : Nat) (names : List String) (k : Nat) :
    (indexLines i names)[k]?
      = (names[k]?).map fun n => "# " ++ toString (i + k) ++ " " ++ n ++ "\n" := by
  induction names generalizing i k with
  | nil => simp [indexLines]
  | cons n ns ih =>
    cases k with
    | zero => simp [indexLines, List.enumFrom]
    | succ k =>
      have := ih (i + 1) k
      simp only [indexLines] at this
      simp only [indexLines, List.enumFrom, List.map_cons, List.getElem?_cons_succ, this]
      have e : i + 1 + k = i + (k + 1) := by omega
      rw [e]

/-- C7: a call of `write` on a report at position 0 writes the line `# 1 time`, then one
line `# <i> <name>` for each retained entry of the column list, in column order, the
`k`-th of them (counting from 0) carrying the index `2 + k`; a call of `write` on a
report that is not at position 0 only adds the row of values; and after any call of
`write` the report is not at position 0 any more. -/
theorem write_header_block_once (sci : Nat → ℚ → String) (d : DiagnosticScalar)
    (itime : Int) :
    (write sci d itime).fout
        = (if d.fout = "" then
            "# 1 time\n" ++ concatText (indexLines 2 (d.retained.map Prod.fst))
              ++ d.columnHeader sci itime ++ d.valueRow sci itime
           else d.fout ++ d.valueRow sci itime)
    ∧ (∀ k, (indexLines 2 (d.retained.map Prod.fst))[k]?
        = ((d.retained.map Prod.fst)[k]?).map
            fun n => "# " ++ toString (2 + k) ++ " " ++ n ++ "\n")
    ∧ (write sci d itime).fout ≠ "" := by
  refine ⟨?_, fun k => indexLines_getElem? 2 _ k, ?_⟩
  · by_cases h : d.fout = ""
    · rw [if_pos h]
      exact write_fout_first sci d itime h
    · rw [if_neg h]
      exact write_fout_later sci d itime h
  · simp only [write]
    exact append_newline_ne_empty _

/-- C8 (the code at the failing input): the first `write` of a report with the single
column `Utot` puts the time and the value on the line of the column names, which is
ended only after them, and then writes the row of values a second time. -/
theorem write_first_puts_values_on_name_line (sci : Nat → ℚ → String) :
    (write sci firstWriteDiag 0).fout
      = "# 1 time\n# 2 Utot\n#\n#"
          ++ "              time" ++ "              Utot"
          ++ setw 18 (sci 3 0) ++ setw 18 (sci 3 1) ++ "\n"
          ++ setw 12 (sci 3 0) ++ setw 12 (sci 3 1) ++ "\n" := by
  rw [write_fout_first sci firstWriteDiag 0 rfl]
  have hr : firstWriteDiag.retained = [("Utot", 1)] := by decide
  have ht : setw 18 "time" = "              time" := by decide
  have hu : setw 18 "Utot" = "              Utot" := by decide
  have hi : indexLines 2 ["Utot"] = ["# 2 Utot\n"] := by decide
  have hp : firstWriteDiag.precision = 3 := rfl
  have hres : firstWriteDiag.res_time = 1 := rfl
  simp only [columnHeader, valueRow, hr, hp, hres, List.map_cons, List.map_nil, hi,
    concatText, ht, hu, String.append_assoc, String.append_empty, Int.cast_zero,
    zero_div]
  rfl

/-! ## Lookup in the column list: theorems -/

theorem getScalarLoop_absent (my_var : String) (l : List (String × ℚ))
    (h : my_var ∉ l.map Prod.fst) : getScalarLoop my_var l = none := by
  induction l with
  | nil => rfl
  | cons e es ih =>
    simp only [List.map_cons, List.mem_cons, not_or] at h
    unfold getScalarLoop
    rw [if_neg (fun e1 => h.1 e1.symm)]
    exact ih h.2

theorem getScalarLoop_first (my_var : String) (v : ℚ) (pre post : List (String × ℚ))
    (h : my_var ∉ pre.map Prod.fst) :
    getScalarLoop my_var (pre ++ (my_var, v) :: post) = some v := by
  induction pre with
  | nil => simp [getScalarLoop]
  | cons e es ih =>
    simp only [List.map_cons, List.mem_cons, not_or] at h
    simp only [List.cons_append]
    unfold getScalarLoop
    rw [if_neg (fun e1 => h.1 e1.symm)]
    exact ih h.2

theorem foldl_fixed {α β : Type} (f : α → β → α) (l : List β) (a : α)
    (h : ∀ x b, f x b = x) : l.foldl f a = a := by
  induction l with
  | nil => rfl
  | cons b bs ih => rw [List.foldl_cons, h, ih]

theorem computeSpeciesLoop_other (others : List Rank) (vecSpecies : List Species)
    (ispec : Nat) (st : DiagnosticScalar × SpeciesTotals) :
    computeSpeciesLoop { isMaster := false, others := others } ispec vecSpecies st = st := by
  induction vecSpecies generalizing ispec st with
  | nil => rfl
  | cons sp rest ih =>
    unfold computeSpeciesLoop
    rw [ih]
    unfold computeSpecies
    by_cases h : sp.isTestParticles = true <;> simp [h]

theorem compute_other_out_list (d : DiagnosticScalar) (EMfields : ElectroMagn)
    (vecSpecies : List Species) (others : List Rank) :
    (compute d EMfields vecSpecies { isMaster := false, others := others }).out_list = [] := by
  unfold compute
  simp only [Bool.false_eq_true, if_false, computeSpeciesLoop_other, computePoyntingLoop]
  rw [foldl_fixed _ _ _ (fun x j => foldl_fixed _ _ _ (fun y i => by simp [computePoynting]))]
  rw [foldl_fixed _ _ _ (fun x sel => by simp [computeFieldEnergy])]

/-- C9: for a name that does not occur in the column list (the empty list included),
`getScalar(name)` returns 0.0 and continues: the column list is unchanged, and so is
every other member of the diagnostic, the only effect being the note
`key not found <name>`. -/
theorem getScalar_absent_default (d : DiagnosticScalar) (my_var : String)
    (h : my_var ∉ d.out_list.map Prod.fst) :
    (d.getScalar my_var).1 = 0
    ∧ (d.getScalar my_var).2.out_list = d.out_list
    ∧ (d.getScalar my_var).2 = d.DEBUG ("key not found " ++ my_var) := by
  unfold getScalar
  rw [getScalarLoop_absent my_var d.out_list h]
  exact ⟨rfl, rfl, rfl⟩

/-- Witness of C9 on a process that is not the master: after `compute` its column list
is empty, and `getScalar("Utot")` returns 0.0. -/
theorem getScalar_absent_default_witness :
    "Utot" ∉ (compute sampleDiag sampleFields []
        { isMaster := false, others := [] }).out_list.map Prod.fst
    ∧ ((compute sampleDiag sampleFields [] { isMaster := false, others := [] }).getScalar
        "Utot").1 = 0 :=
  ⟨by rw [compute_other_out_list]; simp,
   (getScalar_absent_default _ "Utot" (by rw [compute_other_out_list]; simp)).1⟩

/-- C10: `getScalar(name)` returns the value of the first entry of the column list that
carries the name. For a column list `l` without the name: after `append(name, v)` the
lookup returns `v`; it still returns `v` when further entries, of any name, follow that
entry; and after `prepend(name, w)` on any column list the lookup returns `w`, whatever
entries of the same name come later. In each case the column list is unchanged by the
lookup. -/
theorem getScalar_first_entry (d : DiagnosticScalar) (my_var : String) (v w : ℚ)
    (h : my_var ∉ d.out_list.map Prod.fst) :
    (d.append my_var v).getScalar my_var = (v, d.append my_var v)
    ∧ (∀ post : List (String × ℚ),
        ({ d with out_list := d.out_list ++ (my_var, v) :: post }).getScalar my_var
          = (v, { d with out_list := d.out_list ++ (my_var, v) :: post }))
    ∧ (∀ e : DiagnosticScalar,
        (e.prepend my_var w).getScalar my_var = (w, e.prepend my_var w))
    ∧ ((d.append my_var v).prepend my_var w).getScalar my_var
        = (w, (d.append my_var v).prepend my_var w) := by
  have hp : ∀ e : DiagnosticScalar,
      (e.prepend my_var w).getScalar my_var = (w, e.prepend my_var w) := by
    intro e
    simp [getScalar, prepend, getScalarLoop]
  refine ⟨?_, ?_, hp, hp _⟩
  · have := getScalarLoop_first my_var v d.out_list [] h
    simp only [getScalar, append, this]
  · intro post
    have := getScalarLoop_first my_var v d.out_list post h
    simp only [getScalar, this]

/-- Witness of C10 on the empty column list of `sampleDiag`. -/
theorem getScalar_first_entry_witness :
    "Ukin" ∉ sampleDiag.out_list.map Prod.fst
    ∧ ((sampleDiag.append "Ukin" 6).getScalar "Ukin").1 = 6
    ∧ (((sampleDiag.append "Ukin" 6).prepend "Ukin" 2).getScalar "Ukin").1 = 2 :=
  ⟨by decide,
   congrArg Prod.fst (getScalar_first_entry sampleDiag "Ukin" 6 2 (by decide)).1,
   congrArg Prod.fst (getScalar_first_entry sampleDiag "Ukin" 6 2 (by decide)).2.2.2⟩

/-! ## The columns and totals of `compute`: theorems -/

theorem out_list_append_nil (d : DiagnosticScalar) :
    ({ d with out_list := d.out_list ++ [] } : DiagnosticScalar) = d := by
  cases d
  simp

theorem scalarSpecies_cons (i : Nat) (sp : Species) (rest : List Species) :
    scalarSpecies i (sp :: rest)
      = if sp.isTestParticles then scalarSpecies (i + 1) rest
        else (i, sp) :: scalarSpecies (i + 1) rest := by
  by_cases h : sp.isTestParticles = true <;>
    simp [scalarSpecies, List.enumFrom, List.filter, h]

theorem computeSpecies_master (others : List Rank) (i : Nat) (sp : Species)
    (d : DiagnosticScalar) (t : SpeciesTotals) :
    computeSpecies { isMaster := true, others := others } i sp (d, t)
      = if sp.isTestParticles then (d, t)
        else ({ d with out_list := d.out_list ++ speciesTriple others d.cell_volume (i, sp) },
              speciesTotals others d.cell_volume i [sp] t) := by
  by_cases h : sp.isTestParticles = true
  · simp [computeSpecies, h]
  · simp [computeSpecies, h, append, speciesTriple, speciesTotals, scalarSpecies_cons,
      scalarSpecies, List.enumFrom, SmileiMPI.reduceSum, SmileiMPI.reduceSumUnsigned,
      globalCount, globalCharge, globalEnergy, remoteSpecies]

theorem computeSpeciesLoop_master (others : List Rank) (vecSpecies : List Species)
    (i : Nat) (d : DiagnosticScalar) (t : SpeciesTotals) :
    computeSpeciesLoop { isMaster := true, others := others } i vecSpecies (d, t)
      = ({ d with out_list := d.out_list ++ speciesColumns others d.cell_volume i vecSpecies },
         speciesTotals others d.cell_volume i vecSpecies t) := by
  induction vecSpecies generalizing i d t with
  | nil =>
    simp [computeSpeciesLoop, speciesColumns, speciesTotals, scalarSpecies, List.enumFrom,
      out_list_append_nil]
  | cons sp rest ih =>
    unfold computeSpeciesLoop
    rw [computeSpecies_master]
    by_cases h : sp.isTestParticles = true
    · rw [if_pos h, ih]
      simp [speciesColumns, speciesTotals, scalarSpecies_cons, h]
    · rw [if_neg h, ih]
      simp [speciesColumns, speciesTotals, scalarSpecies_cons, h, scalarSpecies,
        List.enumFrom]

theorem computeFieldEnergy_master (EMfields : ElectroMagn) (others : List Rank)
    (sels : List (ElectroMagn → Field)) (d : DiagnosticScalar) (U : ℚ) :
    sels.foldl (computeFieldEnergy EMfields { isMaster := true, others := others }) (d, U)
      = ({ d with out_list := d.out_list ++ sels.map fun sel =>
              ("Uelm_" ++ (sel EMfields).name,
                globalFieldEnergy EMfields others d.cell_volume sel) },
         U + (sels.map fun sel =>
              globalFieldEnergy EMfields others d.cell_volume sel).sum) := by
  induction sels generalizing d U with
  | nil => simp [out_list_append_nil]
  | cons sel rest ih =>
    rw [List.foldl_cons]
    have step : computeFieldEnergy EMfields { isMaster := true, others := others } (d, U) sel
        = (d.append ("Uelm_" ++ (sel EMfields).name)
              (globalFieldEnergy EMfields others d.cell_volume sel),
           U + globalFieldEnergy EMfields others d.cell_volume sel) := by
      simp [computeFieldEnergy, SmileiMPI.reduceSum, globalFieldEnergy]
    rw [step, ih]
    simp [append, add_assoc]

theorem appendMinMax_master (EMfields : ElectroMagn) (smpi : SmileiMPI)
    (sels : List (ElectroMagn → Field)) (d : DiagnosticScalar) :
    sels.foldl (appendMinMax EMfields smpi) d
      = { d with out_list := d.out_list ++ sels.flatMap (minMaxQuad EMfields smpi) } := by
  induction sels generalizing d with
  | nil => simp [out_list_append_nil]
  | cons sel rest ih =>
    rw [List.foldl_cons, ih]
    simp [appendMinMax, append, minMaxQuad]

theorem computePoynting_master (EMfields : ElectroMagn) (others : List Rank) (j : Nat)
    (is : List Nat) (d : DiagnosticScalar) (U : ℚ) :
    is.foldl (computePoynting EMfields { isMaster := true, others := others } j) (d, U)
      = ({ d with out_list := d.out_list ++ is.flatMap fun i =>
              [(poyntingName j i, globalPoynting EMfields others j i),
               (poyntingName j i ++ "Inst", globalPoyntingInst EMfields others j i)] },
         U + (is.map fun i => globalPoynting EMfields others j i).sum) := by
  induction is generalizing d U with
  | nil => simp [out_list_append_nil]
  | cons i rest ih =>
    rw [List.foldl_cons]
    have step : computePoynting EMfields { isMaster := true, others := others } j (d, U) i
        = ((d.append (poyntingName j i) (globalPoynting EMfields others j i)).append
              (poyntingName j i ++ "Inst") (globalPoyntingInst EMfields others j i),
           U + globalPoynting EMfields others j i) := by
      simp [computePoynting, SmileiMPI.reduceSum, globalPoynting, globalPoyntingInst]
    rw [step, ih]
    simp [append, add_assoc]

theorem computePoyntingLoop_master (EMfields : ElectroMagn) (others : List Rank)
    (d : DiagnosticScalar) (U : ℚ) :
    computePoyntingLoop EMfields { isMaster := true, others := others } (d, U)
      = ({ d with out_list := d.out_list ++ poyntingColumns EMfields others },
         U + ((poyntingSides EMfields).map fun p =>
              globalPoynting EMfields others p.1 p.2).sum) := by
  simp only [computePoyntingLoop, show List.range 2 = [0, 1] from rfl, List.foldl_cons,
    List.foldl_nil, computePoynting_master]
  simp [poyntingColumns, poyntingSides, show List.range 2 = [0, 1] from rfl,
    List.flatMap_map, List.map_flatMap, add_assoc, Function.comp_def]

theorem compute_master (d : DiagnosticScalar) (EMfields : ElectroMagn)
    (vecSpecies : List Species) (others : List Rank) :
    compute d EMfields vecSpecies { isMaster := true, others := others }
      = computeFinal { d with out_list := appendedColumns d EMfields vecSpecies others }
          (speciesTotals others d.cell_volume 0 vecSpecies
            { Ukin := 0, Ukin_bnd := 0, Ukin_out_mvw := 0, Ukin_inj_mvw := 0 }).Ukin
          (speciesTotals others d.cell_volume 0 vecSpecies
            { Ukin := 0, Ukin_bnd := 0, Ukin_out_mvw := 0, Ukin_inj_mvw := 0 }).Ukin_bnd
          (speciesTotals others d.cell_volume 0 vecSpecies
            { Ukin := 0, Ukin_bnd := 0, Ukin_out_mvw := 0, Ukin_inj_mvw := 0 }).Ukin_out_mvw
          (speciesTotals others d.cell_volume 0 vecSpecies
            { Ukin := 0, Ukin_bnd := 0, Ukin_out_mvw := 0, Ukin_inj_mvw := 0 }).Ukin_inj_mvw
          ((energyFields.map fun sel =>
              globalFieldEnergy EMfields others d.cell_volume sel).sum)
          ((EMfields.LostNrjMW + (others.map fun r => r.EMfields.LostNrjMW).sum)
              * (1 / 2 * d.cell_volume))
          ((EMfields.NewFieldsNRJ + (others.map fun r => r.EMfields.NewFieldsNRJ).sum)
              * (1 / 2 * d.cell_volume))
          (((poyntingSides EMfields).map fun p =>
              globalPoynting EMfields others p.1 p.2).sum) := by
  unfold compute
  simp only [if_true, computeSpeciesLoop_master, computeFieldEnergy_master,
    appendMinMax_master, computePoyntingLoop_master, SmileiMPI.reduceSum]
  simp [appendedColumns, energyColumns, minMaxColumns, List.append_assoc]

theorem getScalar_computeFinal (d : DiagnosticScalar)
    (Ukin Ukin_bnd Ukin_out_mvw Ukin_inj_mvw Uelm Uelm_out_mvw Uelm_inj_mvw Uelm_bnd : ℚ) :
    ((computeFinal d Ukin Ukin_bnd Ukin_out_mvw Ukin_inj_mvw
        Uelm Uelm_out_mvw Uelm_inj_mvw Uelm_bnd).getScalar "Utot").1 = Ukin + Uelm
    ∧ ((computeFinal d Ukin Ukin_bnd Ukin_out_mvw Ukin_inj_mvw
        Uelm Uelm_out_mvw Uelm_inj_mvw Uelm_bnd).getScalar "Uexp").1
        = d.Energy_time_zero + Uelm_bnd + Ukin_inj_mvw + Uelm_inj_mvw
            - (Ukin_bnd + Ukin_out_mvw + Uelm_out_mvw)
    ∧ ((computeFinal d Ukin Ukin_bnd Ukin_out_mvw Ukin_inj_mvw
        Uelm Uelm_out_mvw Uelm_inj_mvw Uelm_bnd).getScalar "Ubal").1
        = Ukin + Uelm - (d.Energy_time_zero + Uelm_bnd + Ukin_inj_mvw + Uelm_inj_mvw
            - (Ukin_bnd + Ukin_out_mvw + Uelm_out_mvw))
    ∧ ((computeFinal d Ukin Ukin_bnd Ukin_out_mvw Ukin_inj_mvw
        Uelm Uelm_out_mvw Uelm_inj_mvw Uelm_bnd).getScalar "Ubal_norm").1
        = (if Ukin + Uelm > 0 then
            (Ukin + Uelm - (d.Energy_time_zero + Uelm_bnd + Ukin_inj_mvw + Uelm_inj_mvw
              - (Ukin_bnd + Ukin_out_mvw + Uelm_out_mvw))) / (Ukin + Uelm)
           else 0)
    ∧ ((computeFinal d Ukin Ukin_bnd Ukin_out_mvw Ukin_inj_mvw
        Uelm Uelm_out_mvw Uelm_inj_mvw Uelm_bnd).getScalar "Uelm").1 = Uelm
    ∧ ((computeFinal d Ukin Ukin_bnd Ukin_out_mvw Ukin_inj_mvw
        Uelm Uelm_out_mvw Uelm_inj_mvw Uelm_bnd).getScalar "Ukin").1 = Ukin
    ∧ ((computeFinal d Ukin Ukin_bnd Ukin_out_mvw Ukin_inj_mvw
        Uelm Uelm_out_mvw Uelm_inj_mvw Uelm_bnd).getScalar "Uelm_bnd").1 = Uelm_bnd
    ∧ ((computeFinal d Ukin Ukin_bnd Ukin_out_mvw Ukin_inj_mvw
        Uelm Uelm_out_mvw Uelm_inj_mvw Uelm_bnd).getScalar "Ukin_bnd").1 = Ukin_bnd
    ∧ ((computeFinal d Ukin Ukin_bnd Ukin_out_mvw Ukin_inj_mvw
        Uelm Uelm_out_mvw Uelm_inj_mvw Uelm_bnd).getScalar "Uelm_inj_mvw").1 = Uelm_inj_mvw
    ∧ ((computeFinal d Ukin Ukin_bnd Ukin_out_mvw Ukin_inj_mvw
        Uelm Uelm_out_mvw Uelm_inj_mvw Uelm_bnd).getScalar "Uelm_out_mvw").1 = Uelm_out_mvw
    ∧ ((computeFinal d Ukin Ukin_bnd Ukin_out_mvw Ukin_inj_mvw
        Uelm Uelm_out_mvw Uelm_inj_mvw Uelm_bnd).getScalar "Ukin_inj_mvw").1 = Ukin_inj_mvw
    ∧ ((computeFinal d Ukin Ukin_bnd Ukin_out_mvw Ukin_inj_mvw
        Uelm Uelm_out_mvw Uelm_inj_mvw Uelm_bnd).getScalar "Ukin_out_mvw").1
        = Ukin_out_mvw := by
  simp [computeFinal, getScalar, prepend, getScalarLoop]

/-- C17: on the master after `compute`, the reported scalars satisfy
`Utot = Ukin + Uelm`,
`Uexp = Energy_time_zero + Uelm_bnd + Ukin_inj_mvw + Uelm_inj_mvw
  - (Ukin_bnd + Ukin_out_mvw + Uelm_out_mvw)`, `Ubal = Utot - Uexp`, and `Ubal_norm` is
`Ubal / Utot` when `Utot > 0` and 0 otherwise; `Energy_time_zero` is the member of the
diagnostic, which `compute` does not change. -/
theorem compute_energy_balance (d : DiagnosticScalar) (EMfields : ElectroMagn)
    (vecSpecies : List Species) (others : List Rank) :
    ((compute d EMfields vecSpecies { isMaster := true, others := others }).getScalar
        "Utot").1
      = ((compute d EMfields vecSpecies { isMaster := true, others := others }).getScalar
          "Ukin").1
        + ((compute d EMfields vecSpecies { isMaster := true, others := others }).getScalar
          "Uelm").1
    ∧ ((compute d EMfields vecSpecies { isMaster := true, others := others }).getScalar
        "Uexp").1
      = d.Energy_time_zero
        + ((compute d EMfields vecSpecies { isMaster := true, others := others }).getScalar
          "Uelm_bnd").1
        + ((compute d EMfields vecSpecies { isMaster := true, others := others }).getScalar
          "Ukin_inj_mvw").1
        + ((compute d EMfields vecSpecies { isMaster := true, others := others }).getScalar
          "Uelm_inj_mvw").1
        - (((compute d EMfields vecSpecies { isMaster := true, others := others }).getScalar
            "Ukin_bnd").1
          + ((compute d EMfields vecSpecies { isMaster := true, others := others }).getScalar
            "Ukin_out_mvw").1
          + ((compute d EMfields vecSpecies { isMaster := true, others := others }).getScalar
            "Uelm_out_mvw").1)
    ∧ ((compute d EMfields vecSpecies { isMaster := true, others := others }).getScalar
        "Ubal").1
      = ((compute d EMfields vecSpecies { isMaster := true, others := others }).getScalar
          "Utot").1
        - ((compute d EMfields vecSpecies { isMaster := true, others := others }).getScalar
          "Uexp").1
    ∧ ((compute d EMfields vecSpecies { isMaster := true, others := others }).getScalar
        "Ubal_norm").1
      = (if ((compute d EMfields vecSpecies
              { isMaster := true, others := others }).getScalar "Utot").1 > 0
         then ((compute d EMfields vecSpecies
              { isMaster := true, others := others }).getScalar "Ubal").1
            / ((compute d EMfields vecSpecies
              { isMaster := true, others := others }).getScalar "Utot").1
         else 0)
    ∧ (compute d EMfields vecSpecies { isMaster := true, others := others }).Energy_time_zero
      = d.Energy_time_zero := by
  rw [compute_master]
  generalize (speciesTotals others d.cell_volume 0 vecSpecies
      { Ukin := 0, Ukin_bnd := 0, Ukin_out_mvw := 0, Ukin_inj_mvw := 0 }) = t
  have h := getScalar_computeFinal
    { d with out_list := appendedColumns d EMfields vecSpecies others }
    t.Ukin t.Ukin_bnd t.Ukin_out_mvw t.Ukin_inj_mvw
    ((energyFields.map fun sel =>
        globalFieldEnergy EMfields others d.cell_volume sel).sum)
    ((EMfields.LostNrjMW + (others.map fun r => r.EMfields.LostNrjMW).sum)
        * (1 / 2 * d.cell_volume))
    ((EMfields.NewFieldsNRJ + (others.map fun r => r.EMfields.NewFieldsNRJ).sum)
        * (1 / 2 * d.cell_volume))
    (((poyntingSides EMfields).map fun p =>
        globalPoynting EMfields others p.1 p.2).sum)
  obtain ⟨h1, h2, h3, h4, h5, h6, h7, h8, h9, h10, h11, h12⟩ := h
  rw [h1, h2, h3, h4, h5, h6, h7, h8, h9, h10, h11, h12]
  refine ⟨rfl, rfl, rfl, rfl, ?_⟩
  simp [computeFinal, prepend]

theorem speciesTotals_Ukin (others : List Rank) (cell_volume : ℚ) (i : Nat)
    (vecSpecies : List Species) (t : SpeciesTotals) :
    (speciesTotals others cell_volume i vecSpecies t).Ukin
      = t.Ukin + ((ukinColumns others cell_volume i vecSpecies).map Prod.snd).sum := by
  unfold speciesTotals ukinColumns
  generalize scalarSpecies i vecSpecies = l
  induction l generalizing t with
  | nil => simp
  | cons p ps ih =>
    rw [List.foldl_cons, ih]
    simp [add_assoc]

theorem ukinColumns_sublist (others : List Rank) (cell_volume : ℚ) (i : Nat)
    (vecSpecies : List Species) :
    (ukinColumns others cell_volume i vecSpecies).Sublist
      (speciesColumns others cell_volume i vecSpecies) := by
  unfold ukinColumns speciesColumns
  generalize scalarSpecies i vecSpecies = l
  induction l with
  | nil => simp
  | cons p ps ih =>
    simp only [List.map_cons, List.flatMap_cons, speciesTriple, List.cons_append,
      List.nil_append]
    exact ((ih.cons₂ _).cons _).cons _

theorem computeFinal_out_list_eq (d : DiagnosticScalar)
    (Ukin Ukin_bnd Ukin_out_mvw Ukin_inj_mvw Uelm Uelm_out_mvw Uelm_inj_mvw Uelm_bnd : ℚ) :
    ∃ pre : List (String × ℚ),
      (computeFinal d Ukin Ukin_bnd Ukin_out_mvw Ukin_inj_mvw
        Uelm Uelm_out_mvw Uelm_inj_mvw Uelm_bnd).out_list = pre ++ d.out_list := by
  simp only [computeFinal, prepend]
  exact ⟨[_, _, _, _, _, _, _, _, _, _, _, _], rfl⟩

theorem appendedColumns_sublist (d : DiagnosticScalar) (EMfields : ElectroMagn)
    (vecSpecies : List Species) (others : List Rank) :
    (appendedColumns d EMfields vecSpecies others).Sublist
      (compute d EMfields vecSpecies { isMaster := true, others := others }).out_list := by
  rw [compute_master]
  obtain ⟨pre, h⟩ := computeFinal_out_list_eq
    { d with out_list := appendedColumns d EMfields vecSpecies others }
    (speciesTotals others d.cell_volume 0 vecSpecies
      { Ukin := 0, Ukin_bnd := 0, Ukin_out_mvw := 0, Ukin_inj_mvw := 0 }).Ukin
    (speciesTotals others d.cell_volume 0 vecSpecies
      { Ukin := 0, Ukin_bnd := 0, Ukin_out_mvw := 0, Ukin_inj_mvw := 0 }).Ukin_bnd
    (speciesTotals others d.cell_volume 0 vecSpecies
      { Ukin := 0, Ukin_bnd := 0, Ukin_out_mvw := 0, Ukin_inj_mvw := 0 }).Ukin_out_mvw
    (speciesTotals others d.cell_volume 0 vecSpecies
      { Ukin := 0, Ukin_bnd := 0, Ukin_out_mvw := 0, Ukin_inj_mvw := 0 }).Ukin_inj_mvw
    ((energyFields.map fun sel =>
        globalFieldEnergy EMfields others d.cell_volume sel).sum)
    ((EMfields.LostNrjMW + (others.map fun r => r.EMfields.LostNrjMW).sum)
        * (1 / 2 * d.cell_volume))
    ((EMfields.NewFieldsNRJ + (others.map fun r => r.EMfields.NewFieldsNRJ).sum)
        * (1 / 2 * d.cell_volume))
    (((poyntingSides EMfields).map fun p =>
        globalPoynting EMfields others p.1 p.2).sum)
  rw [h]
  exact List.sublist_append_right _ _

theorem getScalar_Ukin (d : DiagnosticScalar) (EMfields : ElectroMagn)
    (vecSpecies : List Species) (others : List Rank) :
    ((compute d EMfields vecSpecies { isMaster := true, others := others }).getScalar
        "Ukin").1
      = ((ukinColumns others d.cell_volume 0 vecSpecies).map Prod.snd).sum := by
  rw [compute_master, (getScalar_computeFinal _ _ _ _ _ _ _ _ _).2.2.2.2.2.1,
    speciesTotals_Ukin]
  simp

theorem sample_globalEnergy :
    globalEnergy sampleOthers 1 0 (sampleSpecies 3) = 6 := by
  simp [globalEnergy, remoteSpecies, sampleOthers, sampleSpecies, Species.localSums,
    Species.getNbrOfParticles]
  norm_num

/-- C11: on the master after `compute`, the scalar `Ukin` is the sum of the values of
the columns `Ukin_<species>`, one for each species that is not a test species, each
being the sum over all processes of the kinetic energy of that species; these columns
are part of the column list, in the order of the species. For three patches whose
electrons contribute 2.0, 3.5 and 0.5, the column `Ukin_eon` and the total `Ukin` are
exactly 6.0. -/
theorem compute_Ukin_is_sum (d : DiagnosticScalar) (EMfields : ElectroMagn)
    (vecSpecies : List Species) (others : List Rank) :
    ((compute d EMfields vecSpecies { isMaster := true, others := others }).getScalar
        "Ukin").1
      = ((ukinColumns others d.cell_volume 0 vecSpecies).map Prod.snd).sum
    ∧ (ukinColumns others d.cell_volume 0 vecSpecies).Sublist
        (compute d EMfields vecSpecies { isMaster := true, others := others }).out_list
    ∧ ukinColumns sampleOthers sampleDiag.cell_volume 0 [sampleSpecies 3]
        = [("Ukin_eon", 6)]
    ∧ ((compute sampleDiag sampleFields [sampleSpecies 3]
          { isMaster := true, others := sampleOthers }).getScalar "Ukin").1 = 6 := by
  have hcols : ukinColumns sampleOthers sampleDiag.cell_volume 0 [sampleSpecies 3]
      = [("Ukin_eon", 6)] := by
    have h1 : sampleDiag.cell_volume = 1 := rfl
    have h2 : scalarSpecies 0 [sampleSpecies 3] = [(0, sampleSpecies 3)] := by
      simp [scalarSpecies, List.enumFrom, sampleSpecies]
    have h3 : "Ukin_" ++ (sampleSpecies 3).species_type = "Ukin_eon" := by decide
    simp only [ukinColumns, h1, h2, List.map_cons, List.map_nil, sample_globalEnergy, h3]
  refine ⟨getScalar_Ukin d EMfields vecSpecies others, ?_, hcols, ?_⟩
  · exact ((ukinColumns_sublist others d.cell_volume 0 vecSpecies).trans
      (by unfold appendedColumns
          exact (List.sublist_append_left _ _).trans
            ((List.sublist_append_left _ _).trans (List.sublist_append_left _ _)))).trans
      (appendedColumns_sublist d EMfields vecSpecies others)
  · rw [getScalar_Ukin, hcols]
    simp

theorem drop_head_of_map {α β : Type} (f : α → β) (l : List α) (i : Nat) (b : β)
    (bs : List β) (h : (l.drop i).map f = b :: bs) :
    ∃ s, l[i]? = some s ∧ f s = b ∧ l.drop i = s :: l.drop (i + 1)
      ∧ (l.drop (i + 1)).map f = bs := by
  cases hd : l.drop i with
  | nil => simp [hd] at h
  | cons s tl =>
    rw [hd] at h
    simp only [List.map_cons, List.cons.injEq] at h
    have h0 : l[i]? = some s := by
      have := congrArg (fun x => x[0]?) hd
      simpa [List.getElem?_drop] using this
    have h1 : l.drop (i + 1) = tl := by
      have := congrArg (List.drop 1) hd
      simpa [List.drop_drop, Nat.add_comm] using this
    exact ⟨s, h0, h.1, by rw [h1], by rw [h1]; exact h.2⟩

theorem speciesTriple_congr (others others2 : List Rank) (cell_volume : ℚ) (i i2 : Nat)
    (sp : Species) (h : remoteSpecies others i = remoteSpecies others2 i2) :
    speciesTriple others cell_volume (i, sp) = speciesTriple others2 cell_volume (i2, sp) := by
  simp [speciesTriple, globalCount, globalCharge, globalEnergy, h]

theorem speciesTotals_cons (others : List Rank) (cell_volume : ℚ) (i : Nat) (sp : Species)
    (rest : List Species) (t : SpeciesTotals) :
    speciesTotals others cell_volume i (sp :: rest) t
      = if sp.isTestParticles then speciesTotals others cell_volume (i + 1) rest t
        else speciesTotals others cell_volume (i + 1) rest
          (speciesTotals others cell_volume i [sp] t) := by
  by_cases h : sp.isTestParticles = true <;>
    simp [speciesTotals, scalarSpecies_cons, h, scalarSpecies, List.enumFrom]

theorem speciesTotals_single_congr (others others2 : List Rank) (cell_volume : ℚ)
    (i i2 : Nat) (sp : Species) (t : SpeciesTotals)
    (h : remoteSpecies others i = remoteSpecies others2 i2) :
    speciesTotals others cell_volume i [sp] t = speciesTotals others2 cell_volume i2 [sp] t := by
  by_cases hs : sp.isTestParticles = true <;>
    simp [speciesTotals, scalarSpecies, List.enumFrom, List.filter, hs, globalEnergy, h]

theorem speciesColumns_cons (others : List Rank) (cell_volume : ℚ) (i : Nat) (sp : Species)
    (rest : List Species) :
    speciesColumns others cell_volume i (sp :: rest)
      = if sp.isTestParticles then speciesColumns others cell_volume (i + 1) rest
        else speciesTriple others cell_volume (i, sp)
          ++ speciesColumns others cell_volume (i + 1) rest := by
  by_cases h : sp.isTestParticles = true <;>
    simp [speciesColumns, scalarSpecies_cons, h]

theorem species_without_test (cell_volume : ℚ) (vecSpecies : List Species)
    (zs : List (Rank × Rank)) (i i2 : Nat) (t : SpeciesTotals)
    (hz : ∀ z ∈ zs, z.2.cell_volume = z.1.cell_volume
      ∧ (z.1.vecSpecies.drop i).map (fun s => s.isTestParticles)
          = vecSpecies.map (fun s => s.isTestParticles)
      ∧ z.2.vecSpecies.drop i2 = withoutTestParticles (z.1.vecSpecies.drop i)) :
    speciesColumns (zs.map Prod.fst) cell_volume i vecSpecies
        = speciesColumns (zs.map Prod.snd) cell_volume i2 (withoutTestParticles vecSpecies)
    ∧ speciesTotals (zs.map Prod.fst) cell_volume i vecSpecies t
        = speciesTotals (zs.map Prod.snd) cell_volume i2 (withoutTestParticles vecSpecies) t := by
  induction vecSpecies generalizing i i2 t with
  | nil =>
    simp [withoutTestParticles, speciesColumns, speciesTotals, scalarSpecies, List.enumFrom]
  | cons sp rest ih =>
    have hz2 : ∀ z ∈ zs, ∃ s, z.1.vecSpecies[i]? = some s
        ∧ s.isTestParticles = sp.isTestParticles
        ∧ z.1.vecSpecies.drop i = s :: z.1.vecSpecies.drop (i + 1)
        ∧ (z.1.vecSpecies.drop (i + 1)).map (fun s => s.isTestParticles)
            = rest.map (fun s => s.isTestParticles) := by
      intro z hzmem
      exact drop_head_of_map _ _ _ _ _ (by simpa using (hz z hzmem).2.1)
    by_cases h : sp.isTestParticles = true
    · have hw : withoutTestParticles (sp :: rest) = withoutTestParticles rest := by
        simp [withoutTestParticles, List.filter, h]
      rw [hw, speciesColumns_cons, speciesTotals_cons, if_pos h, if_pos h]
      apply ih
      intro z hzmem
      obtain ⟨s, _, hs2, hs3, hs4⟩ := hz2 z hzmem
      refine ⟨(hz z hzmem).1, hs4, ?_⟩
      rw [(hz z hzmem).2.2, hs3]
      simp [withoutTestParticles, List.filter, hs2, h]
    · have hw : withoutTestParticles (sp :: rest) = sp :: withoutTestParticles rest := by
        simp [withoutTestParticles, List.filter, h]
      have hrem : remoteSpecies (zs.map Prod.fst) i = remoteSpecies (zs.map Prod.snd) i2 := by
        unfold remoteSpecies
        rw [List.filterMap_map, List.filterMap_map]
        apply List.filterMap_congr
        intro z hzmem
        obtain ⟨s, hs1, hs2, hs3, _⟩ := hz2 z hzmem
        have h2 : z.2.vecSpecies.drop i2
            = s :: withoutTestParticles (z.1.vecSpecies.drop (i + 1)) := by
          rw [(hz z hzmem).2.2, hs3]
          simp [withoutTestParticles, List.filter, hs2, h]
        have h3 : z.2.vecSpecies[i2]? = some s := by
          have := congrArg (fun x => x[0]?) h2
          simpa [List.getElem?_drop] using this
        simp [hs1, h3, (hz z hzmem).1]
      have hnext : ∀ z ∈ zs, z.2.cell_volume = z.1.cell_volume
          ∧ (z.1.vecSpecies.drop (i + 1)).map (fun s => s.isTestParticles)
              = rest.map (fun s => s.isTestParticles)
          ∧ z.2.vecSpecies.drop (i2 + 1)
              = withoutTestParticles (z.1.vecSpecies.drop (i + 1)) := by
        intro z hzmem
        obtain ⟨s, _, hs2, hs3, hs4⟩ := hz2 z hzmem
        refine ⟨(hz z hzmem).1, hs4, ?_⟩
        have h2 : z.2.vecSpecies.drop i2
            = s :: withoutTestParticles (z.1.vecSpecies.drop (i + 1)) := by
          rw [(hz z hzmem).2.2, hs3]
          simp [withoutTestParticles, List.filter, hs2, h]
        have := congrArg (List.drop 1) h2
        simpa [List.drop_drop, Nat.add_comm] using this
      rw [hw]
      refine ⟨?_, ?_⟩
      · rw [speciesColumns_cons, speciesColumns_cons, if_neg h, if_neg h,
          speciesTriple_congr _ _ _ _ _ _ hrem, (ih (i + 1) (i2 + 1) t hnext).1]
      · rw [speciesTotals_cons (zs.map Prod.fst) cell_volume i sp rest t,
          speciesTotals_cons (zs.map Prod.snd) cell_volume i2 sp (withoutTestParticles rest) t,
          if_neg h, if_neg h, speciesTotals_single_congr _ _ _ _ _ _ _ hrem,
          (ih (i + 1) (i2 + 1) _ hnext).2]

theorem compute_without_test (d : DiagnosticScalar) (EMfields : ElectroMagn)
    (vecSpecies : List Species) (others : List Rank)
    (hflags : ∀ r ∈ others, r.vecSpecies.map (fun s => s.isTestParticles)
        = vecSpecies.map (fun s => s.isTestParticles)) :
    compute d EMfields vecSpecies { isMaster := true, others := others }
      = compute d EMfields (withoutTestParticles vecSpecies)
          { isMaster := true, others := others.map Rank.withoutTestParticles } := by
  have h1 : (others.map fun r => (r, r.withoutTestParticles)).map Prod.fst = others := by
    simp [List.map_map, Function.comp_def]
  have h2 : (others.map fun r => (r, r.withoutTestParticles)).map Prod.snd
      = others.map Rank.withoutTestParticles := by
    simp [List.map_map, Function.comp_def]
  have key := fun t => species_without_test d.cell_volume vecSpecies
    (others.map fun r => (r, r.withoutTestParticles)) 0 0 t (by
      intro z hz
      simp only [List.mem_map] at hz
      obtain ⟨r, hr, rfl⟩ := hz
      exact ⟨rfl, by simpa using hflags r hr, by simp [Rank.withoutTestParticles]⟩)
  rw [h1, h2] at key
  have hmm : minMaxQuad EMfields
        { isMaster := true, others := others.map Rank.withoutTestParticles }
      = minMaxQuad EMfields { isMaster := true, others := others } := by
    funext sel
    simp [minMaxQuad, reducedMinMax, SmileiMPI.reduceLoc, List.map_map, Function.comp_def,
      Rank.withoutTestParticles]
  have kc := (key { Ukin := 0, Ukin_bnd := 0, Ukin_out_mvw := 0, Ukin_inj_mvw := 0 }).1
  have kt := (key { Ukin := 0, Ukin_bnd := 0, Ukin_out_mvw := 0, Ukin_inj_mvw := 0 }).2
  rw [compute_master, compute_master, ← kt]
  simp only [appendedColumns, ← kc, minMaxColumns, hmm]
  simp [energyColumns, globalFieldEnergy, poyntingColumns, globalPoynting,
    globalPoyntingInst, List.map_map, Function.comp_def, Rank.withoutTestParticles]

theorem localSums_nil (cell_volume : ℚ) (sp : Species) (h : sp.particles = []) :
    sp.localSums cell_volume = (0, 0) := by
  simp [Species.localSums, Species.getNbrOfParticles, h]

theorem sum_eq_zero_of_nat {α : Type} (l : List α) (f : α → Nat)
    (h : (l.map f).sum = 0) : ∀ x ∈ l, f x = 0 := by
  induction l with
  | nil => simp
  | cons a as ih =>
    simp only [List.map_cons, List.sum_cons] at h
    intro x hx
    rcases List.mem_cons.1 hx with rfl | hx
    · omega
    · exact ih (by omega) x hx

theorem sum_le_of_pointwise {α : Type} (l : List α) (f g : α → Nat)
    (h : ∀ x, f x ≤ g x) : (l.map f).sum ≤ (l.map g).sum := by
  induction l with
  | nil => simp
  | cons a as ih =>
    simp only [List.map_cons, List.sum_cons]
    have := h a
    omega

theorem sum_eq_of_pointwise {α : Type} (l : List α) (f g : α → Nat)
    (h : ∀ x ∈ l, f x = g x) : (l.map f).sum = (l.map g).sum := by
  induction l with
  | nil => simp
  | cons a as ih =>
    simp only [List.map_cons, List.sum_cons]
    rw [h a (List.mem_cons_self _ _), ih (fun x hx => h x (List.mem_cons_of_mem _ hx))]

theorem globalCharge_zero_of_count_zero (others : List Rank) (cell_volume : ℚ) (i : Nat)
    (sp : Species)
    (hfit : sp.particles.length
        + ((remoteSpecies others i).map fun r => r.2.particles.length).sum < 2 ^ 32)
    (hcount : globalCount others i sp = 0) :
    globalCharge others cell_volume i sp = 0 := by
  have hle : ((remoteSpecies others i).map fun r => r.2.getNbrOfParticles).sum
      ≤ ((remoteSpecies others i).map fun r => r.2.particles.length).sum :=
    sum_le_of_pointwise _ _ _ (fun r => Nat.mod_le _ _)
  have hself : sp.getNbrOfParticles = sp.particles.length := by
    unfold Species.getNbrOfParticles
    exact Nat.mod_eq_of_lt (by omega)
  have hzero : sp.getNbrOfParticles
      + ((remoteSpecies others i).map fun r => r.2.getNbrOfParticles).sum = 0 := by
    unfold globalCount at hcount
    rw [Nat.mod_eq_of_lt (by omega)] at hcount
    exact hcount
  have hsp : sp.particles = [] := List.eq_nil_of_length_eq_zero (by omega)
  have hrem : ∀ r ∈ remoteSpecies others i, r.2.getNbrOfParticles = 0 :=
    sum_eq_zero_of_nat _ _ (by omega)
  unfold globalCharge
  rw [localSums_nil _ _ hsp]
  have : ((remoteSpecies others i).map fun r => (r.2.localSums r.1).1)
      = (remoteSpecies others i).map fun _ => (0 : ℚ) := by
    apply List.map_congr_left
    intro r hr
    have h0 := hrem r hr
    simp [Species.localSums, h0]
  rw [this]
  simp

theorem foldl_pair_sum (l : List Particle) (cv a b : ℚ) :
    l.foldl (fun (acc : ℚ × ℚ) (p : Particle) =>
        (acc.1 + (p.charge : ℚ), acc.2 + cv * p.weight * (p.lor_fac - 1))) (a, b)
      = (a + (l.map fun p => (p.charge : ℚ)).sum,
         b + (l.map fun p => cv * p.weight * (p.lor_fac - 1)).sum) := by
  induction l generalizing a b with
  | nil => simp
  | cons p ps ih =>
    rw [List.foldl_cons, ih]
    simp [add_assoc]

theorem localSums_eq (cell_volume : ℚ) (sp : Species) (h : sp.particles.length < 2 ^ 32) :
    sp.localSums cell_volume = (sp.chargeSum, sp.kineticSum cell_volume) := by
  have hn : sp.getNbrOfParticles = sp.particles.length := Nat.mod_eq_of_lt h
  unfold Species.localSums Species.chargeSum Species.kineticSum
  rw [hn]
  by_cases h0 : sp.particles.length > 0
  · rw [if_pos h0, List.take_length, foldl_pair_sum]
    simp
  · rw [if_neg h0]
    have hnil : sp.particles = [] := List.eq_nil_of_length_eq_zero (by omega)
    rw [hnil]
    simp

theorem length_le_sum {α : Type} (l : List α) (f : α → Nat) (x : α) (hx : x ∈ l) :
    f x ≤ (l.map f).sum := by
  induction l with
  | nil => cases hx
  | cons a as ih =>
    simp only [List.map_cons, List.sum_cons]
    rcases List.mem_cons.1 hx with rfl | h
    · omega
    · have := ih h
      omega

theorem global_eq_total (others : List Rank) (cell_volume : ℚ) (i : Nat) (sp : Species)
    (hfit : totalCount others i sp < 2 ^ 32) :
    globalCount others i sp = totalCount others i sp
    ∧ globalCharge others cell_volume i sp = totalCharge others i sp
    ∧ globalEnergy others cell_volume i sp = totalKinetic others cell_volume i sp := by
  unfold totalCount at hfit
  have hrem : ∀ r ∈ remoteSpecies others i, r.2.particles.length < 2 ^ 32 := by
    intro r hr
    have := length_le_sum (remoteSpecies others i) (fun r => r.2.particles.length) r hr
    simp only at this
    omega
  have hself : sp.particles.length < 2 ^ 32 := by omega
  have hcount : ((remoteSpecies others i).map fun r => r.2.getNbrOfParticles)
      = (remoteSpecies others i).map fun r => r.2.particles.length := by
    apply List.map_congr_left
    intro r hr
    exact Nat.mod_eq_of_lt (hrem r hr)
  refine ⟨?_, ?_, ?_⟩
  · unfold globalCount totalCount
    rw [hcount]
    have : sp.getNbrOfParticles = sp.particles.length := Nat.mod_eq_of_lt hself
    rw [this]
    exact Nat.mod_eq_of_lt hfit
  · unfold globalCharge totalCharge
    rw [localSums_eq cell_volume sp hself]
    congr 1
    congr 1
    apply List.map_congr_left
    intro r hr
    rw [localSums_eq r.1 r.2 (hrem r hr)]
  · unfold globalEnergy totalKinetic
    rw [localSums_eq cell_volume sp hself]
    congr 1
    congr 1
    apply List.map_congr_left
    intro r hr
    rw [localSums_eq r.1 r.2 (hrem r hr)]

theorem totalCharge_zero_of_count_zero (others : List Rank) (i : Nat) (sp : Species)
    (hcount : totalCount others i sp = 0) : totalCharge others i sp = 0 := by
  unfold totalCount at hcount
  have hsp : sp.particles = [] := List.eq_nil_of_length_eq_zero (by omega)
  have hrem : ∀ r ∈ remoteSpecies others i, r.2.particles.length = 0 :=
    sum_eq_zero_of_nat _ _ (by omega)
  unfold totalCharge Species.chargeSum
  rw [hsp]
  have : ((remoteSpecies others i).map fun r => (r.2.particles.map fun p => (p.charge : ℚ)).sum)
      = (remoteSpecies others i).map fun _ => (0 : ℚ) := by
    apply List.map_congr_left
    intro r hr
    rw [List.eq_nil_of_length_eq_zero (hrem r hr)]
    simp
  rw [this]
  simp

theorem crowd_remote (n : Nat) :
    remoteSpecies (crowdOthers n) 0 = [((1 : ℚ), crowdSpecies n)] := by
  simp [remoteSpecies, crowdOthers]

theorem crowd_chargeSum (n : Nat) : (crowdSpecies n).chargeSum = (n : ℚ) := by
  simp [Species.chargeSum, crowdSpecies, List.map_replicate, List.sum_replicate]

theorem crowd_length (n : Nat) : (crowdSpecies n).particles.length = n := by
  simp [crowdSpecies]

theorem crowd_localSums (n : Nat) (cv : ℚ) (hn : n < 2 ^ 32) :
    (crowdSpecies n).localSums cv = ((n : ℚ), 0) := by
  rw [localSums_eq cv _ (by rw [crowd_length]; exact hn), crowd_chargeSum]
  simp [Species.kineticSum, crowdSpecies, List.map_replicate, List.sum_replicate]

theorem crowd_totals (n : Nat) :
    totalCount (crowdOthers n) 0 (crowdSpecies n) = n + n
    ∧ totalCharge (crowdOthers n) 0 (crowdSpecies n) = 2 * (n : ℚ) := by
  constructor
  · simp [totalCount, crowd_remote, crowd_length]
  · simp [totalCharge, crowd_remote, crowd_chargeSum]
    ring

theorem crowd_triple (n : Nat) (cv z : ℚ) (hn : n < 2 ^ 32) (hwrap : (n + n) % 2 ^ 32 = 0)
    (hz : z = 2 * (n : ℚ)) :
    speciesTriple (crowdOthers n) cv (0, crowdSpecies n)
      = [("Ntot_ion", 0), ("Zavg_ion", z), ("Ukin_ion", 0)] := by
  have hc : globalCount (crowdOthers n) 0 (crowdSpecies n) = 0 := by
    unfold globalCount Species.getNbrOfParticles
    rw [crowd_remote]
    simp only [List.map_cons, List.map_nil, List.sum_cons, List.sum_nil, crowd_length,
      Nat.add_zero, Nat.mod_eq_of_lt hn]
    exact hwrap
  have hq : globalCharge (crowdOthers n) cv 0 (crowdSpecies n) = z := by
    unfold globalCharge
    rw [crowd_remote, hz]
    simp only [List.map_cons, List.map_nil, List.sum_cons, List.sum_nil,
      crowd_localSums n _ hn]
    ring
  have he : globalEnergy (crowdOthers n) cv 0 (crowdSpecies n) = 0 := by
    unfold globalEnergy
    rw [crowd_remote]
    simp only [List.map_cons, List.map_nil, List.sum_cons, List.sum_nil,
      crowd_localSums n _ hn]
    ring
  have hname : (crowdSpecies n).species_type = "ion" := rfl
  have n1 : "Ntot_" ++ "ion" = "Ntot_ion" := by decide
  have n2 : "Zavg_" ++ "ion" = "Zavg_ion" := by decide
  have n3 : "Ukin_" ++ "ion" = "Ukin_ion" := by decide
  simp only [speciesTriple, hc, hq, he, hname, n1, n2, n3, ne_eq, not_true_eq_false,
    if_false, Nat.cast_zero]

theorem crowd_computeSpecies (n : Nat) (z : ℚ) (d : DiagnosticScalar) (t : SpeciesTotals)
    (hn : n < 2 ^ 32) (hwrap : (n + n) % 2 ^ 32 = 0) (hz : z = 2 * (n : ℚ)) :
    (computeSpecies { isMaster := true, others := crowdOthers n } 0 (crowdSpecies n)
        (d, t)).1.out_list
      = d.out_list ++ [("Ntot_ion", 0), ("Zavg_ion", z), ("Ukin_ion", 0)] := by
  rw [computeSpecies_master]
  have hf : (crowdSpecies n).isTestParticles = false := rfl
  simp only [hf, Bool.false_eq_true, if_false, crowd_triple n d.cell_volume z hn hwrap hz]

theorem crowd_compute (n : Nat) (z : ℚ) (d : DiagnosticScalar) (EMfields : ElectroMagn)
    (hn : n < 2 ^ 32) (hwrap : (n + n) % 2 ^ 32 = 0) (hz : z = 2 * (n : ℚ)) :
    ("Zavg_ion", z)
      ∈ (compute d EMfields [crowdSpecies n]
          { isMaster := true, others := crowdOthers n }).out_list := by
  apply (appendedColumns_sublist d EMfields [crowdSpecies n] (crowdOthers n)).subset
  have hs : scalarSpecies 0 [crowdSpecies n] = [(0, crowdSpecies n)] := by
    rw [scalarSpecies_cons]
    simp [scalarSpecies, List.enumFrom, crowdSpecies]
  unfold appendedColumns speciesColumns
  rw [hs]
  simp only [List.flatMap_cons, List.flatMap_nil, List.append_nil,
    crowd_triple n d.cell_volume z hn hwrap hz]
  simp

/-- C19 (amended): the body of the species loop does nothing for a species flagged
`isTestParticles` (no `Ntot_`, `Zavg_` or `Ukin_` entry, no change of the totals); when
every process holds the same pattern of test species, `compute` on the master returns
the very same diagnostic, totals included, as with the test species removed from the
list of every process. For any other species whose number of particles over all
processes is below `2 ^ 32`, the loop appends `Ntot_`, the particle count, `Zavg_`, the
charge sum divided by the particle count, or the undivided sum when the count is 0,
and `Ukin_`, the kinetic energy; and when the count is 0 that charge sum is 0. -/
theorem test_species_contribute_nothing (d : DiagnosticScalar) (EMfields : ElectroMagn)
    (vecSpecies : List Species) (others : List Rank)
    (hflags : ∀ r ∈ others, r.vecSpecies.map (fun s => s.isTestParticles)
        = vecSpecies.map (fun s => s.isTestParticles)) :
    (∀ (smpi : SmileiMPI) (i : Nat) (sp : Species) (st : DiagnosticScalar × SpeciesTotals),
        sp.isTestParticles = true → computeSpecies smpi i sp st = st)
    ∧ compute d EMfields vecSpecies { isMaster := true, others := others }
        = compute d EMfields (withoutTestParticles vecSpecies)
            { isMaster := true, others := others.map Rank.withoutTestParticles }
    ∧ (∀ (i : Nat) (sp : Species) (d0 : DiagnosticScalar) (t : SpeciesTotals),
        sp.isTestParticles = false → totalCount others i sp < 2 ^ 32 →
        (computeSpecies { isMaster := true, others := others } i sp (d0, t)).1.out_list
            = d0.out_list ++
              [("Ntot_" ++ sp.species_type, (totalCount others i sp : ℚ)),
               ("Zavg_" ++ sp.species_type,
                  if totalCount others i sp ≠ 0
                  then totalCharge others i sp / (totalCount others i sp : ℚ)
                  else totalCharge others i sp),
               ("Ukin_" ++ sp.species_type, totalKinetic others d0.cell_volume i sp)]
          ∧ (totalCount others i sp = 0 → totalCharge others i sp = 0)) := by
  refine ⟨?_, compute_without_test d EMfields vecSpecies others hflags, ?_⟩
  · intro smpi i sp st h
    simp [computeSpecies, h]
  · intro i sp d0 t h hfit
    obtain ⟨e1, e2, e3⟩ := global_eq_total others d0.cell_volume i sp hfit
    refine ⟨?_, totalCharge_zero_of_count_zero others i sp⟩
    rw [computeSpecies_master]
    simp [h, speciesTriple, e1, e2, e3]

/-- Witness of C19 (amended). Three processes that each hold a test species followed
by electrons: the master reports what it reports when the test species is removed
everywhere. Three processes that each hold one electron of charge -1, with the kinetic
energies 2, 3.5 and 0.5: the particle loop of the master gives the local sums -1 and
2, and with the two other processes the loop appends the count 3, the average charge
-1 and the energy 6. For two ions of charge 1 at rest on the master alone the loop,
evaluated, appends the count 2, the average charge 1 and the energy 0. -/
theorem test_species_contribute_nothing_witness :
    (∀ r ∈ sampleOthersWithTest, r.vecSpecies.map (fun s => s.isTestParticles)
        = [sampleTestSpecies, sampleSpecies 3].map (fun s => s.isTestParticles))
    ∧ compute sampleDiag sampleFields [sampleTestSpecies, sampleSpecies 3]
          { isMaster := true, others := sampleOthersWithTest }
        = compute sampleDiag sampleFields
            (withoutTestParticles [sampleTestSpecies, sampleSpecies 3])
            { isMaster := true, others := sampleOthersWithTest.map Rank.withoutTestParticles }
    ∧ (sampleSpecies 3).localSums 1 = (-1, 2)
    ∧ (computeSpecies { isMaster := true, others := [] } 0 (crowdSpecies 2)
          (sampleDiag, zeroTotals)).1.out_list
        = [("Ntot_ion", 2), ("Zavg_ion", 1), ("Ukin_ion", 0)]
    ∧ totalCount sampleOthers 0 (sampleSpecies 3) < 2 ^ 32
    ∧ (computeSpecies { isMaster := true, others := sampleOthers } 0 (sampleSpecies 3)
          (sampleDiag, zeroTotals)).1.out_list
        = [("Ntot_eon", 3), ("Zavg_eon", -1), ("Ukin_eon", 6)] :=
  have hcount : totalCount sampleOthers 0 (sampleSpecies 3) = 3 := by
    simp [totalCount, remoteSpecies, sampleOthers, sampleSpecies]
  have hfit : totalCount sampleOthers 0 (sampleSpecies 3) < 2 ^ 32 := by
    rw [hcount]
    norm_num
  have hcharge : totalCharge sampleOthers 0 (sampleSpecies 3) = -3 := by
    simp [totalCharge, remoteSpecies, sampleOthers, sampleSpecies, Species.chargeSum]
    norm_num
  have hkin : totalKinetic sampleOthers sampleDiag.cell_volume 0 (sampleSpecies 3) = 6 := by
    simp [totalKinetic, remoteSpecies, sampleOthers, sampleSpecies, Species.kineticSum,
      sampleDiag]
    norm_num
  have n1 : "Ntot_" ++ (sampleSpecies 3).species_type = "Ntot_eon" := by decide
  have n2 : "Zavg_" ++ (sampleSpecies 3).species_type = "Zavg_eon" := by decide
  have n3 : "Ukin_" ++ (sampleSpecies 3).species_type = "Ukin_eon" := by decide
  have hlocal : (sampleSpecies 3).localSums 1 = (-1, 2) := by
    simp [Species.localSums, Species.getNbrOfParticles, sampleSpecies]
    norm_num
  have hsingle : (computeSpecies { isMaster := true, others := [] } 0 (crowdSpecies 2)
        (sampleDiag, zeroTotals)).1.out_list
      = [("Ntot_ion", 2), ("Zavg_ion", 1), ("Ukin_ion", 0)] := by
    have m1 : "Ntot_" ++ "ion" = "Ntot_ion" := by decide
    have m2 : "Zavg_" ++ "ion" = "Zavg_ion" := by decide
    have m3 : "Ukin_" ++ "ion" = "Ukin_ion" := by decide
    simp [computeSpecies, crowdSpecies, sampleDiag, append, SmileiMPI.reduceSum,
      SmileiMPI.reduceSumUnsigned, Species.localSums, Species.getNbrOfParticles, m1, m2, m3,
      List.replicate]
  ⟨by simp [sampleOthersWithTest, sampleTestSpecies, sampleSpecies],
   (test_species_contribute_nothing sampleDiag sampleFields
      [sampleTestSpecies, sampleSpecies 3] sampleOthersWithTest
      (by simp [sampleOthersWithTest, sampleTestSpecies, sampleSpecies])).2.1,
   hlocal, hsingle, hfit,
   ((test_species_contribute_nothing sampleDiag sampleFields [sampleSpecies 3] sampleOthers
      (by simp [sampleOthers, sampleSpecies])).2.2 0 (sampleSpecies 3) sampleDiag zeroTotals rfl hfit).1.trans
      (by
        rw [hcount, hcharge, hkin, n1, n2, n3]
        simp [sampleDiag])⟩

/-- C19 (counterexample): two processes that each hold 2147483648 ions of charge 1. The
species is not a test species, its particle count over the two processes is
4294967296 and its charge sum is 4294967296, so that the charge sum divided by the
particle count is 1; the count reduced with `MPI_UNSIGNED` is 0, and the loop appends
`Ntot_ion = 0` and `Zavg_ion = 4294967296`, the undivided sum, which is not 0. -/
theorem zavg_undivided_when_count_wraps :
    (crowdSpecies 2147483648).isTestParticles = false
    ∧ totalCount (crowdOthers 2147483648) 0 (crowdSpecies 2147483648) = 4294967296
    ∧ totalCharge (crowdOthers 2147483648) 0 (crowdSpecies 2147483648) = 4294967296
    ∧ (computeSpecies { isMaster := true, others := crowdOthers 2147483648 } 0
          (crowdSpecies 2147483648) (sampleDiag, zeroTotals)).1.out_list
        = [("Ntot_ion", 0), ("Zavg_ion", 4294967296), ("Ukin_ion", 0)]
    ∧ ("Zavg_ion", (4294967296 : ℚ))
        ∈ (compute sampleDiag sampleFields [crowdSpecies 2147483648]
            { isMaster := true, others := crowdOthers 2147483648 }).out_list := by
  have hn : 2147483648 < 2 ^ 32 := by norm_num
  have hwrap : (2147483648 + 2147483648) % 2 ^ 32 = 0 := by norm_num
  have hz : (4294967296 : ℚ) = 2 * ((2147483648 : Nat) : ℚ) := by norm_num
  refine ⟨rfl, (crowd_totals 2147483648).1.trans (by norm_num),
    (crowd_totals 2147483648).2.trans (by norm_num), ?_,
    crowd_compute 2147483648 4294967296 sampleDiag sampleFields hn hwrap hz⟩
  exact crowd_computeSpecies 2147483648 4294967296 sampleDiag zeroTotals hn hwrap hz

/-! ## The field energies: theorems -/

theorem foldl_add_eq_sum {α : Type} (l : List α) (g : α → ℚ) (a : ℚ) :
    l.foldl (fun U x => U + g x) a = a + (l.map g).sum := by
  induction l generalizing a with
  | nil => simp
  | cons x xs ih => rw [List.foldl_cons, ih]; simp [add_assoc]

theorem sum_map_flatMap {α β : Type} (l : List α) (F : α → List β) (g : β → ℚ) :
    ((l.flatMap F).map g).sum = (l.map fun a => ((F a).map g).sum).sum := by
  induction l with
  | nil => simp
  | cons a as ih => simp [List.flatMap_cons, ih]

theorem mem_range'_sub (s e m : Nat) : m ∈ List.range' s (e - s) ↔ s ≤ m ∧ m < e := by
  rw [List.mem_range'_1]
  omega

theorem mem_cells (EM : ElectroMagn) (f : Field) (x : Nat) :
    x ∈ EM.cells f ↔ ∃ i j k, EM.inBox f i j k ∧ x = EM.linearIndex f i j k := by
  simp only [ElectroMagn.cells, List.mem_flatMap, List.mem_map, mem_range'_sub,
    ElectroMagn.inBox, ElectroMagn.linearIndex]
  constructor
  · rintro ⟨k, hk, j, hj, i, hi, rfl⟩
    exact ⟨i, j, k, ⟨hi, hj, hk⟩, rfl⟩
  · rintro ⟨i, j, k, ⟨hi, hj, hk⟩, rfl⟩
    exact ⟨k, hk, j, hj, i, hi, rfl⟩

theorem localFieldEnergy_eq_box (EM : ElectroMagn) (cell_volume : ℚ) (f : Field) :
    EM.localFieldEnergy cell_volume f = 1 / 2 * cell_volume * EM.boxSquareSum f := by
  unfold ElectroMagn.localFieldEnergy ElectroMagn.boxSquareSum ElectroMagn.cells
  rw [foldl_add_eq_sum, sum_map_flatMap]
  simp only [sum_map_flatMap, List.map_map, Function.comp_def, ElectroMagn.linearIndex]
  ring

theorem pair_inj (g a b a2 b2 : Nat) (ha : a < g) (ha2 : a2 < g)
    (h : a + g * b = a2 + g * b2) : a = a2 ∧ b = b2 := by
  have h1 : (a + g * b) % g = (a2 + g * b2) % g := by rw [h]
  rw [Nat.add_mul_mod_self_left, Nat.add_mul_mod_self_left, Nat.mod_eq_of_lt ha,
    Nat.mod_eq_of_lt ha2] at h1
  subst h1
  have h2 : g * b = g * b2 := by omega
  exact ⟨rfl, Nat.eq_of_mul_eq_mul_left (by omega) h2⟩

theorem linear_lt (g0 g1 g2 i j k : Nat) (hi : i < g0) (hj : j < g1) (hk : k < g2) :
    k + j * g2 + i * g1 * g2 < g0 * g1 * g2 := by
  have h1 : k + j * g2 < g1 * g2 := by
    calc k + j * g2 < g2 + j * g2 := by omega
      _ = (j + 1) * g2 := by ring
      _ ≤ g1 * g2 := Nat.mul_le_mul_right _ hj
  calc k + j * g2 + i * g1 * g2 < g1 * g2 + i * g1 * g2 := by omega
    _ = (i + 1) * (g1 * g2) := by ring
    _ ≤ g0 * (g1 * g2) := Nat.mul_le_mul_right _ hi
    _ = g0 * g1 * g2 := by ring

theorem linear_inj (g1 g2 i j k i2 j2 k2 : Nat)
    (hj : j < g1) (hk : k < g2) (hj2 : j2 < g1) (hk2 : k2 < g2)
    (h : k + j * g2 + i * g1 * g2 = k2 + j2 * g2 + i2 * g1 * g2) :
    i = i2 ∧ j = j2 ∧ k = k2 := by
  have h1 : k + g2 * (j + g1 * i) = k2 + g2 * (j2 + g1 * i2) := by
    have e1 : k + g2 * (j + g1 * i) = k + j * g2 + i * g1 * g2 := by ring
    have e2 : k2 + g2 * (j2 + g1 * i2) = k2 + j2 * g2 + i2 * g1 * g2 := by ring
    rw [e1, e2, h]
  obtain ⟨hk3, h2⟩ := pair_inj g2 k _ k2 _ hk hk2 h1
  obtain ⟨hj3, hi3⟩ := pair_inj g1 j i j2 i2 hj hj2 h2
  exact ⟨hi3, hj3, hk3⟩

theorem localFieldEnergy_setData (EM : ElectroMagn) (cell_volume : ℚ) (f : Field)
    (g : Nat) (v : ℚ) (hg : g ∉ EM.cells f) :
    EM.localFieldEnergy cell_volume (f.setData g v) = EM.localFieldEnergy cell_volume f := by
  have hc : EM.cells (f.setData g v) = EM.cells f := rfl
  unfold ElectroMagn.localFieldEnergy
  rw [hc, foldl_add_eq_sum, foldl_add_eq_sum]
  have : (EM.cells f).map (fun ii => ((f.setData g v).data ii) ^ 2)
      = (EM.cells f).map (fun ii => (f.data ii) ^ 2) := by
    apply List.map_congr_left
    intro ii hii
    have hne : ii ≠ g := fun e => hg (e ▸ hii)
    simp [Field.setData, hne]
  rw [this]

theorem linearIndex_of_lt (EM : ElectroMagn) (f : Field) (i j k : Nat)
    (hfit : EM.iFieldGlobalSize f 0 * EM.iFieldGlobalSize f 1 * EM.iFieldGlobalSize f 2
      ≤ 2 ^ 32)
    (hi : i < EM.iFieldGlobalSize f 0) (hj : j < EM.iFieldGlobalSize f 1)
    (hk : k < EM.iFieldGlobalSize f 2) :
    EM.linearIndex f i j k
      = k + j * EM.iFieldGlobalSize f 2
        + i * EM.iFieldGlobalSize f 1 * EM.iFieldGlobalSize f 2 := by
  unfold ElectroMagn.linearIndex
  exact Nat.mod_eq_of_lt (lt_of_lt_of_le (linear_lt _ _ _ i j k hi hj hk) hfit)

theorem linearIndex_inj (EM : ElectroMagn) (f : Field) (i j k i2 j2 k2 : Nat)
    (hfit : EM.iFieldGlobalSize f 0 * EM.iFieldGlobalSize f 1 * EM.iFieldGlobalSize f 2
      ≤ 2 ^ 32)
    (hi : i < EM.iFieldGlobalSize f 0) (hj : j < EM.iFieldGlobalSize f 1)
    (hk : k < EM.iFieldGlobalSize f 2)
    (hi2 : i2 < EM.iFieldGlobalSize f 0) (hj2 : j2 < EM.iFieldGlobalSize f 1)
    (hk2 : k2 < EM.iFieldGlobalSize f 2)
    (h : EM.linearIndex f i j k = EM.linearIndex f i2 j2 k2) :
    i = i2 ∧ j = j2 ∧ k = k2 := by
  rw [linearIndex_of_lt EM f i j k hfit hi hj hk,
    linearIndex_of_lt EM f i2 j2 k2 hfit hi2 hj2 hk2] at h
  exact linear_inj _ _ i j k i2 j2 k2 hj hk hj2 hk2 h

theorem mem_energyColumns (d : DiagnosticScalar) (EMfields : ElectroMagn)
    (vecSpecies : List Species) (others : List Rank) (sel : ElectroMagn → Field)
    (hsel : sel ∈ energyFields) :
    ("Uelm_" ++ (sel EMfields).name,
        EMfields.localFieldEnergy d.cell_volume (sel EMfields)
          + (others.map fun r =>
              r.EMfields.localFieldEnergy r.cell_volume (sel r.EMfields)).sum)
      ∈ (compute d EMfields vecSpecies { isMaster := true, others := others }).out_list := by
  apply (appendedColumns_sublist d EMfields vecSpecies others).subset
  unfold appendedColumns energyColumns
  simp only [List.mem_append, List.mem_map]
  exact Or.inl (Or.inl (Or.inr ⟨sel, hsel, rfl⟩))

theorem box_range_eq (EM : ElectroMagn) (f : Field) (a : Nat)
    (hbox : a < f.isDual_.length →
      EM.istart a (f.isDual_.getD a 0) + EM.bufsize a (f.isDual_.getD a 0)
        ≤ f.dims_.getD a 0)
    (hdim : f.dims_.getD a 0 < 2 ^ 32) :
    List.range' (EM.iFieldStart f a) (EM.iFieldEnd f a - EM.iFieldStart f a)
      = nonGhostIndices EM f a := by
  unfold ElectroMagn.iFieldStart ElectroMagn.iFieldEnd nonGhostIndices Field.isDual
  by_cases h : a < f.isDual_.length
  · have hb := hbox h
    rw [if_pos h, if_pos h, if_pos h, Nat.mod_eq_of_lt (by omega)]
    congr 1
    omega
  · rw [if_neg h, if_neg h, if_neg h]
    rfl

theorem mem_nonGhostIndices_lt (EM : ElectroMagn) (f : Field) (a x : Nat)
    (hbox : a < f.isDual_.length →
      EM.istart a (f.isDual_.getD a 0) + EM.bufsize a (f.isDual_.getD a 0)
        ≤ f.dims_.getD a 0)
    (hx : x ∈ nonGhostIndices EM f a) : x < f.extent a := by
  unfold nonGhostIndices at hx
  unfold Field.extent
  by_cases h : a < f.isDual_.length
  · have hb := hbox h
    rw [if_pos h, List.mem_range'_1] at hx
    rw [if_pos h]
    omega
  · rw [if_neg h, List.mem_singleton] at hx
    rw [if_neg h]
    omega

theorem inBox_iff_nonGhost (EM : ElectroMagn) (f : Field) (i j k : Nat)
    (hdims : ∀ a, a < 3 → f.dims_.getD a 0 < 2 ^ 32)
    (hbox : ∀ a, a < 3 → a < f.isDual_.length →
      EM.istart a (f.isDual_.getD a 0) + EM.bufsize a (f.isDual_.getD a 0)
        ≤ f.dims_.getD a 0) :
    EM.inBox f i j k
      ↔ i ∈ nonGhostIndices EM f 0 ∧ j ∈ nonGhostIndices EM f 1
        ∧ k ∈ nonGhostIndices EM f 2 := by
  rw [← box_range_eq EM f 0 (hbox 0 (by norm_num)) (hdims 0 (by norm_num)),
    ← box_range_eq EM f 1 (hbox 1 (by norm_num)) (hdims 1 (by norm_num)),
    ← box_range_eq EM f 2 (hbox 2 (by norm_num)) (hdims 2 (by norm_num))]
  simp only [ElectroMagn.inBox, mem_range'_sub]

theorem linearIndex_eq_cellIndex (EM : ElectroMagn) (f : Field) (i j k : Nat)
    (hfit : f.extent 0 * f.extent 1 * f.extent 2 ≤ 2 ^ 32)
    (hi : i < f.extent 0) (hj : j < f.extent 1) (hk : k < f.extent 2) :
    EM.linearIndex f i j k = f.cellIndex i j k :=
  linearIndex_of_lt EM f i j k hfit hi hj hk

theorem boxSquareSum_eq_nonGhost (EM : ElectroMagn) (f : Field)
    (hdims : ∀ a, a < 3 → f.dims_.getD a 0 < 2 ^ 32)
    (hfit : f.extent 0 * f.extent 1 * f.extent 2 ≤ 2 ^ 32)
    (hbox : ∀ a, a < 3 → a < f.isDual_.length →
      EM.istart a (f.isDual_.getD a 0) + EM.bufsize a (f.isDual_.getD a 0)
        ≤ f.dims_.getD a 0) :
    EM.boxSquareSum f = nonGhostSquareSum EM f := by
  unfold ElectroMagn.boxSquareSum nonGhostSquareSum
  rw [box_range_eq EM f 0 (hbox 0 (by norm_num)) (hdims 0 (by norm_num)),
    box_range_eq EM f 1 (hbox 1 (by norm_num)) (hdims 1 (by norm_num)),
    box_range_eq EM f 2 (hbox 2 (by norm_num)) (hdims 2 (by norm_num))]
  congr 1
  apply List.map_congr_left
  intro k hk
  congr 1
  apply List.map_congr_left
  intro j hj
  congr 1
  apply List.map_congr_left
  intro i hi
  rw [linearIndex_eq_cellIndex EM f i j k hfit
    (mem_nonGhostIndices_lt EM f 0 i (hbox 0 (by norm_num)) hi)
    (mem_nonGhostIndices_lt EM f 1 j (hbox 1 (by norm_num)) hj)
    (mem_nonGhostIndices_lt EM f 2 k (hbox 2 (by norm_num)) hk)]

theorem nodup_nonGhostIndices (EM : ElectroMagn) (f : Field) (a : Nat) :
    (nonGhostIndices EM f a).Nodup := by
  unfold nonGhostIndices
  by_cases h : a < f.isDual_.length
  · rw [if_pos h]
    exact List.nodup_range' _ _
  · rw [if_neg h]
    exact List.nodup_singleton 0

/-- C16: on a grid whose sizes are `unsigned int` values, whose cells all have a place
that fits an `unsigned int` and which contains the box, the local energy of a field
is `0.5 * cell_volume` times the sum of the squared values over the box
`istart[a][isDual_[a]] <= index < istart[a][isDual_[a]] + bufsize[a][isDual_[a]]` on
each axis `a`, one term for each cell of the box: the indices of the box along an axis
are all different and different cells of the box have different places in the field.
Writing any value `v` into a cell `(i, j, k)` of the grid outside the box, a ghost
cell, leaves the energy unchanged. The master reports, as `Uelm_<field>`, this local
energy plus the local energies of the other processes. -/
theorem field_energy_over_box (EM : ElectroMagn) (cell_volume : ℚ) (f : Field)
    (i j k : Nat) (v : ℚ)
    (hdims : ∀ a, a < 3 → f.dims_.getD a 0 < 2 ^ 32)
    (hfit : f.extent 0 * f.extent 1 * f.extent 2 ≤ 2 ^ 32)
    (hbox : ∀ a, a < 3 → a < f.isDual_.length →
      EM.istart a (f.isDual_.getD a 0) + EM.bufsize a (f.isDual_.getD a 0)
        ≤ f.dims_.getD a 0)
    (hcell : i < f.extent 0 ∧ j < f.extent 1 ∧ k < f.extent 2)
    (hghost : ¬ (i ∈ nonGhostIndices EM f 0 ∧ j ∈ nonGhostIndices EM f 1
      ∧ k ∈ nonGhostIndices EM f 2)) :
    EM.localFieldEnergy cell_volume f = 1 / 2 * cell_volume * nonGhostSquareSum EM f
    ∧ ((nonGhostIndices EM f 0).Nodup ∧ (nonGhostIndices EM f 1).Nodup
        ∧ (nonGhostIndices EM f 2).Nodup)
    ∧ (∀ a b c a2 b2 c2,
        a ∈ nonGhostIndices EM f 0 → b ∈ nonGhostIndices EM f 1 →
        c ∈ nonGhostIndices EM f 2 → a2 ∈ nonGhostIndices EM f 0 →
        b2 ∈ nonGhostIndices EM f 1 → c2 ∈ nonGhostIndices EM f 2 →
        f.cellIndex a b c = f.cellIndex a2 b2 c2 → a = a2 ∧ b = b2 ∧ c = c2)
    ∧ EM.localFieldEnergy cell_volume (f.setData (f.cellIndex i j k) v)
        = EM.localFieldEnergy cell_volume f
    ∧ (∀ (d : DiagnosticScalar) (vecSpecies : List Species) (others : List Rank)
        (sel : ElectroMagn → Field), sel ∈ energyFields →
        ("Uelm_" ++ (sel EM).name,
            EM.localFieldEnergy d.cell_volume (sel EM)
              + (others.map fun r =>
                  r.EMfields.localFieldEnergy r.cell_volume (sel r.EMfields)).sum)
          ∈ (DiagnosticScalar.compute d EM vecSpecies
              { isMaster := true, others := others }).out_list) := by
  have hlt : ∀ a x, a < 3 → x ∈ nonGhostIndices EM f a → x < f.extent a :=
    fun a x ha hx => mem_nonGhostIndices_lt EM f a x (hbox a ha) hx
  have hnot : f.cellIndex i j k ∉ EM.cells f := by
    intro hmem
    obtain ⟨a, b, c, hb, heq⟩ := (mem_cells EM f _).1 hmem
    obtain ⟨ma, mb, mc⟩ := (inBox_iff_nonGhost EM f a b c hdims hbox).1 hb
    rw [linearIndex_eq_cellIndex EM f a b c hfit (hlt 0 a (by norm_num) ma)
      (hlt 1 b (by norm_num) mb) (hlt 2 c (by norm_num) mc)] at heq
    obtain ⟨e1, e2, e3⟩ := linear_inj (f.extent 1) (f.extent 2) i j k a b c hcell.2.1
      hcell.2.2 (hlt 1 b (by norm_num) mb) (hlt 2 c (by norm_num) mc) heq
    subst e1 e2 e3
    exact hghost ⟨ma, mb, mc⟩
  refine ⟨?_, ⟨nodup_nonGhostIndices EM f 0, nodup_nonGhostIndices EM f 1,
    nodup_nonGhostIndices EM f 2⟩, ?_, localFieldEnergy_setData EM cell_volume f _ v hnot, ?_⟩
  · rw [localFieldEnergy_eq_box, boxSquareSum_eq_nonGhost EM f hdims hfit hbox]
  · intro a b c a2 b2 c2 ma mb mc ma2 mb2 mc2 heq
    exact linear_inj (f.extent 1) (f.extent 2) a b c a2 b2 c2 (hlt 1 b (by norm_num) mb)
      (hlt 2 c (by norm_num) mc) (hlt 1 b2 (by norm_num) mb2) (hlt 2 c2 (by norm_num) mc2) heq
  · intro d vecSpecies others sel hsel
    exact DiagnosticScalar.mem_energyColumns d EM vecSpecies others sel hsel

/-- Witness of C16 on the field `Ex` of `boxFields`, a grid of 2 x 3 x 4 cells whose
value at each cell is the place of the cell and whose box is `i = 0`, `1 <= j < 3`,
`0 <= k < 3`: the loops, evaluated, read the places 4, 8, 5, 9, 6 and 10 and give the
energy 161; the sum of the squares over the box is
`4^2 + 5^2 + 6^2 + 8^2 + 9^2 + 10^2 = 322`, the energy is half of it, and writing 7
into the ghost cell `(1, 0, 3)` leaves the energy at 161. -/
theorem field_energy_over_box_witness :
    (boxField "Ex").extent 0 * (boxField "Ex").extent 1 * (boxField "Ex").extent 2 ≤ 2 ^ 32
    ∧ ¬ (1 ∈ nonGhostIndices boxFields (boxField "Ex") 0
      ∧ 0 ∈ nonGhostIndices boxFields (boxField "Ex") 1
      ∧ 3 ∈ nonGhostIndices boxFields (boxField "Ex") 2)
    ∧ boxFields.cells (boxField "Ex") = [4, 8, 5, 9, 6, 10]
    ∧ boxFields.localFieldEnergy 1 (boxField "Ex") = 161
    ∧ nonGhostSquareSum boxFields (boxField "Ex") = 322
    ∧ boxFields.localFieldEnergy 1 (boxField "Ex")
        = 1 / 2 * 1 * nonGhostSquareSum boxFields (boxField "Ex")
    ∧ boxFields.localFieldEnergy 1
          ((boxField "Ex").setData ((boxField "Ex").cellIndex 1 0 3) 7) = 161 :=
  have hfit : (boxField "Ex").extent 0 * (boxField "Ex").extent 1
      * (boxField "Ex").extent 2 ≤ 2 ^ 32 := by decide
  have hghost : ¬ (1 ∈ nonGhostIndices boxFields (boxField "Ex") 0
      ∧ 0 ∈ nonGhostIndices boxFields (boxField "Ex") 1
      ∧ 3 ∈ nonGhostIndices boxFields (boxField "Ex") 2) := by decide
  have h := field_energy_over_box boxFields 1 (boxField "Ex") 1 0 3 7
    (by decide) hfit (by decide) (by decide) hghost
  have hcells : boxFields.cells (boxField "Ex") = [4, 8, 5, 9, 6, 10] := by decide
  have hval : boxFields.localFieldEnergy 1 (boxField "Ex") = 161 := by
    unfold ElectroMagn.localFieldEnergy
    rw [hcells]
    norm_num [boxField]
  have hsum : nonGhostSquareSum boxFields (boxField "Ex") = 322 := by
    norm_num [nonGhostSquareSum, nonGhostIndices, boxFields, boxField, Field.cellIndex,
      Field.extent, List.range']
  ⟨hfit, hghost, hcells, hval, hsum, h.1, h.2.2.2.1.trans hval⟩


/-! ## The min/max scan: theorems -/

theorem foldl_scanStep (f : Field) (l : List Nat) (st : val_index × val_index) :
    l.foldl (scanStep f) st = (l.foldl (minStep f) st.1, l.foldl (maxStep f) st.2) := by
  induction l generalizing st with
  | nil => rfl
  | cons a as ih =>
    rw [List.foldl_cons, List.foldl_cons, List.foldl_cons, ih]
    rfl

theorem maxStep_first (f : Field) (l : List Nat) (c : Nat) :
    ∃ pre m post, c :: l = pre ++ m :: post
      ∧ (∀ x ∈ pre, f.data x < f.data m) ∧ (∀ x ∈ post, f.data x ≤ f.data m)
      ∧ l.foldl (maxStep f) { val := f.data c, index := toInt32 c }
          = { val := f.data m, index := toInt32 m } := by
  induction l generalizing c with
  | nil => exact ⟨[], c, [], rfl, by simp, by simp, rfl⟩
  | cons a as ih =>
    rw [List.foldl_cons]
    by_cases h : f.data c < f.data a
    · have hs : maxStep f { val := f.data c, index := toInt32 c } a
          = { val := f.data a, index := toInt32 a } := by simp [maxStep, h]
      rw [hs]
      obtain ⟨pre, m, post, hl, hpre, hpost, hres⟩ := ih a
      have ham : f.data a ≤ f.data m := by
        cases pre with
        | nil =>
          simp only [List.nil_append, List.cons.injEq] at hl
          rw [hl.1]
        | cons p ps =>
          simp only [List.cons_append, List.cons.injEq] at hl
          exact le_of_lt (hpre a (by rw [hl.1]; exact List.mem_cons_self _ _))
      refine ⟨c :: pre, m, post, by rw [hl]; rfl, ?_, hpost, hres⟩
      intro x hx
      rcases List.mem_cons.1 hx with rfl | hx
      · exact lt_of_lt_of_le h ham
      · exact hpre x hx
    · have hs : maxStep f { val := f.data c, index := toInt32 c } a
          = { val := f.data c, index := toInt32 c } := by simp [maxStep, h]
      rw [hs]
      obtain ⟨pre, m, post, hl, hpre, hpost, hres⟩ := ih c
      have hac : f.data a ≤ f.data c := le_of_not_lt h
      cases pre with
      | nil =>
        simp only [List.nil_append, List.cons.injEq] at hl
        obtain ⟨hcm, hlp⟩ := hl
        subst hcm
        refine ⟨[], c, a :: post, by rw [hlp]; rfl, by simp, ?_, hres⟩
        intro x hx
        rcases List.mem_cons.1 hx with rfl | hx
        · exact hac
        · exact hpost x hx
      | cons p ps =>
        simp only [List.cons_append, List.cons.injEq] at hl
        obtain ⟨hcp, hlp⟩ := hl
        subst hcp
        refine ⟨c :: a :: ps, m, post, by rw [hlp]; rfl, ?_, hpost, hres⟩
        intro x hx
        rcases List.mem_cons.1 hx with rfl | hx
        · exact hpre x (List.mem_cons_self _ _)
        · rcases List.mem_cons.1 hx with rfl | hx
          · exact lt_of_le_of_lt hac (hpre c (List.mem_cons_self _ _))
          · exact hpre x (List.mem_cons_of_mem _ hx)

theorem minStep_first (f : Field) (l : List Nat) (c : Nat) :
    ∃ pre m post, c :: l = pre ++ m :: post
      ∧ (∀ x ∈ pre, f.data m < f.data x) ∧ (∀ x ∈ post, f.data m ≤ f.data x)
      ∧ l.foldl (minStep f) { val := f.data c, index := toInt32 c }
          = { val := f.data m, index := toInt32 m } := by
  induction l generalizing c with
  | nil => exact ⟨[], c, [], rfl, by simp, by simp, rfl⟩
  | cons a as ih =>
    rw [List.foldl_cons]
    by_cases h : f.data c > f.data a
    · have hs : minStep f { val := f.data c, index := toInt32 c } a
          = { val := f.data a, index := toInt32 a } := by simp [minStep, h]
      rw [hs]
      obtain ⟨pre, m, post, hl, hpre, hpost, hres⟩ := ih a
      have ham : f.data m ≤ f.data a := by
        cases pre with
        | nil =>
          simp only [List.nil_append, List.cons.injEq] at hl
          rw [hl.1]
        | cons p ps =>
          simp only [List.cons_append, List.cons.injEq] at hl
          exact le_of_lt (hpre a (by rw [hl.1]; exact List.mem_cons_self _ _))
      refine ⟨c :: pre, m, post, by rw [hl]; rfl, ?_, hpost, hres⟩
      intro x hx
      rcases List.mem_cons.1 hx with rfl | hx
      · exact lt_of_le_of_lt ham h
      · exact hpre x hx
    · have hs : minStep f { val := f.data c, index := toInt32 c } a
          = { val := f.data c, index := toInt32 c } := by simp [minStep, h]
      rw [hs]
      obtain ⟨pre, m, post, hl, hpre, hpost, hres⟩ := ih c
      have hac : f.data c ≤ f.data a := le_of_not_lt h
      cases pre with
      | nil =>
        simp only [List.nil_append, List.cons.injEq] at hl
        obtain ⟨hcm, hlp⟩ := hl
        subst hcm
        refine ⟨[], c, a :: post, by rw [hlp]; rfl, by simp, ?_, hres⟩
        intro x hx
        rcases List.mem_cons.1 hx with rfl | hx
        · exact hac
        · exact hpost x hx
      | cons p ps =>
        simp only [List.cons_append, List.cons.injEq] at hl
        obtain ⟨hcp, hlp⟩ := hl
        subst hcp
        refine ⟨c :: a :: ps, m, post, by rw [hlp]; rfl, ?_, hpost, hres⟩
        intro x hx
        rcases List.mem_cons.1 hx with rfl | hx
        · exact hpre x (List.mem_cons_self _ _)
        · rcases List.mem_cons.1 hx with rfl | hx
          · exact lt_of_lt_of_le (hpre c (List.mem_cons_self _ _)) hac
          · exact hpre x (List.mem_cons_of_mem _ hx)

theorem toInt32_zero : toInt32 0 = 0 := by decide

theorem localMinMax_eq (EM : ElectroMagn) (f : Field) :
    EM.localMinMax f
      = ((EM.cells f).foldl (minStep f) { val := f.data 0, index := toInt32 0 },
         (EM.cells f).foldl (maxStep f) { val := f.data 0, index := toInt32 0 }) := by
  unfold ElectroMagn.localMinMax
  rw [foldl_scanStep, toInt32_zero]

theorem MPI_MAXLOC_spec (a b : val_index) :
    (a.val ≤ (MPI_MAXLOC a b).val ∧ b.val ≤ (MPI_MAXLOC a b).val)
    ∧ (MPI_MAXLOC a b = a ∨ MPI_MAXLOC a b = b)
    ∧ (a.val = (MPI_MAXLOC a b).val → (MPI_MAXLOC a b).index ≤ a.index)
    ∧ (b.val = (MPI_MAXLOC a b).val → (MPI_MAXLOC a b).index ≤ b.index) := by
  obtain ⟨av, ai⟩ := a
  obtain ⟨bv, bi⟩ := b
  unfold MPI_MAXLOC
  simp only
  by_cases h1 : bv < av
  · simp only [h1, if_true]
    exact ⟨⟨le_refl _, le_of_lt h1⟩, Or.inl trivial, fun _ => le_refl _,
      fun e => absurd e (ne_of_lt h1)⟩
  · by_cases h2 : av < bv
    · simp only [h1, h2, if_true, if_false]
      exact ⟨⟨le_of_lt h2, le_refl _⟩, Or.inr trivial, fun e => absurd e (ne_of_lt h2),
        fun _ => le_refl _⟩
    · have he : av = bv := le_antisymm (le_of_not_lt h1) (le_of_not_lt h2)
      subst he
      simp only [h1, if_false]
      refine ⟨⟨le_refl _, le_refl _⟩, ?_, fun _ => min_le_left _ _, fun _ => min_le_right _ _⟩
      rcases le_total ai bi with h | h
      · left; simp [min_eq_left h]
      · right; simp [min_eq_right h]

theorem MPI_MINLOC_spec (a b : val_index) :
    ((MPI_MINLOC a b).val ≤ a.val ∧ (MPI_MINLOC a b).val ≤ b.val)
    ∧ (MPI_MINLOC a b = a ∨ MPI_MINLOC a b = b)
    ∧ (a.val = (MPI_MINLOC a b).val → (MPI_MINLOC a b).index ≤ a.index)
    ∧ (b.val = (MPI_MINLOC a b).val → (MPI_MINLOC a b).index ≤ b.index) := by
  obtain ⟨av, ai⟩ := a
  obtain ⟨bv, bi⟩ := b
  unfold MPI_MINLOC
  simp only
  by_cases h1 : av < bv
  · simp only [h1, if_true]
    exact ⟨⟨le_refl _, le_of_lt h1⟩, Or.inl trivial, fun _ => le_refl _,
      fun e => absurd e.symm (ne_of_lt h1)⟩
  · by_cases h2 : bv < av
    · simp only [h1, h2, if_true, if_false]
      exact ⟨⟨le_of_lt h2, le_refl _⟩, Or.inr trivial, fun e => absurd e.symm (ne_of_lt h2),
        fun _ => le_refl _⟩
    · have he : av = bv := le_antisymm (le_of_not_lt h2) (le_of_not_lt h1)
      subst he
      simp only [h1, if_false]
      refine ⟨⟨le_refl _, le_refl _⟩, ?_, fun _ => min_le_left _ _, fun _ => min_le_right _ _⟩
      rcases le_total ai bi with h | h
      · left; simp [min_eq_left h]
      · right; simp [min_eq_right h]

theorem foldl_MAXLOC (l : List val_index) (x : val_index) :
    (∀ y ∈ x :: l, y.val ≤ (l.foldl MPI_MAXLOC x).val)
    ∧ l.foldl MPI_MAXLOC x ∈ x :: l
    ∧ (∀ y ∈ x :: l, y.val = (l.foldl MPI_MAXLOC x).val →
        (l.foldl MPI_MAXLOC x).index ≤ y.index) := by
  induction l generalizing x with
  | nil =>
    simp only [List.foldl_nil, List.mem_singleton]
    exact ⟨fun y hy => by rw [hy], trivial, fun y hy _ => by rw [hy]⟩
  | cons a as ih =>
    rw [List.foldl_cons]
    obtain ⟨i1, i2, i3⟩ := ih (MPI_MAXLOC x a)
    obtain ⟨⟨s1, s2⟩, s3, s4, s5⟩ := MPI_MAXLOC_spec x a
    have top := i1 _ (List.mem_cons_self _ _)
    refine ⟨?_, ?_, ?_⟩
    · intro y hy
      rcases List.mem_cons.1 hy with rfl | hy
      · exact le_trans s1 top
      · rcases List.mem_cons.1 hy with rfl | hy
        · exact le_trans s2 top
        · exact i1 y (List.mem_cons_of_mem _ hy)
    · rcases List.mem_cons.1 i2 with h | h
      · rw [h]
        rcases s3 with e | e
        · rw [e]; exact List.mem_cons_self _ _
        · rw [e]; exact List.mem_cons_of_mem _ (List.mem_cons_self _ _)
      · exact List.mem_cons_of_mem _ (List.mem_cons_of_mem _ h)
    · intro y hy hval
      rcases List.mem_cons.1 hy with rfl | hy
      · have e : (MPI_MAXLOC y a).val = (as.foldl MPI_MAXLOC (MPI_MAXLOC y a)).val :=
          le_antisymm top (hval ▸ s1)
        exact le_trans (i3 _ (List.mem_cons_self _ _) e) (s4 (by rw [e, hval]))
      · rcases List.mem_cons.1 hy with rfl | hy
        · have e : (MPI_MAXLOC x y).val = (as.foldl MPI_MAXLOC (MPI_MAXLOC x y)).val :=
            le_antisymm top (hval ▸ s2)
          exact le_trans (i3 _ (List.mem_cons_self _ _) e) (s5 (by rw [e, hval]))
        · exact i3 y (List.mem_cons_of_mem _ hy) hval

theorem foldl_MINLOC (l : List val_index) (x : val_index) :
    (∀ y ∈ x :: l, (l.foldl MPI_MINLOC x).val ≤ y.val)
    ∧ l.foldl MPI_MINLOC x ∈ x :: l
    ∧ (∀ y ∈ x :: l, y.val = (l.foldl MPI_MINLOC x).val →
        (l.foldl MPI_MINLOC x).index ≤ y.index) := by
  induction l generalizing x with
  | nil =>
    simp only [List.foldl_nil, List.mem_singleton]
    exact ⟨fun y hy => by rw [hy], trivial, fun y hy _ => by rw [hy]⟩
  | cons a as ih =>
    rw [List.foldl_cons]
    obtain ⟨i1, i2, i3⟩ := ih (MPI_MINLOC x a)
    obtain ⟨⟨s1, s2⟩, s3, s4, s5⟩ := MPI_MINLOC_spec x a
    have top := i1 _ (List.mem_cons_self _ _)
    refine ⟨?_, ?_, ?_⟩
    · intro y hy
      rcases List.mem_cons.1 hy with rfl | hy
      · exact le_trans top s1
      · rcases List.mem_cons.1 hy with rfl | hy
        · exact le_trans top s2
        · exact i1 y (List.mem_cons_of_mem _ hy)
    · rcases List.mem_cons.1 i2 with h | h
      · rw [h]
        rcases s3 with e | e
        · rw [e]; exact List.mem_cons_self _ _
        · rw [e]; exact List.mem_cons_of_mem _ (List.mem_cons_self _ _)
      · exact List.mem_cons_of_mem _ (List.mem_cons_of_mem _ h)
    · intro y hy hval
      rcases List.mem_cons.1 hy with rfl | hy
      · have e : (MPI_MINLOC y a).val = (as.foldl MPI_MINLOC (MPI_MINLOC y a)).val :=
          le_antisymm (hval ▸ s1) top
        exact le_trans (i3 _ (List.mem_cons_self _ _) e) (s4 (by rw [e, hval]))
      · rcases List.mem_cons.1 hy with rfl | hy
        · have e : (MPI_MINLOC x y).val = (as.foldl MPI_MINLOC (MPI_MINLOC x y)).val :=
            le_antisymm (hval ▸ s2) top
          exact le_trans (i3 _ (List.mem_cons_self _ _) e) (s5 (by rw [e, hval]))
        · exact i3 y (List.mem_cons_of_mem _ hy) hval

theorem cells_one_dim (EM : ElectroMagn) (f : Field) (h : f.isDual_.length = 1) :
    EM.cells f = List.range' (EM.iFieldStart f 0) (EM.iFieldEnd f 0 - EM.iFieldStart f 0) := by
  have e0 : EM.iFieldEnd f 0 < 2 ^ 32 := by
    simp only [ElectroMagn.iFieldEnd, h]
    simp only [Nat.lt_one_iff, if_true]
    exact Nat.mod_lt _ (by norm_num)
  have hm : (List.range' (EM.iFieldStart f 0) (EM.iFieldEnd f 0 - EM.iFieldStart f 0)).map
        (fun i => (0 + 0 * 1 + i * 1 * 1) % 2 ^ 32)
      = List.range' (EM.iFieldStart f 0) (EM.iFieldEnd f 0 - EM.iFieldStart f 0) := by
    conv_rhs => rw [← List.map_id (List.range' _ _)]
    apply List.map_congr_left
    intro i hi
    have := (mem_range'_sub _ _ _).1 hi
    simp only [zero_mul, add_zero, zero_add, mul_one, id]
    exact Nat.mod_eq_of_lt (by omega)
  have s1 : EM.iFieldStart f 1 = 0 := by simp [ElectroMagn.iFieldStart, h]
  have s2 : EM.iFieldStart f 2 = 0 := by simp [ElectroMagn.iFieldStart, h]
  have n1 : EM.iFieldEnd f 1 = 1 := by simp [ElectroMagn.iFieldEnd, h]
  have n2 : EM.iFieldEnd f 2 = 1 := by simp [ElectroMagn.iFieldEnd, h]
  have g1 : EM.iFieldGlobalSize f 1 = 1 := by simp [ElectroMagn.iFieldGlobalSize, h]
  have g2 : EM.iFieldGlobalSize f 2 = 1 := by simp [ElectroMagn.iFieldGlobalSize, h]
  unfold ElectroMagn.cells
  rw [s1, s2, n1, n2, g1, g2]
  simp only [Nat.sub_zero, show List.range' 0 1 = [0] from rfl, List.flatMap_cons,
    List.flatMap_nil, List.append_nil]
  exact hm

theorem first_is_lowest (l pre post : List Nat) (m : Nat)
    (hs : l.Pairwise (· ≤ ·)) (hl : l = pre ++ m :: post) :
    ∀ x ∈ post, m ≤ x := by
  subst hl
  intro x hx
  have h2 := (List.pairwise_append.1 hs).2.1
  exact (List.pairwise_cons.1 h2).1 x hx

theorem zero_cons_range'_sorted (s n : Nat) : (0 :: List.range' s n).Pairwise (· ≤ ·) := by
  rw [List.pairwise_cons]
  refine ⟨fun a _ => Nat.zero_le a, ?_⟩
  exact (List.pairwise_lt_range' s n).imp (fun h => le_of_lt h)

theorem mem_minMaxColumns (d : DiagnosticScalar) (EMfields : ElectroMagn)
    (vecSpecies : List Species) (others : List Rank) (sel : ElectroMagn → Field)
    (hsel : sel ∈ scannedFields) :
    ∀ e ∈ minMaxQuad EMfields { isMaster := true, others := others } sel,
      e ∈ (compute d EMfields vecSpecies { isMaster := true, others := others }).out_list := by
  intro e he
  apply (appendedColumns_sublist d EMfields vecSpecies others).subset
  unfold appendedColumns minMaxColumns
  simp only [List.mem_append, List.mem_flatMap]
  exact Or.inl (Or.inr ⟨sel, hsel, he⟩)

theorem tie_localMinMax : (tieFields.localMinMax (tieField "Ex")).2 = ⟨5, 2⟩ := by
  have hc : tieFields.cells (tieField "Ex") = [0, 2, 1, 3] := by decide
  rw [ElectroMagn.localMinMax, hc]
  simp [List.foldl, scanStep, tieField, toInt32]

/-- C12 (as stated) fails: on the two-dimensional 2 x 2 field `Ex` of `tieFields` the
maximum 5 is attained at the cells of linear index 1 and 2, both visited by the scan;
the scan finds it at index 2, and on one process `compute` reports `ExMaxCell = 2`, not
the lowest index 1. -/
theorem maxcell_is_not_lowest_index :
    (tieField "Ex").data 1 = 5 ∧ (tieField "Ex").data 2 = 5
    ∧ 1 ∈ tieFields.cells (tieField "Ex") ∧ 2 ∈ tieFields.cells (tieField "Ex")
    ∧ (∀ x ∈ tieFields.cells (tieField "Ex"), (tieField "Ex").data x ≤ 5)
    ∧ (tieFields.localMinMax (tieField "Ex")).2 = ⟨5, 2⟩
    ∧ ("ExMax", (5 : ℚ))
        ∈ (compute sampleDiag tieFields [] { isMaster := true, others := [] }).out_list
    ∧ ("ExMaxCell", (2 : ℚ))
        ∈ (compute sampleDiag tieFields [] { isMaster := true, others := [] }).out_list := by
  have hc : tieFields.cells (tieField "Ex") = [0, 2, 1, 3] := by decide
  have hr : (reducedMinMax tieFields { isMaster := true, others := [] } ElectroMagn.Ex_).2
      = ⟨5, 2⟩ := by
    simp only [reducedMinMax, SmileiMPI.reduceLoc, if_true, List.map_nil, List.foldl_nil]
    exact tie_localMinMax
  have hq := mem_minMaxColumns sampleDiag tieFields [] [] ElectroMagn.Ex_
    (by simp [scannedFields, energyFields])
  have hn1 : (tieFields.Ex_).name ++ "Max" = "ExMax" := by decide
  have hn2 : (tieFields.Ex_).name ++ "MaxCell" = "ExMaxCell" := by decide
  refine ⟨by simp [tieField], by simp [tieField], by rw [hc]; decide, by rw [hc]; decide,
    ?_, tie_localMinMax, ?_, ?_⟩
  · intro x _
    simp only [tieField]
    split_ifs <;> norm_num
  · have := hq ((tieFields.Ex_).name ++ "Max",
      (reducedMinMax tieFields { isMaster := true, others := [] } ElectroMagn.Ex_).2.val)
      (by simp [minMaxQuad])
    rw [hr, hn1] at this
    exact this
  · have := hq ((tieFields.Ex_).name ++ "MaxCell",
      ((reducedMinMax tieFields { isMaster := true, others := [] } ElectroMagn.Ex_).2.index : ℚ))
      (by simp [minMaxQuad])
    rw [hr, hn2] at this
    simpa using this

/-- C12 (amended): the location found by the min/max scan of a process is the first
cell, in the order of the scan (cell 0 first, then the cells of the index box with `k`
outermost and `i` innermost), at which the extremum over the scanned cells is attained.
On a one-dimensional field the scan visits the cells by increasing linear index, so
this is the lowest linear index at which the extremum is attained. The reduction
reports the pair of a process that attains the extremum over all processes, with the
lowest location among such processes, and the master records its value and location as
`<field>Max`, `<field>MaxCell` (`<field>Min`, `<field>MinCell`). -/
theorem minmax_location_first_in_scan (EM : ElectroMagn) (f : Field) :
    (∃ pre m post, 0 :: EM.cells f = pre ++ m :: post
        ∧ (∀ x ∈ pre, f.data x < f.data m) ∧ (∀ x ∈ post, f.data x ≤ f.data m)
        ∧ (EM.localMinMax f).2 = { val := f.data m, index := toInt32 m })
    ∧ (∃ pre m post, 0 :: EM.cells f = pre ++ m :: post
        ∧ (∀ x ∈ pre, f.data m < f.data x) ∧ (∀ x ∈ post, f.data m ≤ f.data x)
        ∧ (EM.localMinMax f).1 = { val := f.data m, index := toInt32 m })
    ∧ (f.isDual_.length = 1 →
        (∃ m, m ∈ 0 :: EM.cells f
          ∧ (EM.localMinMax f).2 = { val := f.data m, index := toInt32 m }
          ∧ (∀ x ∈ 0 :: EM.cells f, f.data x ≤ f.data m)
          ∧ (∀ x ∈ 0 :: EM.cells f, f.data x = f.data m → m ≤ x))
        ∧ (∃ m, m ∈ 0 :: EM.cells f
          ∧ (EM.localMinMax f).1 = { val := f.data m, index := toInt32 m }
          ∧ (∀ x ∈ 0 :: EM.cells f, f.data m ≤ f.data x)
          ∧ (∀ x ∈ 0 :: EM.cells f, f.data x = f.data m → m ≤ x)))
    ∧ (∀ (others : List Rank) (sel : ElectroMagn → Field),
        (reducedMinMax EM { isMaster := true, others := others } sel).2
            ∈ (EM.localMinMax (sel EM)).2
                :: others.map (fun r => (r.EMfields.localMinMax (sel r.EMfields)).2)
        ∧ (∀ y ∈ (EM.localMinMax (sel EM)).2
                :: others.map (fun r => (r.EMfields.localMinMax (sel r.EMfields)).2),
            y.val ≤ (reducedMinMax EM { isMaster := true, others := others } sel).2.val
            ∧ (y.val = (reducedMinMax EM { isMaster := true, others := others } sel).2.val →
                (reducedMinMax EM { isMaster := true, others := others } sel).2.index
                  ≤ y.index))
        ∧ (reducedMinMax EM { isMaster := true, others := others } sel).1
            ∈ (EM.localMinMax (sel EM)).1
                :: others.map (fun r => (r.EMfields.localMinMax (sel r.EMfields)).1)
        ∧ (∀ y ∈ (EM.localMinMax (sel EM)).1
                :: others.map (fun r => (r.EMfields.localMinMax (sel r.EMfields)).1),
            (reducedMinMax EM { isMaster := true, others := others } sel).1.val ≤ y.val
            ∧ (y.val = (reducedMinMax EM { isMaster := true, others := others } sel).1.val →
                (reducedMinMax EM { isMaster := true, others := others } sel).1.index
                  ≤ y.index)))
    ∧ (∀ (d : DiagnosticScalar) (vecSpecies : List Species) (others : List Rank)
        (sel : ElectroMagn → Field), sel ∈ scannedFields →
        ((sel EM).name ++ "Max",
            (reducedMinMax EM { isMaster := true, others := others } sel).2.val)
          ∈ (compute d EM vecSpecies { isMaster := true, others := others }).out_list
        ∧ ((sel EM).name ++ "MaxCell",
            ((reducedMinMax EM { isMaster := true, others := others } sel).2.index : ℚ))
          ∈ (compute d EM vecSpecies { isMaster := true, others := others }).out_list
        ∧ ((sel EM).name ++ "Min",
            (reducedMinMax EM { isMaster := true, others := others } sel).1.val)
          ∈ (compute d EM vecSpecies { isMaster := true, others := others }).out_list
        ∧ ((sel EM).name ++ "MinCell",
            ((reducedMinMax EM { isMaster := true, others := others } sel).1.index : ℚ))
          ∈ (compute d EM vecSpecies { isMaster := true, others := others }).out_list) := by
  have hmax : ∃ pre m post, 0 :: EM.cells f = pre ++ m :: post
        ∧ (∀ x ∈ pre, f.data x < f.data m) ∧ (∀ x ∈ post, f.data x ≤ f.data m)
        ∧ (EM.localMinMax f).2 = { val := f.data m, index := toInt32 m } := by
    obtain ⟨pre, m, post, h1, h2, h3, h4⟩ := maxStep_first f (EM.cells f) 0
    exact ⟨pre, m, post, h1, h2, h3, by rw [localMinMax_eq]; exact h4⟩
  have hmin : ∃ pre m post, 0 :: EM.cells f = pre ++ m :: post
        ∧ (∀ x ∈ pre, f.data m < f.data x) ∧ (∀ x ∈ post, f.data m ≤ f.data x)
        ∧ (EM.localMinMax f).1 = { val := f.data m, index := toInt32 m } := by
    obtain ⟨pre, m, post, h1, h2, h3, h4⟩ := minStep_first f (EM.cells f) 0
    exact ⟨pre, m, post, h1, h2, h3, by rw [localMinMax_eq]; exact h4⟩
  refine ⟨hmax, hmin, ?_, ?_, ?_⟩
  · intro h1d
    have hsorted : (0 :: EM.cells f).Pairwise (· ≤ ·) := by
      rw [cells_one_dim EM f h1d]
      exact zero_cons_range'_sorted _ _
    constructor
    · obtain ⟨pre, m, post, h1, h2, h3, h4⟩ := hmax
      have hlow := first_is_lowest _ pre post m hsorted h1
      refine ⟨m, by rw [h1]; simp, h4, ?_, ?_⟩
      · intro x hx
        rw [h1] at hx
        rcases List.mem_append.1 hx with hx | hx
        · exact le_of_lt (h2 x hx)
        · rcases List.mem_cons.1 hx with rfl | hx
          · exact le_refl _
          · exact h3 x hx
      · intro x hx hval
        rw [h1] at hx
        rcases List.mem_append.1 hx with hx | hx
        · exact absurd hval (ne_of_lt (h2 x hx))
        · rcases List.mem_cons.1 hx with rfl | hx
          · exact le_refl _
          · exact hlow x hx
    · obtain ⟨pre, m, post, h1, h2, h3, h4⟩ := hmin
      have hlow := first_is_lowest _ pre post m hsorted h1
      refine ⟨m, by rw [h1]; simp, h4, ?_, ?_⟩
      · intro x hx
        rw [h1] at hx
        rcases List.mem_append.1 hx with hx | hx
        · exact le_of_lt (h2 x hx)
        · rcases List.mem_cons.1 hx with rfl | hx
          · exact le_refl _
          · exact h3 x hx
      · intro x hx hval
        rw [h1] at hx
        rcases List.mem_append.1 hx with hx | hx
        · exact absurd hval.symm (ne_of_lt (h2 x hx))
        · rcases List.mem_cons.1 hx with rfl | hx
          · exact le_refl _
          · exact hlow x hx
  · intro others sel
    simp only [reducedMinMax, SmileiMPI.reduceLoc, if_true]
    obtain ⟨a1, a2, a3⟩ := foldl_MAXLOC
      (others.map (fun r => (r.EMfields.localMinMax (sel r.EMfields)).2))
      (EM.localMinMax (sel EM)).2
    obtain ⟨b1, b2, b3⟩ := foldl_MINLOC
      (others.map (fun r => (r.EMfields.localMinMax (sel r.EMfields)).1))
      (EM.localMinMax (sel EM)).1
    exact ⟨a2, fun y hy => ⟨a1 y hy, a3 y hy⟩, b2, fun y hy => ⟨b1 y hy, b3 y hy⟩⟩
  · intro d vecSpecies others sel hsel
    have hq := mem_minMaxColumns d EM vecSpecies others sel hsel
    exact ⟨hq _ (by simp [minMaxQuad]), hq _ (by simp [minMaxQuad]),
      hq _ (by simp [minMaxQuad]), hq _ (by simp [minMaxQuad])⟩

/-- Witness of C12 (amended) on the one-dimensional field `Ex` of `sampleFields`. -/
theorem minmax_location_first_in_scan_witness :
    (sampleField "Ex").isDual_.length = 1
    ∧ ∃ m, m ∈ 0 :: sampleFields.cells (sampleField "Ex")
      ∧ (sampleFields.localMinMax (sampleField "Ex")).2
          = { val := (sampleField "Ex").data m, index := toInt32 m }
      ∧ (∀ x ∈ 0 :: sampleFields.cells (sampleField "Ex"),
          (sampleField "Ex").data x ≤ (sampleField "Ex").data m)
      ∧ (∀ x ∈ 0 :: sampleFields.cells (sampleField "Ex"),
          (sampleField "Ex").data x = (sampleField "Ex").data m → m ≤ x) :=
  ⟨rfl, ((minmax_location_first_in_scan sampleFields (sampleField "Ex")).2.2.1 rfl).1⟩

end DiagnosticScalar

/-! ## The communication tag and the report file: theorems -/

/-- C13 (the code at the failing input): `buildtag` gives the tag 20 both for the triple
`(214748365, 0, 0)` and for the triple `(0, 2, 0)`: the text `21474836500` read as a
64-bit integer is `5 * 2 ^ 32 + 20`, and the conversion to `int` keeps 20. -/
theorem buildtag_not_unique :
    buildtag 214748365 0 0 = 20 ∧ buildtag 0 2 0 = 20
    ∧ ((214748365 : Int), (0 : Int), (0 : Int)) ≠ (0, 2, 0)
    ∧ extractLongLong ("" ++ toString (214748365 : Int) ++ toString (0 : Int)
        ++ toString (0 : Int)) = 5 * 2 ^ 32 + 20 := by
  decide

/-- C14: `openFile` raises the fatal error exactly when the calling process is the
master and `scalars.txt` cannot be opened for writing; on the master it asks for that
one file once, whatever the answer; on any other process it opens no file and returns
with the diagnostic unchanged. -/
theorem openFile_error_iff (canOpen : String → Bool) (d : DiagnosticScalar)
    (smpi : SmileiMPI) :
    ((∃ msg, (d.openFile canOpen smpi).result = Except.error msg)
        ↔ (smpi.isMaster = true ∧ canOpen "scalars.txt" = false))
    ∧ (smpi.isMaster = true → (d.openFile canOpen smpi).opened = ["scalars.txt"])
    ∧ (smpi.isMaster = true → canOpen "scalars.txt" = true →
        (d.openFile canOpen smpi).result = Except.ok { d with fout := "" })
    ∧ (smpi.isMaster = false →
        (d.openFile canOpen smpi).opened = []
        ∧ (d.openFile canOpen smpi).result = Except.ok d)
    ∧ (d.openFile canOpen smpi).opened.length ≤ 1 := by
  unfold DiagnosticScalar.openFile
  by_cases hm : smpi.isMaster = true
  · by_cases hc : canOpen "scalars.txt" = true
    · simp [hm, hc]
    · simp [hm, hc]
  · simp [hm]

/-- Witness of C14: on the master with a file system that refuses `scalars.txt` the call
fails; on another process with the same file system it opens nothing and returns. -/
theorem openFile_error_iff_witness :
    (∃ msg, (sampleDiag.openFile (fun _ => false)
        { isMaster := true, others := [] }).result = Except.error msg)
    ∧ (sampleDiag.openFile (fun _ => false) { isMaster := false, others := [] }).opened = []
    ∧ (sampleDiag.openFile (fun _ => false) { isMaster := false, others := [] }).result
        = Except.ok sampleDiag :=
  ⟨(openFile_error_iff (fun _ => false) sampleDiag { isMaster := true, others := [] }).1.2
      ⟨rfl, rfl⟩,
   ((openFile_error_iff (fun _ => false) sampleDiag
      { isMaster := false, others := [] }).2.2.2.1 rfl).1,
   ((openFile_error_iff (fun _ => false) sampleDiag
      { isMaster := false, others := [] }).2.2.2.1 rfl).2⟩

/-! ## The neighbour table: theorems -/

theorem neighborAt_patchAt (N : Int) (toIndex : Coord → Nat) (shape c : Coord)
    (axis side : Nat) (haxis : axis < 3) (hside : side < 2) :
    (patchAt N toIndex shape c).neighborAt (axis : Int) (side : Int)
      = some (match neighborCoordinate shape c axis side with
              | some n => (toIndex n : Int)
              | none => N) := by
  have ha : axis = 0 ∨ axis = 1 ∨ axis = 2 := by omega
  have hs : side = 0 ∨ side = 1 := by omega
  rcases ha with rfl | rfl | rfl <;> rcases hs with rfl | rfl <;>
    simp [Patch.neighborAt, patchAt, neighborTable, vecAt, List.range, List.range.loop]

theorem neighborCoordinate_opposite (shape c n : Coord) (axis side : Nat)
    (hc : Coord.inGrid shape c) (hside : side < 2)
    (h : neighborCoordinate shape c axis side = some n) :
    Coord.inGrid shape n ∧ neighborCoordinate shape n axis (1 - side) = some c := by
  obtain ⟨x, y, z⟩ := c
  obtain ⟨sx, sy, sz⟩ := shape
  simp only [Coord.inGrid] at hc
  unfold neighborCoordinate at h
  by_cases h3 : 3 ≤ axis
  · simp [h3] at h
  · have ha : axis = 0 ∨ axis = 1 ∨ axis = 2 := by omega
    have hs : side = 0 ∨ side = 1 := by omega
    rcases ha with rfl | rfl | rfl <;> rcases hs with rfl | rfl <;>
      simp only [Coord.get, Coord.set] at h <;>
      simp at h <;>
      obtain ⟨h1, rfl⟩ := h <;>
      refine ⟨by simp only [Coord.inGrid]; omega, ?_⟩ <;>
      simp [neighborCoordinate, Coord.get, Coord.set] <;> omega

/-- C15: in a decomposition into a grid of patches (in particular 2 x 2 x 2) with a
one-to-one topology index, for every patch A of the grid, every axis and every side
whose entry `neighbor_[axis][side]` is not the sentinel, the entry is the index of a
patch B of the grid, B is the only patch with that index, and the entry of the
neighbour table of B on the same axis and the opposite side is the index of A. -/
theorem neighbor_table_symmetric (MPI_PROC_NULL : Int) (toIndex : Coord → Nat)
    (shape cA : Coord) (axis side : Nat) (e : Int)
    (hinj : ∀ a b, Coord.inGrid shape a → Coord.inGrid shape b →
      toIndex a = toIndex b → a = b)
    (hA : Coord.inGrid shape cA) (haxis : axis < 3) (hside : side < 2)
    (hentry : (patchAt MPI_PROC_NULL toIndex shape cA).neighborAt (axis : Int) (side : Int)
      = some e)
    (hreal : e ≠ MPI_PROC_NULL) :
    ∃ cB, Coord.inGrid shape cB
      ∧ e = ((patchAt MPI_PROC_NULL toIndex shape cB).hindex : Int)
      ∧ (patchAt MPI_PROC_NULL toIndex shape cB).neighborAt (axis : Int)
            ((1 - side : Nat) : Int)
          = some ((patchAt MPI_PROC_NULL toIndex shape cA).hindex : Int)
      ∧ (∀ c, Coord.inGrid shape c →
          ((patchAt MPI_PROC_NULL toIndex shape c).hindex : Int) = e → c = cB) := by
  rw [neighborAt_patchAt MPI_PROC_NULL toIndex shape cA axis side haxis hside] at hentry
  cases hn : neighborCoordinate shape cA axis side with
  | none =>
    rw [hn] at hentry
    simp only [Option.some.injEq] at hentry
    exact absurd hentry.symm hreal
  | some n =>
    rw [hn] at hentry
    simp only [Option.some.injEq] at hentry
    obtain ⟨hin, hopp⟩ := neighborCoordinate_opposite shape cA n axis side hA hside hn
    refine ⟨n, hin, hentry.symm, ?_, ?_⟩
    · rw [neighborAt_patchAt MPI_PROC_NULL toIndex shape n axis (1 - side) haxis (by omega),
        hopp]
      rfl
    · intro c hc hce
      have h1 : ((toIndex c : Nat) : Int) = ((toIndex n : Nat) : Int) := by
        rw [hentry]; exact hce
      exact hinj c n hc hin (Int.ofNat.inj h1)

/-- Witness of C15 in the 2 x 2 x 2 decomposition indexed by `sampleIndex`, with the
sentinel -1: the patch at `(0, 0, 0)` has the patch of index 4 on the upper side of
axis 0, and that patch has the patch of index 0 on the lower side of axis 0. -/
theorem neighbor_table_symmetric_witness :
    (patchAt (-1) sampleIndex (2, 2, 2) (0, 0, 0)).neighborAt 0 1 = some 4
    ∧ ∃ cB, Coord.inGrid (2, 2, 2) cB
      ∧ (4 : Int) = ((patchAt (-1) sampleIndex (2, 2, 2) cB).hindex : Int)
      ∧ (patchAt (-1) sampleIndex (2, 2, 2) cB).neighborAt ((0 : Nat) : Int)
            ((1 - 1 : Nat) : Int)
          = some ((patchAt (-1) sampleIndex (2, 2, 2) (0, 0, 0)).hindex : Int)
      ∧ (∀ c, Coord.inGrid (2, 2, 2) c →
          ((patchAt (-1) sampleIndex (2, 2, 2) c).hindex : Int) = 4 → c = cB) :=
  ⟨by decide,
   neighbor_table_symmetric (-1) sampleIndex (2, 2, 2) (0, 0, 0) 0 1 4
    (by
      rintro ⟨a1, a2, a3⟩ ⟨b1, b2, b3⟩ ha hb h
      simp only [Coord.inGrid] at ha hb
      simp only [sampleIndex] at h
      have e1 : a1 = b1 := by omega
      have e2 : a2 = b2 := by omega
      have e3 : a3 = b3 := by omega
      rw [e1, e2, e3])
    (by simp [Coord.inGrid]) (by decide) (by decide) (by decide) (by decide)⟩

/-! ## The driver `run`: theorems -/

namespace DiagnosticScalar

theorem compute_other (d : DiagnosticScalar) (EMfields : ElectroMagn)
    (vecSpecies : List Species) (others : List Rank) :
    compute d EMfields vecSpecies { isMaster := false, others := others }
      = { d with out_list := [] } := by
  unfold compute
  simp only [Bool.false_eq_true, if_false, computeSpeciesLoop_other, computePoyntingLoop]
  rw [foldl_fixed _ _ _ (fun x j => foldl_fixed _ _ _ (fun y i => by simp [computePoynting]))]
  rw [foldl_fixed _ _ _ (fun x sel => by simp [computeFieldEnergy])]

theorem compute_frame (d : DiagnosticScalar) (EMfields : ElectroMagn)
    (vecSpecies : List Species) (isMaster : Bool) (others : List Rank) :
    ∃ ol en, compute d EMfields vecSpecies { isMaster := isMaster, others := others }
      = { d with out_list := ol, EnergyUsedForNorm := en } := by
  cases isMaster with
  | false => exact ⟨[], d.EnergyUsedForNorm, compute_other d EMfields vecSpecies others⟩
  | true =>
    rw [compute_master]
    simp only [computeFinal, prepend]
    exact ⟨_, _, rfl⟩

theorem getScalar_frame (d : DiagnosticScalar) (my_var : String) :
    ∃ ns, (d.getScalar my_var).2 = { d with notes := ns } := by
  unfold getScalar
  cases getScalarLoop my_var d.out_list with
  | none => exact ⟨_, rfl⟩
  | some v => exact ⟨d.notes, rfl⟩

theorem write_fout_length (sci : Nat → ℚ → String) (d : DiagnosticScalar) (itime : Int) :
    d.fout.length < (write sci d itime).fout.length := by
  by_cases h : d.fout = ""
  · have h2 : (write sci d itime).fout ≠ "" := by
      simp only [write]
      exact append_newline_ne_empty _
    rw [h]
    have : (write sci d itime).fout.length ≠ 0 := fun e => h2 ((length_eq_zero_iff _).1 e)
    have h0 : ("" : String).length = 0 := rfl
    omega
  · rw [write_fout_later sci d itime h]
    simp only [valueRow, String.length_append]
    have h1 : "\n".length = 1 := by decide
    omega

theorem write_frame (sci : Nat → ℚ → String) (d : DiagnosticScalar) (itime : Int) :
    write sci d itime = { d with fout := (write sci d itime).fout } := by
  simp [write]

end DiagnosticScalar

namespace DiagnosticScalar

theorem runInit_spec (env : Collaborators) (isMaster : Bool) (d : DiagnosticScalar)
    (w : World) (timestep : Int) :
    ∃ s, runInit env isMaster (d, w) timestep = (s, worldAfterInit env w timestep)
      ∧ s.every = d.every ∧ s.dt = d.dt ∧ s.tmin = d.tmin ∧ s.tmax = d.tmax
      ∧ s.fout = d.fout
      ∧ (timestep = 0 →
          s.Energy_time_zero
              = ((compute d w.EMfields w.vecSpecies
                  { isMaster := isMaster, others := w.others }).getScalar "Utot").1
          ∧ s.out_list = (compute d w.EMfields w.vecSpecies
                  { isMaster := isMaster, others := w.others }).out_list) := by
  unfold runInit worldAfterInit
  by_cases h : timestep = 0
  · simp only [h, if_true, computeIn]
    obtain ⟨ol, en, hc⟩ := compute_frame d w.EMfields w.vecSpecies isMaster w.others
    obtain ⟨ns, hg⟩ := getScalar_frame
      (compute d w.EMfields w.vecSpecies { isMaster := isMaster, others := w.others }) "Utot"
    refine ⟨_, rfl, ?_⟩
    rw [hg, hc]
    exact ⟨rfl, rfl, rfl, rfl, rfl, fun _ => ⟨rfl, rfl⟩⟩
  · simp only [h, if_false]
    exact ⟨d, rfl, rfl, rfl, rfl, rfl, rfl, fun e => e.elim⟩

end DiagnosticScalar

namespace DiagnosticScalar

theorem run_spec (sci : Nat → ℚ → String) (mulDouble : ℚ → ℚ → ℚ)
    (env : Collaborators) (isMaster : Bool) (d : DiagnosticScalar) (w : World)
    (timestep : Int) :
    ∃ s c, s.fout = d.fout ∧ c.fout = d.fout
      ∧ c.Energy_time_zero = s.Energy_time_zero
      ∧ (timestep = 0 →
          s.Energy_time_zero
              = ((compute d w.EMfields w.vecSpecies
                  { isMaster := isMaster, others := w.others }).getScalar "Utot").1
          ∧ s.out_list = (compute d w.EMfields w.vecSpecies
                  { isMaster := isMaster, others := w.others }).out_list)
      ∧ run sci mulDouble env isMaster d w timestep
        = if d.inWindow mulDouble timestep then
            if (d.every : Int) ∣ timestep then
              (if isMaster then write sci c timestep else c,
               env.reinitDiags (env.computePoynting (worldAfterInit env w timestep)))
            else (s, env.computePoynting (worldAfterInit env w timestep))
          else (s, worldAfterInit env w timestep) := by
  obtain ⟨s, hs, h1, h2, h3, h4, h5, h6⟩ := runInit_spec env isMaster d w timestep
  obtain ⟨ol, en, hc⟩ := compute_frame s
    (env.computePoynting (worldAfterInit env w timestep)).EMfields
    (env.computePoynting (worldAfterInit env w timestep)).vecSpecies isMaster
    (env.computePoynting (worldAfterInit env w timestep)).others
  refine ⟨s, compute s (env.computePoynting (worldAfterInit env w timestep)).EMfields
    (env.computePoynting (worldAfterInit env w timestep)).vecSpecies
    { isMaster := isMaster,
      others := (env.computePoynting (worldAfterInit env w timestep)).others },
    h5, by rw [hc]; exact h5, by rw [hc], h6, ?_⟩
  unfold run
  simp only [hs, h1, h2, h3, h4, inWindow, ge_iff_le, computeIn, Int.dvd_iff_tmod_eq_zero]
  by_cases hw : d.every ≠ 0 ∧ d.tmin ≤ mulDouble (timestep : ℚ) d.dt
      ∧ mulDouble (timestep : ℚ) d.dt ≤ d.tmax
  · rw [if_pos hw, if_pos hw]
    by_cases hm : timestep.tmod (d.every : Int) = 0
    · rw [if_pos hm, if_pos hm]
      cases isMaster <;> simp
    · rw [if_neg hm, if_neg hm]
  · rw [if_neg hw, if_neg hw]

end DiagnosticScalar

namespace DiagnosticScalar

/-- C18: on the master, `run` changes the report (by one call of `write`, which
lengthens it) exactly when `every` is not zero, `tmin <= timestep * dt <= tmax` and
`timestep` is a multiple of `every`; on any other process it never changes the report.
Here `timestep * dt` is the product `(double)timestep * dt` as the machine forms it:
the statement holds for every rounding `mulDouble` of the product of two `double`
values. Whenever `every` is not zero and the time lies in `[tmin, tmax]` the Poynting flux is
computed, followed by the computation of the scalars only when `timestep` is a
multiple of `every`; otherwise the Poynting flux is not computed. At timestep 0 the
scalars are computed and `Energy_time_zero` becomes the value that `getScalar("Utot")`
returns for them, whatever `every`, `tmin` and `tmax` are. -/
theorem run_schedule (sci : Nat → ℚ → String) (mulDouble : ℚ → ℚ → ℚ)
    (env : Collaborators) (isMaster : Bool) (d : DiagnosticScalar) (w : World)
    (timestep : Int) :
    (isMaster = true →
      ((run sci mulDouble env isMaster d w timestep).1.fout ≠ d.fout
        ↔ (d.every ≠ 0 ∧ d.tmin ≤ mulDouble (timestep : ℚ) d.dt
            ∧ mulDouble (timestep : ℚ) d.dt ≤ d.tmax ∧ (d.every : Int) ∣ timestep)))
    ∧ (isMaster = true → d.inWindow mulDouble timestep → (d.every : Int) ∣ timestep →
        ∃ c, c.fout = d.fout
          ∧ (run sci mulDouble env isMaster d w timestep).1 = write sci c timestep)
    ∧ (isMaster = false → (run sci mulDouble env isMaster d w timestep).1.fout = d.fout)
    ∧ (d.inWindow mulDouble timestep → ¬ (d.every : Int) ∣ timestep →
        (run sci mulDouble env isMaster d w timestep).2
          = env.computePoynting (worldAfterInit env w timestep))
    ∧ (d.inWindow mulDouble timestep → (d.every : Int) ∣ timestep →
        (run sci mulDouble env isMaster d w timestep).2
          = env.reinitDiags (env.computePoynting (worldAfterInit env w timestep)))
    ∧ (¬ d.inWindow mulDouble timestep →
        (run sci mulDouble env isMaster d w timestep).2 = worldAfterInit env w timestep)
    ∧ (timestep = 0 →
        (run sci mulDouble env isMaster d w timestep).1.Energy_time_zero
          = ((compute d w.EMfields w.vecSpecies
              { isMaster := isMaster, others := w.others }).getScalar "Utot").1)
    ∧ (timestep = 0 → ¬ d.inWindow mulDouble timestep →
        (run sci mulDouble env isMaster d w timestep).1.out_list
          = (compute d w.EMfields w.vecSpecies
              { isMaster := isMaster, others := w.others }).out_list) := by
  obtain ⟨s, c, hs, hc, hce, h0, hrun⟩ := run_spec sci mulDouble env isMaster d w timestep
  rw [hrun]
  have hwrite : (write sci c timestep).fout ≠ d.fout := by
    intro e
    have := write_fout_length sci c timestep
    rw [e, hc] at this
    exact lt_irrefl _ this
  have hwz : (write sci c timestep).Energy_time_zero = c.Energy_time_zero := by
    rw [write_frame]
  refine ⟨?_, ?_, ?_, ?_, ?_, ?_, ?_, ?_⟩
  · intro hm
    by_cases hw : d.inWindow mulDouble timestep
    · by_cases hd : (d.every : Int) ∣ timestep
      · simp only [if_pos hw, if_pos hd, hm, if_true]
        exact ⟨fun _ => ⟨hw.1, hw.2.1, hw.2.2, hd⟩, fun _ => hwrite⟩
      · simp only [if_pos hw, if_neg hd]
        exact ⟨fun h => absurd hs h, fun h => absurd h.2.2.2 hd⟩
    · simp only [if_neg hw]
      exact ⟨fun h => absurd hs h, fun h => absurd ⟨h.1, h.2.1, h.2.2.1⟩ hw⟩
  · intro hm hw hd
    simp only [if_pos hw, if_pos hd, hm, if_true]
    exact ⟨c, hc, rfl⟩
  · intro hm
    by_cases hw : d.inWindow mulDouble timestep
    · by_cases hd : (d.every : Int) ∣ timestep
      · simp only [if_pos hw, if_pos hd, hm, Bool.false_eq_true, if_false]
        exact hc
      · simp only [if_pos hw, if_neg hd]
        exact hs
    · simp only [if_neg hw]
      exact hs
  · intro hw hd
    simp only [if_pos hw, if_neg hd]
  · intro hw hd
    simp only [if_pos hw, if_pos hd]
  · intro hw
    simp only [if_neg hw]
  · intro ht
    by_cases hw : d.inWindow mulDouble timestep
    · by_cases hd : (d.every : Int) ∣ timestep
      · simp only [if_pos hw, if_pos hd]
        cases isMaster with
        | false => simp only [Bool.false_eq_true, if_false]; rw [hce]; exact (h0 ht).1
        | true => simp only [if_true]; rw [hwz, hce]; exact (h0 ht).1
      · simp only [if_pos hw, if_neg hd]
        exact (h0 ht).1
    · simp only [if_neg hw]
      exact (h0 ht).1
  · intro ht hw
    simp only [if_neg hw]
    exact (h0 ht).2

/-- Witness of C18. With `every = 1`, `dt = 1`, `tmin = 0` and `tmax = 10`, where the
products `3 * 1` and `0 * 1` are exact in `double`, the master lengthens the report at
timestep 3, and at timestep 0 `Energy_time_zero` is set from `getScalar("Utot")`. With
`dt` the `double` nearest to 0.1 and `tmax = 1`, the product `10 * dt` exceeds `tmax`
over the rationals but is rounded to 1, the master lengthens the report at timestep
10, and `run`, evaluated with collaborators that leave a mark, has called
`computePoynting()`. -/
theorem run_schedule_witness :
    (run (fun _ _ => "") (fun a b => a * b) sampleCollaborators true sampleDiag
        sampleWorld 3).1.fout ≠ sampleDiag.fout
    ∧ (run (fun _ _ => "") (fun a b => a * b) sampleCollaborators true sampleDiag
        sampleWorld 0).1.Energy_time_zero
        = ((compute sampleDiag sampleWorld.EMfields sampleWorld.vecSpecies
            { isMaster := true, others := sampleWorld.others }).getScalar "Utot").1
    ∧ ¬ ((10 : ℚ) * tenthDiag.dt ≤ tenthDiag.tmax)
    ∧ tenthMul 10 tenthDiag.dt = 1
    ∧ (run (fun _ _ => "") tenthMul sampleCollaborators true tenthDiag
        sampleWorld 10).1.fout ≠ tenthDiag.fout
    ∧ (run (fun _ _ => "") tenthMul markCollaborators true tenthDiag
        sampleWorld 10).2.vecSpecies = [] :=
  have hmark : (run (fun _ _ => "") tenthMul markCollaborators true tenthDiag
      sampleWorld 10).2.vecSpecies = [] := by
    have hw : tenthDiag.every ≠ 0 ∧ tenthMul 10 tenthDiag.dt ≥ tenthDiag.tmin
        ∧ tenthMul 10 tenthDiag.dt ≤ tenthDiag.tmax := by
      refine ⟨by decide, ?_, ?_⟩ <;> norm_num [tenthMul, tenthDiag, tenthDouble, sampleDiag]
    have hm : (10 : Int).tmod (tenthDiag.every : Int) = 0 := by decide
    unfold run
    simp only [runInit, show ((10 : Int) = 0) = False from by simp, if_false, Int.cast_ofNat]
    rw [if_pos hw, if_pos hm]
    rfl
  ⟨((run_schedule (fun _ _ => "") (fun a b => a * b) sampleCollaborators true sampleDiag
      sampleWorld 3).1 rfl).2
      ⟨by decide, by norm_num [sampleDiag], by norm_num [sampleDiag],
        by norm_num [sampleDiag]⟩,
   (run_schedule (fun _ _ => "") (fun a b => a * b) sampleCollaborators true sampleDiag
      sampleWorld 0).2.2.2.2.2.2.1 rfl,
   by norm_num [tenthDiag, tenthDouble],
   by norm_num [tenthMul, tenthDiag, tenthDouble],
   ((run_schedule (fun _ _ => "") tenthMul sampleCollaborators true tenthDiag
      sampleWorld 10).1 rfl).2
      ⟨by decide, by norm_num [tenthMul, tenthDiag, tenthDouble, sampleDiag],
        by norm_num [tenthMul, tenthDiag, tenthDouble, sampleDiag],
        by norm_num [tenthDiag, sampleDiag]⟩,
   hmark⟩

end DiagnosticScalar

/-! ## The laser envelope: theorems -/

theorem foldl_cells {S C V : Type} (body : S → C → S) (obs : S → C → V) (g : C → V → V)
    (hat : ∀ s c, obs (body s c) c = g c (obs s c))
    (hoff : ∀ s c x, x ≠ c → obs (body s c) x = obs s x)
    (l : List C) (hl : l.Nodup) (s : S) (x : C) :
    (x ∈ l → obs (l.foldl body s) x = g x (obs s x))
    ∧ (x ∉ l → obs (l.foldl body s) x = obs s x) := by
  induction l generalizing s with
  | nil => simp
  | cons c cs ih =>
    rw [List.nodup_cons] at hl
    rw [List.foldl_cons]
    obtain ⟨i1, i2⟩ := ih hl.2 (body s c)
    constructor
    · intro hx
      by_cases hxc : x = c
      · subst hxc
        rw [i2 hl.1, hat]
      · have hx2 : x ∈ cs := by
          rcases List.mem_cons.1 hx with h | h
          · exact absurd h hxc
          · exact h
        rw [i1 hx2, hoff s c x hxc]
    · intro hx
      have hxc : x ≠ c := fun e => hx (e ▸ List.mem_cons_self _ _)
      have hx2 : x ∉ cs := fun h => hx (List.mem_cons_of_mem _ h)
      rw [i2 hx2, hoff s c x hxc]

theorem mem_loopCells (env : LaserEnvelope3D) (first i j k : Nat) :
    (i, j, k) ∈ env.loopCells first
      ↔ (first ≤ i ∧ i < loopEnd (env.dims_.getD 0 0))
        ∧ (first ≤ j ∧ j < loopEnd (env.dims_.getD 1 0))
        ∧ (first ≤ k ∧ k < loopEnd (env.dims_.getD 2 0)) := by
  simp only [LaserEnvelope3D.loopCells, List.mem_flatMap, List.mem_map,
    DiagnosticScalar.mem_range'_sub, Prod.mk.injEq]
  constructor
  · rintro ⟨a, ha, b, hb, c, hc, rfl, rfl, rfl⟩
    exact ⟨ha, hb, hc⟩
  · rintro ⟨ha, hb, hc⟩
    exact ⟨i, ha, j, hb, k, hc, rfl, rfl, rfl⟩

theorem nodup_product (l1 l2 l3 : List Nat) (h1 : l1.Nodup) (h2 : l2.Nodup)
    (h3 : l3.Nodup) :
    (l1.flatMap fun i => l2.flatMap fun j => l3.map fun k => (i, j, k)).Nodup := by
  have inner : ∀ i j : Nat, (l3.map fun k => (i, j, k)).Nodup := by
    intro i j
    exact h3.map (fun a b e => by simpa using e)
  have mid : ∀ i : Nat, (l2.flatMap fun j => l3.map fun k => (i, j, k)).Nodup := by
    intro i
    rw [List.nodup_flatMap]
    refine ⟨fun j _ => inner i j, ?_⟩
    refine h2.imp ?_
    intro a b hab
    simp only [Function.onFun, List.disjoint_left, List.mem_map]
    rintro x ⟨k, _, rfl⟩ ⟨k2, _, e⟩
    simp only [Prod.mk.injEq] at e
    exact hab e.2.1.symm
  rw [List.nodup_flatMap]
  refine ⟨fun i _ => mid i, ?_⟩
  refine h1.imp ?_
  intro a b hab
  simp only [Function.onFun, List.disjoint_left, List.mem_flatMap, List.mem_map]
  rintro x ⟨j, _, k, _, rfl⟩ ⟨j2, _, k2, _, e⟩
  simp only [Prod.mk.injEq] at e
  exact hab e.1.symm

theorem nodup_loopCells (env : LaserEnvelope3D) (first : Nat) :
    (env.loopCells first).Nodup :=
  nodup_product _ _ _ (List.nodup_range' _ _) (List.nodup_range' _ _) (List.nodup_range' _ _)

namespace Cplx

theorem add_def (a b : Cplx) : a + b = { re := a.re + b.re, im := a.im + b.im } := rfl

theorem sub_def (a b : Cplx) : a - b = { re := a.re - b.re, im := a.im - b.im } := rfl

theorem mul_def (a b : Cplx) :
    a * b = { re := a.re * b.re - a.im * b.im, im := a.re * b.im + a.im * b.re } := rfl

theorem zero_def : (0 : Cplx) = { re := 0, im := 0 } := rfl

end Cplx

theorem envelope_step_solves (dt : ℚ) (S A Aold : Cplx) (hdt : dt ≠ 0) :
    envelopeTimePart dt
        (Cplx.divReal
          ((Cplx.scale (dt * dt) S
              + (Cplx.scale 2 A
                  - Cplx.addReal 1 (Cplx.scale (1 * dt) { re := 0, im := 1 }) * Aold))
            * Cplx.addReal 1 (Cplx.scale (1 * dt) { re := 0, im := 1 }))
          (1 + 1 * dt * (1 * dt)))
        A Aold
      = S := by
  have h1 : (1 : ℚ) + dt * dt ≠ 0 := by
    have := mul_self_nonneg dt
    nlinarith
  obtain ⟨sr, si⟩ := S
  obtain ⟨ar, ai⟩ := A
  obtain ⟨br, bi⟩ := Aold
  simp only [envelopeTimePart, Cplx.add_def, Cplx.sub_def, Cplx.mul_def, Cplx.scale,
    Cplx.divReal, Cplx.addReal, Cplx.mk.injEq, one_mul, mul_zero, mul_one, zero_mul]
  constructor
  · field_simp
    ring
  · field_simp
    ring

theorem solverValue_source (env : LaserEnvelope3D) (em : EnvelopeFields) (i j k : Nat) :
    (0 : Cplx) - Cplx.scale (em.Env_Chi_ i j k) (env.A_ i j k)
      + Cplx.scale (1 / env.cell_length.getD 0 0 / env.cell_length.getD 0 0)
          (env.A_ (i - 1) j k - Cplx.scale 2 (env.A_ i j k) + env.A_ (i + 1) j k)
      + Cplx.scale (1 / env.cell_length.getD 1 0 / env.cell_length.getD 1 0)
          (env.A_ i (j - 1) k - Cplx.scale 2 (env.A_ i j k) + env.A_ i (j + 1) k)
      + Cplx.scale (1 / env.cell_length.getD 2 0 / env.cell_length.getD 2 0)
          (env.A_ i j (k - 1) - Cplx.scale 2 (env.A_ i j k) + env.A_ i j (k + 1))
      + Cplx.scale (1 / 2 / env.cell_length.getD 0 0)
          (Cplx.scale 1 (Cplx.scale 2 { re := 0, im := 1 })
            * (env.A_ (i + 1) j k - env.A_ (i - 1) j k))
      = env.envelopeSource em i j k := by
  simp only [LaserEnvelope3D.envelopeSource, LaserEnvelope3D.laplacian, Cplx.add_def,
    Cplx.sub_def, Cplx.mul_def, Cplx.zero_def, Cplx.scale, Cplx.divReal, Cplx.mk.injEq]
  constructor
  · ring
  · ring

theorem solverValue_equation (env : LaserEnvelope3D) (em : EnvelopeFields) (i j k : Nat)
    (hdt : env.timestep ≠ 0) :
    envelopeTimePart env.timestep (env.solverValue em i j k 0) (env.A_ i j k) (env.A0_ i j k)
      = env.envelopeSource em i j k := by
  simp only [LaserEnvelope3D.solverValue]
  rw [solverValue_source env em i j k]
  exact envelope_step_solves env.timestep (env.envelopeSource em i j k) (env.A_ i j k)
    (env.A0_ i j k) hdt

theorem loopEnd_eq (n : Nat) (h1 : 1 ≤ n) (h2 : n < 2 ^ 32) : loopEnd n = n - 1 := by
  unfold loopEnd
  omega

theorem solver_loop_at (env : LaserEnvelope3D) (em : EnvelopeFields) (i j k : Nat)
    (hmem : (i, j, k) ∈ env.loopCells 1) :
    ((env.loopCells 1).foldl (LaserEnvelope3D.solverBody env em) (fun _ _ _ => 0)) i j k
      = env.solverValue em i j k 0 := by
  have h := (foldl_cells (LaserEnvelope3D.solverBody env em)
    (fun (s : CGrid) (c : Nat × Nat × Nat) => s c.1 c.2.1 c.2.2)
    (fun c v => env.solverValue em c.1 c.2.1 c.2.2 v)
    (by intro s c; simp [LaserEnvelope3D.solverBody, setAt])
    (by
      intro s c x hx
      have : ¬ (x.1 = c.1 ∧ x.2.1 = c.2.1 ∧ x.2.2 = c.2.2) := by
        rintro ⟨e1, e2, e3⟩
        exact hx (Prod.ext e1 (Prod.ext e2 e3))
      simp [LaserEnvelope3D.solverBody, setAt, this])
    (env.loopCells 1) (nodup_loopCells env 1) (fun _ _ _ => 0) (i, j, k)).1 hmem
  exact h

theorem update_loop_at (cabs : Cplx → ℚ) (A3Dnew : CGrid) (env : LaserEnvelope3D)
    (em : EnvelopeFields) (l : List (Nat × Nat × Nat)) (hl : l.Nodup) (i j k : Nat)
    (hmem : (i, j, k) ∈ l) :
    (l.foldl (LaserEnvelope3D.updateBody cabs A3Dnew) (env, em)).1.A_ i j k = A3Dnew i j k
    ∧ (l.foldl (LaserEnvelope3D.updateBody cabs A3Dnew) (env, em)).1.A0_ i j k
        = env.A_ i j k := by
  have h := (foldl_cells (LaserEnvelope3D.updateBody cabs A3Dnew)
    (fun (s : LaserEnvelope3D × EnvelopeFields) (c : Nat × Nat × Nat) =>
      (s.1.A_ c.1 c.2.1 c.2.2, s.1.A0_ c.1 c.2.1 c.2.2))
    (fun c v => (A3Dnew c.1 c.2.1 c.2.2, v.1))
    (by intro s c; simp [LaserEnvelope3D.updateBody, setAt])
    (by
      intro s c x hx
      have : ¬ (x.1 = c.1 ∧ x.2.1 = c.2.1 ∧ x.2.2 = c.2.2) := by
        rintro ⟨e1, e2, e3⟩
        exact hx (Prod.ext e1 (Prod.ext e2 e3))
      simp [LaserEnvelope3D.updateBody, setAt, this])
    l hl (env, em) (i, j, k)).1 hmem
  simp only [Prod.mk.injEq] at h
  exact h

/-- C20: for every interior cell `(i, j, k)` of a grid whose sizes are `unsigned int`
values, and a time step that is not zero, the value `A_new` that
`LaserEnvelope3D::compute` stores in `A_` satisfies, over exact complex arithmetic
with `k0 = 1`, the centred finite-difference envelope equation
`(A_new - 2 A + A_old) / dt^2 - i k0 (A_new - A_old) / dt
  = Laplacian(A) + 2 i k0 (A(i+1,j,k) - A(i-1,j,k)) / (2 dx) - Chi A`,
where `A` and `A_old` are the values of `A_` and `A0_` before the call; and after the
call `A0_` holds the previous value of `A_` at that cell. -/
theorem envelope_compute_solves (cabs : Cplx → ℚ) (env : LaserEnvelope3D)
    (em : EnvelopeFields) (i j k : Nat)
    (hdt : env.timestep ≠ 0)
    (hfit : env.dims_.getD 0 0 < 2 ^ 32 ∧ env.dims_.getD 1 0 < 2 ^ 32
      ∧ env.dims_.getD 2 0 < 2 ^ 32)
    (hi : 1 ≤ i ∧ i < env.dims_.getD 0 0 - 1)
    (hj : 1 ≤ j ∧ j < env.dims_.getD 1 0 - 1)
    (hk : 1 ≤ k ∧ k < env.dims_.getD 2 0 - 1) :
    envelopeTimePart env.timestep ((LaserEnvelope3D.compute cabs env em).1.A_ i j k)
        (env.A_ i j k) (env.A0_ i j k)
      = env.envelopeSource em i j k
    ∧ (LaserEnvelope3D.compute cabs env em).1.A0_ i j k = env.A_ i j k := by
  have e0 : loopEnd (env.dims_.getD 0 0) = env.dims_.getD 0 0 - 1 :=
    loopEnd_eq _ (by omega) hfit.1
  have e1 : loopEnd (env.dims_.getD 1 0) = env.dims_.getD 1 0 - 1 :=
    loopEnd_eq _ (by omega) hfit.2.1
  have e2 : loopEnd (env.dims_.getD 2 0) = env.dims_.getD 2 0 - 1 :=
    loopEnd_eq _ (by omega) hfit.2.2
  have hmem : (i, j, k) ∈ env.loopCells 1 := by
    rw [mem_loopCells, e0, e1, e2]
    exact ⟨hi, hj, hk⟩
  have hc : LaserEnvelope3D.compute cabs env em
      = (env.loopCells 1).foldl
          (LaserEnvelope3D.updateBody cabs
            ((env.loopCells 1).foldl (LaserEnvelope3D.solverBody env em) (fun _ _ _ => 0)))
          (env, em) := rfl
  obtain ⟨h1, h2⟩ := update_loop_at cabs
    ((env.loopCells 1).foldl (LaserEnvelope3D.solverBody env em) (fun _ _ _ => 0))
    env em (env.loopCells 1) (nodup_loopCells env 1) i j k hmem
  have hA : (LaserEnvelope3D.compute cabs env em).1.A_ i j k = env.solverValue em i j k 0 := by
    rw [hc]
    exact h1.trans (solver_loop_at env em i j k hmem)
  refine ⟨?_, ?_⟩
  · rw [hA]
    exact solverValue_equation env em i j k hdt
  · rw [hc]
    exact h2

/-- Witness of C20 at the interior cell `(1, 1, 1)` of `sampleEnvelope`. -/
theorem envelope_compute_solves_witness :
    sampleEnvelope.timestep ≠ 0
    ∧ envelopeTimePart sampleEnvelope.timestep
        ((LaserEnvelope3D.compute (fun _ => 0) sampleEnvelope sampleEnvelopeFields).1.A_ 1 1 1)
        (sampleEnvelope.A_ 1 1 1) (sampleEnvelope.A0_ 1 1 1)
      = sampleEnvelope.envelopeSource sampleEnvelopeFields 1 1 1
    ∧ (LaserEnvelope3D.compute (fun _ => 0) sampleEnvelope sampleEnvelopeFields).1.A0_ 1 1 1
      = sampleEnvelope.A_ 1 1 1 :=
  have hdt : sampleEnvelope.timestep ≠ 0 := by norm_num [sampleEnvelope]
  ⟨hdt, envelope_compute_solves (fun _ => 0) sampleEnvelope sampleEnvelopeFields 1 1 1 hdt
    (by decide) (by decide) (by decide) (by decide)⟩

/-! ## The ponderomotive potential and its gradient: theorems -/

theorem foldl_keeps {S C P : Type} (body : S → C → S) (p : S → P)
    (h : ∀ s c, p (body s c) = p s) (l : List C) (s : S) : p (l.foldl body s) = p s := by
  induction l generalizing s with
  | nil => rfl
  | cons c cs ih => rw [List.foldl_cons, ih, h]

theorem foldl_cells_off {S C V : Type} (body : S → C → S) (obs : S → C → V)
    (hoff : ∀ s c x, x ≠ c → obs (body s c) x = obs s x)
    (l : List C) (s : S) (x : C) (hx : x ∉ l) : obs (l.foldl body s) x = obs s x := by
  induction l generalizing s with
  | nil => rfl
  | cons c cs ih =>
    have hxc : x ≠ c := fun e => hx (e ▸ List.mem_cons_self _ _)
    have hx2 : x ∉ cs := fun h => hx (List.mem_cons_of_mem _ h)
    rw [List.foldl_cons, ih _ hx2, hoff s c x hxc]

theorem cell_ne {x c : Nat × Nat × Nat} (hx : x ≠ c) :
    ¬ (x.1 = c.1 ∧ x.2.1 = c.2.1 ∧ x.2.2 = c.2.2) := by
  rintro ⟨e1, e2, e3⟩
  exact hx (Prod.ext e1 (Prod.ext e2 e3))

theorem save_loop_current (env : LaserEnvelope3D) (l : List (Nat × Nat × Nat)) :
    (l.foldl LaserEnvelope3D.saveBody env).Phi_ = env.Phi_
    ∧ (l.foldl LaserEnvelope3D.saveBody env).GradPhix_ = env.GradPhix_
    ∧ (l.foldl LaserEnvelope3D.saveBody env).GradPhiy_ = env.GradPhiy_
    ∧ (l.foldl LaserEnvelope3D.saveBody env).GradPhiz_ = env.GradPhiz_ := by
  have h := foldl_keeps LaserEnvelope3D.saveBody
    (fun s => (s.Phi_, s.GradPhix_, s.GradPhiy_, s.GradPhiz_))
    (fun s c => rfl) l env
  simp only [Prod.mk.injEq] at h
  exact h

theorem save_loop_at (env : LaserEnvelope3D) (l : List (Nat × Nat × Nat)) (hl : l.Nodup)
    (i j k : Nat) (hmem : (i, j, k) ∈ l) :
    (l.foldl LaserEnvelope3D.saveBody env).Phi_m i j k = env.Phi_ i j k
    ∧ (l.foldl LaserEnvelope3D.saveBody env).GradPhix_m i j k = env.GradPhix_ i j k
    ∧ (l.foldl LaserEnvelope3D.saveBody env).GradPhiy_m i j k = env.GradPhiy_ i j k
    ∧ (l.foldl LaserEnvelope3D.saveBody env).GradPhiz_m i j k = env.GradPhiy_ i j k := by
  have h := (foldl_cells LaserEnvelope3D.saveBody
    (fun (s : LaserEnvelope3D) (c : Nat × Nat × Nat) =>
      (s.Phi_m c.1 c.2.1 c.2.2, s.GradPhix_m c.1 c.2.1 c.2.2, s.GradPhiy_m c.1 c.2.1 c.2.2,
        s.GradPhiz_m c.1 c.2.1 c.2.2, s.Phi_ c.1 c.2.1 c.2.2, s.GradPhix_ c.1 c.2.1 c.2.2,
        s.GradPhiy_ c.1 c.2.1 c.2.2))
    (fun _ v => (v.2.2.2.2.1, v.2.2.2.2.2.1, v.2.2.2.2.2.2, v.2.2.2.2.2.2,
      v.2.2.2.2.1, v.2.2.2.2.2.1, v.2.2.2.2.2.2))
    (by intro s c; simp [LaserEnvelope3D.saveBody, setAt])
    (by intro s c x hx; simp [LaserEnvelope3D.saveBody, setAt, cell_ne hx])
    l hl env (i, j, k)).1 hmem
  simp only [Prod.mk.injEq] at h
  exact ⟨h.1, h.2.1, h.2.2.1, h.2.2.2.1⟩

theorem savePhi_unfold (env : LaserEnvelope3D) :
    env.savePhi_and_GradPhi = (env.loopCells 0).foldl LaserEnvelope3D.saveBody env := rfl

theorem savePhi_current (env : LaserEnvelope3D) :
    env.savePhi_and_GradPhi.Phi_ = env.Phi_
    ∧ env.savePhi_and_GradPhi.GradPhix_ = env.GradPhix_
    ∧ env.savePhi_and_GradPhi.GradPhiy_ = env.GradPhiy_
    ∧ env.savePhi_and_GradPhi.GradPhiz_ = env.GradPhiz_ := by
  rw [savePhi_unfold]
  exact save_loop_current env _

theorem savePhi_at (env : LaserEnvelope3D) (i j k : Nat)
    (hmem : (i, j, k) ∈ env.loopCells 0) :
    env.savePhi_and_GradPhi.Phi_m i j k = env.Phi_ i j k
    ∧ env.savePhi_and_GradPhi.GradPhix_m i j k = env.GradPhix_ i j k
    ∧ env.savePhi_and_GradPhi.GradPhiy_m i j k = env.GradPhiy_ i j k
    ∧ env.savePhi_and_GradPhi.GradPhiz_m i j k = env.GradPhiy_ i j k := by
  rw [savePhi_unfold]
  exact save_loop_at env _ (nodup_loopCells env 0) i j k hmem

theorem sample_cell_visited : (0, 0, 0) ∈ sampleGradients.loopCells 0 := by
  rw [mem_loopCells]
  decide

/-- C21 (the code at the failing input): on `sampleGradients`, where the gradients of
the potential are 2, 3 and 4 along x, y and z, the cell `(0, 0, 0)` is visited by
`savePhi_and_GradPhi` and afterwards `Phi_m`, `GradPhix_m` and `GradPhiy_m` hold the
value of their own counterpart there, but `GradPhiz_m` holds 3, the value of
`GradPhiy_`, and not 4, the value of `GradPhiz_`; the current fields are unchanged. -/
theorem savePhi_stores_GradPhiy_in_GradPhiz_m :
    (0, 0, 0) ∈ sampleGradients.loopCells 0
    ∧ sampleGradients.savePhi_and_GradPhi.Phi_m 0 0 0 = sampleGradients.Phi_ 0 0 0
    ∧ sampleGradients.savePhi_and_GradPhi.GradPhix_m 0 0 0 = sampleGradients.GradPhix_ 0 0 0
    ∧ sampleGradients.savePhi_and_GradPhi.GradPhiy_m 0 0 0 = sampleGradients.GradPhiy_ 0 0 0
    ∧ sampleGradients.savePhi_and_GradPhi.GradPhiz_m 0 0 0 = 3
    ∧ sampleGradients.GradPhiz_ 0 0 0 = 4
    ∧ sampleGradients.savePhi_and_GradPhi.GradPhiz_m 0 0 0 ≠ sampleGradients.GradPhiz_ 0 0 0
    ∧ sampleGradients.savePhi_and_GradPhi.Phi_ = sampleGradients.Phi_
    ∧ sampleGradients.savePhi_and_GradPhi.GradPhix_ = sampleGradients.GradPhix_
    ∧ sampleGradients.savePhi_and_GradPhi.GradPhiy_ = sampleGradients.GradPhiy_
    ∧ sampleGradients.savePhi_and_GradPhi.GradPhiz_ = sampleGradients.GradPhiz_ := by
  obtain ⟨h1, h2, h3, h4⟩ := savePhi_at sampleGradients 0 0 0 sample_cell_visited
  have h5 : sampleGradients.savePhi_and_GradPhi.GradPhiz_m 0 0 0 = 3 := h4
  refine ⟨sample_cell_visited, h1, h2, h3, h5, rfl, ?_, savePhi_current sampleGradients⟩
  rw [h5]
  norm_num [sampleGradients]

theorem phi_loop_at (cabs : Cplx → ℚ) (env : LaserEnvelope3D)
    (l : List (Nat × Nat × Nat)) (hl : l.Nodup) (i j k : Nat) (hmem : (i, j, k) ∈ l) :
    (l.foldl (LaserEnvelope3D.phiBody cabs) env).Phi_ i j k
      = cabs (env.A_ i j k) * cabs (env.A_ i j k) * (1 / 2) := by
  have h := (foldl_cells (LaserEnvelope3D.phiBody cabs)
    (fun (s : LaserEnvelope3D) (c : Nat × Nat × Nat) =>
      (s.Phi_ c.1 c.2.1 c.2.2, s.A_ c.1 c.2.1 c.2.2))
    (fun _ v => (cabs v.2 * cabs v.2 * (1 / 2), v.2))
    (by intro s c; simp [LaserEnvelope3D.phiBody, setAt])
    (by intro s c x hx; simp [LaserEnvelope3D.phiBody, setAt, cell_ne hx])
    l hl env (i, j, k)).1 hmem
  simp only [Prod.mk.injEq] at h
  exact h.1

theorem phi_loop_off (cabs : Cplx → ℚ) (env : LaserEnvelope3D)
    (l : List (Nat × Nat × Nat)) (i j k : Nat) (hmem : (i, j, k) ∉ l) :
    (l.foldl (LaserEnvelope3D.phiBody cabs) env).Phi_ i j k = env.Phi_ i j k :=
  foldl_cells_off (LaserEnvelope3D.phiBody cabs)
    (fun (s : LaserEnvelope3D) (c : Nat × Nat × Nat) => s.Phi_ c.1 c.2.1 c.2.2)
    (by intro s c x hx; simp [LaserEnvelope3D.phiBody, setAt, cell_ne hx])
    l env (i, j, k) hmem

theorem compute_Phi_unfold (cabs : Cplx → ℚ) (env : LaserEnvelope3D) :
    env.compute_Phi cabs = (env.loopCells 1).foldl (LaserEnvelope3D.phiBody cabs) env := rfl

theorem compute_Phi_envelope (cabs : Cplx → ℚ) (env : LaserEnvelope3D) :
    (env.compute_Phi cabs).A_ = env.A_ := by
  rw [compute_Phi_unfold]
  exact foldl_keeps (LaserEnvelope3D.phiBody cabs) (fun s => s.A_) (fun _ _ => rfl) _ env

theorem compute_Phi_at (cabs : Cplx → ℚ) (env : LaserEnvelope3D) (i j k : Nat)
    (hmem : (i, j, k) ∈ env.loopCells 1) :
    (env.compute_Phi cabs).Phi_ i j k
      = cabs (env.A_ i j k) * cabs (env.A_ i j k) * (1 / 2) := by
  rw [compute_Phi_unfold]
  exact phi_loop_at cabs env _ (nodup_loopCells env 1) i j k hmem

theorem compute_Phi_off (cabs : Cplx → ℚ) (env : LaserEnvelope3D) (i j k : Nat)
    (hmem : (i, j, k) ∉ env.loopCells 1) :
    (env.compute_Phi cabs).Phi_ i j k = env.Phi_ i j k := by
  rw [compute_Phi_unfold]
  exact phi_loop_off cabs env _ i j k hmem

theorem sampleAbs_three_four : sampleAbs { re := 3, im := 4 } = 5 := by
  have h : Cplx.normSq { re := 3, im := 4 } = 25 := by norm_num [Cplx.normSq]
  have s25 : Nat.sqrt 25 = 5 := by
    symm
    rw [Nat.eq_sqrt]
    decide
  have s1 : Nat.sqrt 1 = 1 := by
    symm
    rw [Nat.eq_sqrt]
    decide
  unfold sampleAbs
  rw [h]
  norm_num [s25, s1]

/-- C22 (counterexample): on `sampleCorner`, a grid of 3 x 3 x 3 cells whose envelope
is `3 + 4 i` at the corner cell `(0, 0, 0)` and whose potential is zero, with
`sampleAbs` for `std::abs`: the corner cell is a cell of the grid, the loops of
`compute_Phi` visit the cell `(1, 1, 1)` only, `compute_Phi` leaves the envelope as it
is and the potential of the corner cell at 0, while `|A(0, 0, 0)|^2 / 2 = 25 / 2`. -/
theorem compute_Phi_skips_outer_layer :
    sampleCorner.inGrid (0, 0, 0)
    ∧ sampleCorner.loopCells 1 = [(1, 1, 1)]
    ∧ (sampleCorner.compute_Phi sampleAbs).A_ 0 0 0 = { re := 3, im := 4 }
    ∧ (sampleCorner.compute_Phi sampleAbs).Phi_ 0 0 0 = 0
    ∧ sampleAbs ((sampleCorner.compute_Phi sampleAbs).A_ 0 0 0)
        * sampleAbs ((sampleCorner.compute_Phi sampleAbs).A_ 0 0 0) * (1 / 2) = 25 / 2
    ∧ (sampleCorner.compute_Phi sampleAbs).Phi_ 0 0 0
        ≠ sampleAbs ((sampleCorner.compute_Phi sampleAbs).A_ 0 0 0)
            * sampleAbs ((sampleCorner.compute_Phi sampleAbs).A_ 0 0 0) * (1 / 2) := by
  have hA : (sampleCorner.compute_Phi sampleAbs).A_ 0 0 0 = { re := 3, im := 4 } := by
    rw [compute_Phi_envelope]
    rfl
  have hl : sampleCorner.loopCells 1 = [(1, 1, 1)] := by decide
  have hP : (sampleCorner.compute_Phi sampleAbs).Phi_ 0 0 0 = 0 := by
    have hc : sampleCorner.compute_Phi sampleAbs
        = (sampleCorner.loopCells 1).foldl (LaserEnvelope3D.phiBody sampleAbs)
            sampleCorner := rfl
    rw [hc, hl]
    simp [LaserEnvelope3D.phiBody, setAt]
    rfl
  have hV : sampleAbs ((sampleCorner.compute_Phi sampleAbs).A_ 0 0 0)
      * sampleAbs ((sampleCorner.compute_Phi sampleAbs).A_ 0 0 0) * (1 / 2) = 25 / 2 := by
    rw [hA, sampleAbs_three_four]
    norm_num
  refine ⟨by decide, hl, hA, hP, hV, ?_⟩
  rw [hP, hV]
  norm_num

theorem interior_visited (env : LaserEnvelope3D) (i j k : Nat)
    (hfit : env.dims_.getD 0 0 < 2 ^ 32 ∧ env.dims_.getD 1 0 < 2 ^ 32
      ∧ env.dims_.getD 2 0 < 2 ^ 32)
    (hcell : env.inGrid (i, j, k)) :
    (i, j, k) ∈ env.loopCells 1
      ↔ (1 ≤ i ∧ i < env.dims_.getD 0 0 - 1) ∧ (1 ≤ j ∧ j < env.dims_.getD 1 0 - 1)
        ∧ (1 ≤ k ∧ k < env.dims_.getD 2 0 - 1) := by
  obtain ⟨c0, c1, c2⟩ := hcell
  have c0 : i < env.dims_.getD 0 0 := c0
  have c1 : j < env.dims_.getD 1 0 := c1
  have c2 : k < env.dims_.getD 2 0 := c2
  rw [mem_loopCells, loopEnd_eq _ (by omega) hfit.1, loopEnd_eq _ (by omega) hfit.2.1,
    loopEnd_eq _ (by omega) hfit.2.2]

/-- C22 (amended): for every cell `(i, j, k)` of a grid whose sizes are `unsigned int`
values: if all three indices lie in `1 .. dims_[a] - 2` (the cells that the update of
the envelope writes, ghost cells other than those of the outermost layer included),
then after `compute_Phi` the potential of the cell is `|A|^2 / 2`, computed as
`abs(A) * abs(A) * 0.5`, and is not negative; otherwise, on the outermost layer, the
potential of the cell is what it was before the call. The envelope is not changed.
Hence, if `Phi = |A|^2 / 2` held on the outermost layer before the call, it holds at
every cell of the grid after the call, and the potential is nowhere negative. -/
theorem compute_Phi_interior (cabs : Cplx → ℚ) (env : LaserEnvelope3D) (i j k : Nat)
    (hfit : env.dims_.getD 0 0 < 2 ^ 32 ∧ env.dims_.getD 1 0 < 2 ^ 32
      ∧ env.dims_.getD 2 0 < 2 ^ 32)
    (hcell : env.inGrid (i, j, k)) :
    ((1 ≤ i ∧ i < env.dims_.getD 0 0 - 1) ∧ (1 ≤ j ∧ j < env.dims_.getD 1 0 - 1)
        ∧ (1 ≤ k ∧ k < env.dims_.getD 2 0 - 1) →
      (env.compute_Phi cabs).Phi_ i j k
          = cabs (env.A_ i j k) * cabs (env.A_ i j k) * (1 / 2)
        ∧ 0 ≤ (env.compute_Phi cabs).Phi_ i j k)
    ∧ (¬ ((1 ≤ i ∧ i < env.dims_.getD 0 0 - 1) ∧ (1 ≤ j ∧ j < env.dims_.getD 1 0 - 1)
        ∧ (1 ≤ k ∧ k < env.dims_.getD 2 0 - 1)) →
      (env.compute_Phi cabs).Phi_ i j k = env.Phi_ i j k)
    ∧ (env.compute_Phi cabs).A_ = env.A_
    ∧ ((∀ a b c, env.inGrid (a, b, c) →
          ¬ ((1 ≤ a ∧ a < env.dims_.getD 0 0 - 1) ∧ (1 ≤ b ∧ b < env.dims_.getD 1 0 - 1)
            ∧ (1 ≤ c ∧ c < env.dims_.getD 2 0 - 1)) →
          env.Phi_ a b c = cabs (env.A_ a b c) * cabs (env.A_ a b c) * (1 / 2)) →
      (env.compute_Phi cabs).Phi_ i j k
          = cabs ((env.compute_Phi cabs).A_ i j k)
              * cabs ((env.compute_Phi cabs).A_ i j k) * (1 / 2)
        ∧ 0 ≤ (env.compute_Phi cabs).Phi_ i j k) := by
  have hv := interior_visited env i j k hfit hcell
  have hsq : ∀ x : ℚ, 0 ≤ x * x * (1 / 2) := fun x =>
    mul_nonneg (mul_self_nonneg x) (by norm_num)
  have hin : (1 ≤ i ∧ i < env.dims_.getD 0 0 - 1) ∧ (1 ≤ j ∧ j < env.dims_.getD 1 0 - 1)
        ∧ (1 ≤ k ∧ k < env.dims_.getD 2 0 - 1) →
      (env.compute_Phi cabs).Phi_ i j k
          = cabs (env.A_ i j k) * cabs (env.A_ i j k) * (1 / 2) := fun h =>
    compute_Phi_at cabs env i j k (hv.2 h)
  have hoff : ¬ ((1 ≤ i ∧ i < env.dims_.getD 0 0 - 1) ∧ (1 ≤ j ∧ j < env.dims_.getD 1 0 - 1)
        ∧ (1 ≤ k ∧ k < env.dims_.getD 2 0 - 1)) →
      (env.compute_Phi cabs).Phi_ i j k = env.Phi_ i j k := fun h =>
    compute_Phi_off cabs env i j k (fun hm => h (hv.1 hm))
  have hall : (∀ a b c, env.inGrid (a, b, c) →
        ¬ ((1 ≤ a ∧ a < env.dims_.getD 0 0 - 1) ∧ (1 ≤ b ∧ b < env.dims_.getD 1 0 - 1)
          ∧ (1 ≤ c ∧ c < env.dims_.getD 2 0 - 1)) →
        env.Phi_ a b c = cabs (env.A_ a b c) * cabs (env.A_ a b c) * (1 / 2)) →
      (env.compute_Phi cabs).Phi_ i j k
        = cabs ((env.compute_Phi cabs).A_ i j k)
            * cabs ((env.compute_Phi cabs).A_ i j k) * (1 / 2) := by
    intro hold
    rw [compute_Phi_envelope]
    by_cases h : (1 ≤ i ∧ i < env.dims_.getD 0 0 - 1) ∧ (1 ≤ j ∧ j < env.dims_.getD 1 0 - 1)
        ∧ (1 ≤ k ∧ k < env.dims_.getD 2 0 - 1)
    · exact hin h
    · rw [hoff h]
      exact hold i j k hcell h
  refine ⟨fun h => ⟨hin h, ?_⟩, hoff, compute_Phi_envelope cabs env, fun hold => ⟨hall hold, ?_⟩⟩
  · rw [hin h]
    exact hsq _
  · rw [hall hold]
    exact hsq _

/-- Witness of C22 (amended) on `sampleCorner` with `sampleAbs` for `std::abs`: the
potential of the interior cell `(1, 1, 1)` becomes `|A(1, 1, 1)|^2 / 2`, and the
potential of the corner cell `(0, 0, 0)` stays what it was. -/
theorem compute_Phi_interior_witness :
    sampleCorner.inGrid (1, 1, 1)
    ∧ (sampleCorner.compute_Phi sampleAbs).Phi_ 1 1 1
        = sampleAbs (sampleCorner.A_ 1 1 1) * sampleAbs (sampleCorner.A_ 1 1 1) * (1 / 2)
    ∧ sampleCorner.inGrid (0, 0, 0)
    ∧ (sampleCorner.compute_Phi sampleAbs).Phi_ 0 0 0 = sampleCorner.Phi_ 0 0 0 :=
  ⟨by decide,
   ((compute_Phi_interior sampleAbs sampleCorner 1 1 1 (by decide) (by decide)).1
      (by decide)).1,
   by decide,
   (compute_Phi_interior sampleAbs sampleCorner 0 0 0 (by decide) (by decide)).2.1
      (by decide)⟩

/-! ## The loops of the envelope stay inside the grid: theorems -/

theorem dimPrim_three (params : Params) (hdim : params.nDim_field = 3) :
    dimPrim params
      = [((params.n_space.getD 0 0 + 1) % 2 ^ 32 + 2 * params.oversize.getD 0 0 % 2 ^ 32)
            % 2 ^ 32,
         ((params.n_space.getD 1 0 + 1) % 2 ^ 32 + 2 * params.oversize.getD 1 0 % 2 ^ 32)
            % 2 ^ 32,
         ((params.n_space.getD 2 0 + 1) % 2 ^ 32 + 2 * params.oversize.getD 2 0 % 2 ^ 32)
            % 2 ^ 32] := by
  unfold dimPrim
  rw [hdim]
  rfl

theorem dimPrim_getD (params : Params) (hdim : params.nDim_field = 3) (a : Nat) (ha : a < 3)
    (hfit : params.n_space.getD a 0 + 1 + 2 * params.oversize.getD a 0 < 2 ^ 32) :
    (dimPrim params).getD a 0 = params.n_space.getD a 0 + 1 + 2 * params.oversize.getD a 0 := by
  rw [dimPrim_three params hdim]
  interval_cases a
  · simp only [List.getD_cons_zero]
    omega
  · simp only [List.getD_cons_succ, List.getD_cons_zero]
    omega
  · simp only [List.getD_cons_succ, List.getD_cons_zero]
    omega

theorem neighbours_inGrid (env : LaserEnvelope3D) (c : Nat × Nat × Nat)
    (h0 : loopEnd (env.dims_.getD 0 0) + 1 = env.dims_.getD 0 0)
    (h1 : loopEnd (env.dims_.getD 1 0) + 1 = env.dims_.getD 1 0)
    (h2 : loopEnd (env.dims_.getD 2 0) + 1 = env.dims_.getD 2 0)
    (hc : c ∈ env.loopCells 1) :
    env.inGrid c ∧ ∀ x ∈ neighbourCells c, env.inGrid x := by
  obtain ⟨i, j, k⟩ := c
  rw [mem_loopCells] at hc
  obtain ⟨⟨i1, i2⟩, ⟨j1, j2⟩, ⟨k1, k2⟩⟩ := hc
  have b0 : loopEnd (env.dims_.getD 0 0) < 2 ^ 32 := Nat.mod_lt _ (by norm_num)
  have b1 : loopEnd (env.dims_.getD 1 0) < 2 ^ 32 := Nat.mod_lt _ (by norm_num)
  have b2 : loopEnd (env.dims_.getD 2 0) < 2 ^ 32 := Nat.mod_lt _ (by norm_num)
  refine ⟨⟨by show i < _; omega, by show j < _; omega, by show k < _; omega⟩, ?_⟩
  intro x hx
  simp only [neighbourCells, List.mem_cons, List.mem_singleton, List.not_mem_nil,
    or_false] at hx
  simp only [LaserEnvelope3D.inGrid]
  rcases hx with rfl | rfl | rfl | rfl | rfl | rfl <;>
    simp only [indexBefore, indexAfter] <;> omega

theorem update_loop_off (cabs : Cplx → ℚ) (A3Dnew : CGrid) (env : LaserEnvelope3D)
    (em : EnvelopeFields) (l : List (Nat × Nat × Nat)) (i j k : Nat)
    (hmem : (i, j, k) ∉ l) :
    (l.foldl (LaserEnvelope3D.updateBody cabs A3Dnew) (env, em)).1.A_ i j k = env.A_ i j k
    ∧ (l.foldl (LaserEnvelope3D.updateBody cabs A3Dnew) (env, em)).1.A0_ i j k
        = env.A0_ i j k
    ∧ (l.foldl (LaserEnvelope3D.updateBody cabs A3Dnew) (env, em)).2.Env_A_abs_ i j k
        = em.Env_A_abs_ i j k
    ∧ (l.foldl (LaserEnvelope3D.updateBody cabs A3Dnew) (env, em)).2.Env_E_abs_ i j k
        = em.Env_E_abs_ i j k := by
  have h := foldl_cells_off (LaserEnvelope3D.updateBody cabs A3Dnew)
    (fun (s : LaserEnvelope3D × EnvelopeFields) (c : Nat × Nat × Nat) =>
      (s.1.A_ c.1 c.2.1 c.2.2, s.1.A0_ c.1 c.2.1 c.2.2, s.2.Env_A_abs_ c.1 c.2.1 c.2.2,
        s.2.Env_E_abs_ c.1 c.2.1 c.2.2))
    (by intro s c x hx; simp [LaserEnvelope3D.updateBody, setAt, cell_ne hx])
    l (env, em) (i, j, k) hmem
  simp only [Prod.mk.injEq] at h
  exact h

theorem grad_loop_off (env : LaserEnvelope3D) (l : List (Nat × Nat × Nat)) (i j k : Nat)
    (hmem : (i, j, k) ∉ l) :
    (l.foldl LaserEnvelope3D.gradBody env).GradPhix_ i j k = env.GradPhix_ i j k
    ∧ (l.foldl LaserEnvelope3D.gradBody env).GradPhiy_ i j k = env.GradPhiy_ i j k
    ∧ (l.foldl LaserEnvelope3D.gradBody env).GradPhiz_ i j k = env.GradPhiz_ i j k := by
  have h := foldl_cells_off LaserEnvelope3D.gradBody
    (fun (s : LaserEnvelope3D) (c : Nat × Nat × Nat) =>
      (s.GradPhix_ c.1 c.2.1 c.2.2, s.GradPhiy_ c.1 c.2.1 c.2.2, s.GradPhiz_ c.1 c.2.1 c.2.2))
    (by intro s c x hx; simp [LaserEnvelope3D.gradBody, setAt, cell_ne hx])
    l env (i, j, k) hmem
  simp only [Prod.mk.injEq] at h
  exact h

theorem envelope_compute_unfold (cabs : Cplx → ℚ) (env : LaserEnvelope3D)
    (em : EnvelopeFields) :
    LaserEnvelope3D.compute cabs env em
      = (env.loopCells 1).foldl
          (LaserEnvelope3D.updateBody cabs
            ((env.loopCells 1).foldl (LaserEnvelope3D.solverBody env em) (fun _ _ _ => 0)))
          (env, em) := rfl

theorem compute_gradient_Phi_unfold (env : LaserEnvelope3D) :
    env.compute_gradient_Phi = (env.loopCells 1).foldl LaserEnvelope3D.gradBody env := rfl

theorem outer_layer_not_visited (env : LaserEnvelope3D) (i j k : Nat)
    (h0 : loopEnd (env.dims_.getD 0 0) = env.dims_.getD 0 0 - 1)
    (h1 : loopEnd (env.dims_.getD 1 0) = env.dims_.getD 1 0 - 1)
    (h2 : loopEnd (env.dims_.getD 2 0) = env.dims_.getD 2 0 - 1)
    (hout : i = 0 ∨ i = env.dims_.getD 0 0 - 1 ∨ j = 0 ∨ j = env.dims_.getD 1 0 - 1
      ∨ k = 0 ∨ k = env.dims_.getD 2 0 - 1) :
    (i, j, k) ∉ env.loopCells 1 := by
  rw [mem_loopCells, h0, h1, h2]
  omega

/-- C23 (amended): for every envelope whose grid has the shape that the constructor
computes from three-dimensional parameters with `n_space + 1 + 2 * oversize` below
`2^32` on each axis, each axis has that size, which is at least 1, so that the
`unsigned int` bound `dims_[a] - 1` of the loops does not wrap around; every cell
visited by the loops of `compute` and of `compute_gradient_Phi`, and each of its six
neighbours at `i-1`, `i+1`, `j-1`, `j+1`, `k-1`, `k+1`, lies inside the grid; and at
every cell of the outermost layer (index 0 or `dims_[a] - 1` on some axis) `compute`
leaves `A_`, `A0_`, `Env_A_abs_` and `Env_E_abs_` as they were and
`compute_gradient_Phi` leaves `GradPhix_`, `GradPhiy_` and `GradPhiz_` as they were. -/
theorem envelope_loops_inside_grid (cabs : Cplx → ℚ) (params : Params)
    (env : LaserEnvelope3D) (em : EnvelopeFields)
    (hdim : params.nDim_field = 3)
    (hfit : ∀ a, a < 3 →
      params.n_space.getD a 0 + 1 + 2 * params.oversize.getD a 0 < 2 ^ 32)
    (hbuilt : env.dims_ = dimPrim params) :
    (∀ a, a < 3 →
        env.dims_.getD a 0 = params.n_space.getD a 0 + 1 + 2 * params.oversize.getD a 0
        ∧ 1 ≤ env.dims_.getD a 0
        ∧ loopEnd (env.dims_.getD a 0) = env.dims_.getD a 0 - 1)
    ∧ (∀ c, c ∈ env.loopCells 1 →
        env.inGrid c ∧ ∀ x, x ∈ neighbourCells c → env.inGrid x)
    ∧ (∀ i j k, (i = 0 ∨ i = env.dims_.getD 0 0 - 1 ∨ j = 0 ∨ j = env.dims_.getD 1 0 - 1
          ∨ k = 0 ∨ k = env.dims_.getD 2 0 - 1) →
        (LaserEnvelope3D.compute cabs env em).1.A_ i j k = env.A_ i j k
        ∧ (LaserEnvelope3D.compute cabs env em).1.A0_ i j k = env.A0_ i j k
        ∧ (LaserEnvelope3D.compute cabs env em).2.Env_A_abs_ i j k = em.Env_A_abs_ i j k
        ∧ (LaserEnvelope3D.compute cabs env em).2.Env_E_abs_ i j k = em.Env_E_abs_ i j k
        ∧ env.compute_gradient_Phi.GradPhix_ i j k = env.GradPhix_ i j k
        ∧ env.compute_gradient_Phi.GradPhiy_ i j k = env.GradPhiy_ i j k
        ∧ env.compute_gradient_Phi.GradPhiz_ i j k = env.GradPhiz_ i j k) := by
  have hsize : ∀ a, a < 3 →
      env.dims_.getD a 0 = params.n_space.getD a 0 + 1 + 2 * params.oversize.getD a 0
      ∧ 1 ≤ env.dims_.getD a 0
      ∧ loopEnd (env.dims_.getD a 0) = env.dims_.getD a 0 - 1 := by
    intro a ha
    have e := dimPrim_getD params hdim a ha (hfit a ha)
    rw [← hbuilt] at e
    have hlt := hfit a ha
    refine ⟨e, by omega, loopEnd_eq _ (by omega) (by omega)⟩
  have s0 := hsize 0 (by norm_num)
  have s1 := hsize 1 (by norm_num)
  have s2 := hsize 2 (by norm_num)
  refine ⟨hsize, ?_, ?_⟩
  · intro c hc
    exact neighbours_inGrid env c (by omega) (by omega) (by omega) hc
  · intro i j k hout
    have hmem := outer_layer_not_visited env i j k s0.2.2 s1.2.2 s2.2.2 hout
    rw [envelope_compute_unfold, compute_gradient_Phi_unfold]
    obtain ⟨a1, a2, a3, a4⟩ := update_loop_off cabs
      ((env.loopCells 1).foldl (LaserEnvelope3D.solverBody env em) (fun _ _ _ => 0))
      env em (env.loopCells 1) i j k hmem
    obtain ⟨g1, g2, g3⟩ := grad_loop_off env (env.loopCells 1) i j k hmem
    exact ⟨a1, a2, a3, a4, g1, g2, g3⟩

/-- Witness of C23 (amended) on `sampleBuilt`, a grid of 5 x 5 x 5 cells: the bound of
the loops is 4, the neighbour `(4, 1, 1)` of the visited cell `(3, 1, 1)` lies inside
the grid, and `compute` leaves the envelope of the outer cell `(4, 1, 1)` as it was. -/
theorem envelope_loops_inside_grid_witness :
    sampleParams.nDim_field = 3
    ∧ (∀ a, a < 3 →
      sampleParams.n_space.getD a 0 + 1 + 2 * sampleParams.oversize.getD a 0 < 2 ^ 32)
    ∧ sampleBuilt.dims_ = dimPrim sampleParams
    ∧ loopEnd (sampleBuilt.dims_.getD 0 0) = 4
    ∧ sampleBuilt.inGrid (indexAfter 3, 1, 1)
    ∧ (LaserEnvelope3D.compute (fun _ => 0) sampleBuilt sampleEnvelopeFields).1.A_ 4 1 1
        = sampleBuilt.A_ 4 1 1 :=
  have hfit : ∀ a, a < 3 →
      sampleParams.n_space.getD a 0 + 1 + 2 * sampleParams.oversize.getD a 0 < 2 ^ 32 := by
    decide
  have h := envelope_loops_inside_grid (fun _ => 0) sampleParams sampleBuilt
    sampleEnvelopeFields rfl hfit rfl
  have hmem : (3, 1, 1) ∈ sampleBuilt.loopCells 1 := by
    rw [mem_loopCells]
    decide
  ⟨rfl, hfit, rfl, (h.1 0 (by decide)).2.2,
    (h.2.1 (3, 1, 1) hmem).2 (indexAfter 3, 1, 1) (by simp [neighbourCells]),
    (h.2.2 4 1 1 (by decide)).1⟩

/-- C23 (counterexample): the constructor called with 4294967295 cells per axis and no
ghost margin computes the shape `[0, 0, 0]`; the bound `dims_[0] - 1` of the loops then
wraps around to 4294967295, the loops of `compute` and `compute_gradient_Phi` visit
the cell `(1, 1, 1)`, and neither this cell nor its neighbour `(2, 1, 1)` lies inside
the grid. -/
theorem envelope_bound_wraps_on_empty_grid :
    wrapBuilt.dims_ = dimPrim wrapParams
    ∧ dimPrim wrapParams = [0, 0, 0]
    ∧ loopEnd (wrapBuilt.dims_.getD 0 0) = 4294967295
    ∧ (1, 1, 1) ∈ wrapBuilt.loopCells 1
    ∧ ¬ wrapBuilt.inGrid (1, 1, 1)
    ∧ (2, 1, 1) ∈ neighbourCells (1, 1, 1)
    ∧ ¬ wrapBuilt.inGrid (2, 1, 1) := by
  refine ⟨rfl, by decide, by decide, ?_, by decide, by decide, by decide⟩
  rw [mem_loopCells]
  decide

end Smilei
